import Mathlib

/-!  Verification of the reflective binary serialization engine of
`Serialization.cpp` (libgig).  The development shallowly embeds the
data model (UID, DataType, Member, Object, object pool, Archive), the
codec (encode to / decode from a length-prefixed byte stream) and the
synchronizer (`Archive::Syncer`), and proves or refutes the claims of
the specification against these definitions.

Modelling conventions:
 - byte strings (`std::string`, raw buffers) are `List Nat`, one entry
   per byte value;
 - machine integers are `Nat` / `Int` with explicit wrapping modulo
   `2 ^ w` where the code can overflow;
 - `std::map` object pools are association lists kept sorted by the key
   order, with `operator[]` modelled as lookup-or-insert-default;
 - exceptions are `Except` / `Option` error values.  -/

namespace Serialization

/-- Byte strings: `std::string` and raw data buffers as lists of byte
values (each intended to be below 256). -/
abbrev Str := List Nat

/-- Canonical base type tag "class" as bytes. -/
def strClass : Str := [99, 108, 97, 115, 115]

/-- Byte prefix "int" used by the integer and signedness tests. -/
def strInt : Str := [105, 110, 116]

/-- Byte prefix "uint" used by the integer test. -/
def strUint : Str := [117, 105, 110, 116]

/-- Byte prefix "real" used by the floating point test. -/
def strReal : Str := [114, 101, 97, 108]

/-- Canonical base type tag "bool" as bytes. -/
def strBool : Str := [98, 111, 111, 108]

/-- Canonical base type tag "enum" as bytes. -/
def strEnum : Str := [101, 110, 117, 109]

/-- The wire format magic "Srx1v" as bytes (`MAGIC_START`). -/
def strMagic : Str := [83, 114, 120, 49, 118]

/-- Lexicographic (byte-wise) strict comparison of byte strings, the
semantics of `std::string::operator<`. -/
def strLtB : Str → Str → Bool
  | [], [] => false
  | [], _ :: _ => true
  | _ :: _, [] => false
  | a :: as, b :: bs => if a < b then true else if b < a then false else strLtB as bs

/-- The all-ones pointer value `(void*)-1` on a 64 bit host, used as the
second invalid handle sentinel. -/
def ptrOnes : Nat := 2 ^ 64 - 1

/-- A unique identifier of a native datum: the pair of its address
shaped handle `id` and its byte size (C++ `struct UID`). -/
structure UID where
  id : Nat
  size : Nat
deriving DecidableEq

/-- The distinguished invalid identity `NO_UID = { NULL, 0 }`. -/
def NO_UID : UID := { id := 0, size := 0 }

/-- `UID::isValid`: the handle is neither null nor all-ones and the size
is non zero. -/
def UID.isValid (u : UID) : Bool :=
  decide (u.id ≠ 0) && decide (u.id ≠ ptrOnes) && decide (u.size ≠ 0)

/-- Modelled from the spec (the comparison operator of `struct UID` is
declared in the missing header `Serialization.h`): the strict order on
identities used as the `std::map` key order of object pools, comparing
the handle first and the size second. -/
def UID.lt (a b : UID) : Bool :=
  decide (a.id < b.id) || (decide (a.id = b.id) && decide (a.size < b.size))

/-- An identity chain: element 0 identifies a variable, element 1 the
pointee when the variable is a pointer (C++ `typedef UIDChain`). -/
abbrev UIDChain := List UID

/-- Reflection of one native type (C++ `class DataType`): base type tag,
opaque custom type name, byte size (C++ `int`) and pointer flag. -/
structure DataType where
  baseTypeName : Str
  customTypeName : Str
  size : Int
  isPointer : Bool
deriving DecidableEq

/-- The default constructed `DataType()`: size 0, not a pointer, empty
names.  It is invalid. -/
def defaultDataType : DataType :=
  { baseTypeName := [], customTypeName := [], size := 0, isPointer := false }

/-- `DataType::isValid`: the size is non zero. -/
def DataType.isValid (t : DataType) : Bool := decide (t.size ≠ 0)

/-- `DataType::isClass`. -/
def DataType.isClass (t : DataType) : Bool := t.baseTypeName == strClass

/-- `DataType::isPrimitive`. -/
def DataType.isPrimitive (t : DataType) : Bool := !t.isClass

/-- `DataType::isInteger`: the base type name starts with "int" or
"uint". -/
def DataType.isInteger (t : DataType) : Bool :=
  t.baseTypeName.take 3 == strInt || t.baseTypeName.take 4 == strUint

/-- `DataType::isReal`: the base type name starts with "real". -/
def DataType.isReal (t : DataType) : Bool := t.baseTypeName.take 4 == strReal

/-- `DataType::isBool`. -/
def DataType.isBool (t : DataType) : Bool := t.baseTypeName == strBool

/-- `DataType::isEnum`. -/
def DataType.isEnum (t : DataType) : Bool := t.baseTypeName == strEnum

/-- `DataType::isSigned`: the base type name starts with "int", or the
type is a real type. -/
def DataType.isSigned (t : DataType) : Bool :=
  t.baseTypeName.take 3 == strInt || t.isReal

/-- `DataType::operator<` exactly as written in the source, preserving
the C++ parenthesization: because `&&` binds tighter than `||`, the
third and fourth disjuncts do not require the earlier attributes to be
equal. -/
def DataType.lt (a b : DataType) : Bool :=
  strLtB a.baseTypeName b.baseTypeName ||
   (a.baseTypeName == b.baseTypeName &&
    strLtB a.customTypeName b.customTypeName ||
   (a.customTypeName == b.customTypeName &&
    decide (a.size < b.size) ||
   (a.size == b.size &&
    (!a.isPointer && b.isPointer))))

/-- The strict lexicographic order on the attribute tuple
`(base_kind, custom_tag, width, is_pointer)` exactly as the
specification words it (the reference order for claim C7). -/
def DataType.lexLt (a b : DataType) : Bool :=
  strLtB a.baseTypeName b.baseTypeName ||
  (a.baseTypeName == b.baseTypeName &&
   (strLtB a.customTypeName b.customTypeName ||
    (a.customTypeName == b.customTypeName &&
     (decide (a.size < b.size) ||
      (a.size == b.size && (!a.isPointer && b.isPointer))))))

/-- Reflection of one member of a structured type (C++ `class Member`):
name, identity of the member storage, byte offset inside the enclosing
object (C++ `size_t`), and type. -/
structure Member where
  name : Str
  uid : UID
  offset : Nat
  type : DataType
deriving DecidableEq

/-- The default constructed `Member()`: `NO_UID`, offset 0, empty name,
default type.  It is invalid and serves as the "no match" sentinel. -/
def defaultMember : Member :=
  { name := [], uid := NO_UID, offset := 0, type := defaultDataType }

/-- `Member::isValid`: valid uid, non empty name, valid type. -/
def Member.isValid (m : Member) : Bool :=
  m.uid.isValid && decide (m.name ≠ []) && m.type.isValid

/-- Reflection of one native object (C++ `class Object`): type, version
pair (C++ `Version` is a 32 bit unsigned integer), identity chain
(`m_uid`), member list and raw value bytes (`m_data`). -/
structure Object where
  type : DataType
  version : Nat
  minVersion : Nat
  uidChain : UIDChain
  members : List Member
  data : List Nat
deriving DecidableEq

/-- The default constructed `Object()`: versions 0, no chain, no
members, default type.  It is invalid. -/
def defaultObject : Object :=
  { type := defaultDataType,
    version := 0,
    minVersion := 0,
    uidChain := [],
    members := [],
    data := [] }

/-- Modelled from the spec (accessor declared in the missing header):
`Object::uid(i)` returns element `i` of the identity chain, or `NO_UID`
when the chain is too short. -/
def Object.uid (o : Object) (i : Nat) : UID := o.uidChain.getD i NO_UID

/-- `Object::isValid`: valid type and non empty identity chain. -/
def Object.isValid (o : Object) : Bool :=
  o.type.isValid && decide (o.uidChain ≠ [])

/-- `Object::isVersionCompatibleTo`, verbatim from the source: equal
versions are compatible, otherwise the object with the larger version
must have `minVersion` at most the version of the other. -/
def Object.isVersionCompatibleTo (o other : Object) : Bool :=
  if o.version = other.version then true
  else if o.version > other.version then decide (o.minVersion ≤ other.version)
  else decide (other.minVersion ≤ o.version)

/-- Loop of `Object::memberNamed`: the first member with the given
name, or the invalid default member. -/
def memberNamedLoop : List Member → Str → Member
  | [], _ => defaultMember
  | m :: ms, n => if m.name = n then m else memberNamedLoop ms n

/-- `Object::memberNamed`. -/
def Object.memberNamed (o : Object) (n : Str) : Member :=
  memberNamedLoop o.members n

/-- Loop of `Object::membersOfType`: all members with the given type,
in member list order. -/
def membersOfTypeLoop : List Member → DataType → List Member
  | [], _ => []
  | m :: ms, t =>
    if m.type = t then m :: membersOfTypeLoop ms t else membersOfTypeLoop ms t

/-- `Object::membersOfType`. -/
def Object.membersOfType (o : Object) (t : DataType) : List Member :=
  membersOfTypeLoop o.members t

/-- Loop of `Object::sequenceIndexOf`: the index of the first member
equal to the given one, or -1 (the C++ function returns `int`). -/
def seqIndexLoop : List Member → Member → Nat → Int
  | [], _, _ => -1
  | x :: xs, m, i => if x = m then (i : Int) else seqIndexLoop xs m (i + 1)

/-- `Object::sequenceIndexOf`. -/
def Object.sequenceIndexOf (o : Object) (m : Member) : Int :=
  seqIndexLoop o.members m 0

/-- An object pool (C++ `Archive::ObjectPool`, a `std::map<UID,Object>`)
as an association list sorted by `UID.lt` on the keys. -/
abbrev ObjectPool := List (UID × Object)

/-- First entry stored under a key, if any (`std::map::find`). -/
def poolFind? : ObjectPool → UID → Option Object
  | [], _ => none
  | (k, o) :: rest, u => if k = u then some o else poolFind? rest u

/-- Sorted insertion of a fresh key (helper of the `operator[]`
default-insertion of `std::map`). -/
def poolInsertAt : ObjectPool → UID → Object → ObjectPool
  | [], u, o => [(u, o)]
  | (k, w) :: rest, u, o =>
    if UID.lt u k then (u, o) :: (k, w) :: rest
    else (k, w) :: poolInsertAt rest u o

/-- `std::map::operator[]` read access: return the stored object if the
key is present, otherwise insert a default constructed (invalid) object
under the key and return it.  The possibly grown pool is returned as
well. -/
def poolGetInsert (p : ObjectPool) (u : UID) : Object × ObjectPool :=
  match poolFind? p u with
  | some o => (o, p)
  | none => (defaultObject, poolInsertAt p u defaultObject)

/-- `std::map::operator[]` write access (`m_allObjects[uid] = obj`):
replace the entry under the key, or insert it at its sorted position. -/
def poolSet : ObjectPool → UID → Object → ObjectPool
  | [], u, o => [(u, o)]
  | (k, w) :: rest, u, o =>
    if UID.lt u k then (u, o) :: (k, w) :: rest
    else if k = u then (u, o) :: rest
    else (k, w) :: poolSet rest u o

/-- `std::map::erase(key)`: remove the entry stored under the key. -/
def poolErase : ObjectPool → UID → ObjectPool
  | [], _ => []
  | (k, w) :: rest, u => if k = u then rest else (k, w) :: poolErase rest u

/-- The `operation_t` state flag of an archive. -/
inductive Operation
  | opNone
  | opSerialize
  | opDeserialize
deriving DecidableEq

/-- The archive (C++ `class Archive`): object pool, root identity, raw
byte stream, metadata strings, the two `time_t` stamps (seconds, as
natural numbers; `LIBGIG_EPOCH_TIME` is 0) and the modified flag. -/
structure Archive where
  allObjects : ObjectPool
  operation : Operation
  root : UID
  rawData : List Nat
  name : Str
  comment : Str
  timeCreated : Nat
  timeModified : Nat
  isModified : Bool
deriving DecidableEq

/-- The default constructed `Archive()`. -/
def archive0 : Archive :=
  { allObjects := [],
    operation := Operation.opNone,
    root := NO_UID,
    rawData := [],
    name := [],
    comment := [],
    timeCreated := 0,
    timeModified := 0,
    isModified := false }

/-- `Archive::objectByUID`: `return m_allObjects[uid]` - a `std::map`
`operator[]` access, so a missing key (valid or not) inserts a default
constructed invalid object.  The returned object and the updated
archive are both produced. -/
def Archive.objectByUID (a : Archive) (u : UID) : Object × Archive :=
  let r := poolGetInsert a.allObjects u
  (r.1, { a with allObjects := r.2 })

/-- `Archive::rootObject`: `return m_allObjects[m_root]`. -/
def Archive.rootObject (a : Archive) : Object × Archive :=
  a.objectByUID a.root

/-- `Archive::clear`: empty the pool, reset operation, root, raw data,
modified flag and both time stamps; name and comment are untouched. -/
def Archive.clear (a : Archive) : Archive :=
  { a with
      allObjects := [],
      operation := Operation.opNone,
      root := NO_UID,
      rawData := [],
      isModified := false,
      timeCreated := 0,
      timeModified := 0 }

/-- `Archive::isModified`. -/
def Archive.isModifiedF (a : Archive) : Bool := a.isModified

/-- Loop of `Archive::Syncer::dstMemberMatching` over the type matched
members searching one with the offset of the source member. -/
def findOffsetLoop : List Member → Nat → Option Member
  | [], _ => none
  | m :: ms, off => if m.offset = off then some m else findOffsetLoop ms off

/-- Loop of `Archive::Syncer::dstMemberMatching` over the type matched
members searching one whose sequence index in the destination object
equals the given source sequence index. -/
def findSeqLoop (dstObj : Object) : List Member → Int → Option Member
  | [], _ => none
  | m :: ms, srcSeqNr =>
    if dstObj.sequenceIndexOf m = srcSeqNr then some m
    else findSeqLoop dstObj ms srcSeqNr

/-- `Archive::Syncer::dstMemberMatching`, verbatim: name match first
(failing with no fallback if the name matched member has another type),
then unique type match, then type plus offset, then type plus sequence
index, else the invalid default member. -/
def dstMemberMatching (dstObj srcObj : Object) (srcMember : Member) : Member :=
  let dstMember := dstObj.memberNamed srcMember.name
  if dstMember.isValid then
    if dstMember.type = srcMember.type then dstMember else defaultMember
  else
    let members := dstObj.membersOfType srcMember.type
    if members.length = 0 then defaultMember
    else if members.length = 1 then members.headD defaultMember
    else
      match findOffsetLoop members srcMember.offset with
      | some m => m
      | none =>
        let srcSeqNr := srcObj.sequenceIndexOf srcMember
        match findSeqLoop dstObj members srcSeqNr with
        | some m => m
        | none => defaultMember

/-- First index of an equal member in a list, if any (the sequence
index notion of the specification, for the ladder rule M4). -/
def specIdxLoop : List Member → Member → Option Nat
  | [], _ => none
  | x :: xs, m =>
    if x = m then some 0
    else match specIdxLoop xs m with
         | some i => some (i + 1)
         | none => none

/-- The member matching ladder exactly as the specification words it
(rules M1 to M5), used as the reference for claim C1: M1 name plus type
(no fallback on a name match with a different type), M2 unique type,
M3 type plus offset, M4 type plus sequence index, M5 no match. -/
def specMemberMatching (dstObj srcObj : Object) (srcMember : Member) :
    Option Member :=
  match dstObj.members.find? (fun m => m.name == srcMember.name) with
  | some d => if d.type = srcMember.type then some d else none
  | none =>
    let sameType := dstObj.members.filter (fun m => m.type == srcMember.type)
    if sameType.length = 1 then some (sameType.headD defaultMember)
    else
      match sameType.find? (fun m => m.offset == srcMember.offset) with
      | some d => some d
      | none =>
        match specIdxLoop srcObj.members srcMember with
        | none => none
        | some si =>
          sameType.find? (fun m => specIdxLoop dstObj.members m == some si)

/-- The errors thrown by the synchronizer, as structured values carrying
the data interpolated into the C++ exception messages. -/
inductive SyncError
  | noSourceRoot
  | noDestinationRoot
  | versionIncompatible (dstVersion dstMin srcVersion srcMin : Nat)
  | incompatibleType (dstType srcType : DataType)
  | expectedMemberMissing
deriving DecidableEq

/-- Number of pool entries holding a valid object: the termination
measure of the synchronizer (each deep `syncObject` call erases one
valid entry and the map accesses only ever insert invalid ones). -/
def poolValidCount (p : ObjectPool) : Nat :=
  (p.filter (fun e => e.2.isValid)).length

/-- Whether the pool stores a valid object under the key. -/
def lookupIsValid (p : ObjectPool) (u : UID) : Bool :=
  match poolFind? p u with
  | some o => o.isValid
  | none => false

/-- Well keyed pool: the keys are pairwise distinct and every valid
entry is stored under the head of its identity chain, as the data model
of the specification prescribes for pools built by the registration
walk or by the decoder. -/
def PoolWF (p : ObjectPool) : Prop :=
  (p.map Prod.fst).Nodup ∧ ∀ e ∈ p, e.2.isValid = true → e.1 = e.2.uid 0

instance (p : ObjectPool) : Decidable (PoolWF p) := by
  unfold PoolWF; infer_instance

mutual

/-- `Archive::Syncer::syncObject` with an explicit recursion fuel: the
fuel is consumed by each deep recursion step only, `none` means the
fuel ran out.  A `some (dstPool, srcPool, err)` result carries the two
pools at return or throw time and the raised error if any.  Primitive
leaves write into live destination memory, which leaves both pools
unchanged.  The pool accesses of `syncPointer` and `syncMember` are
`std::map::operator[]` and may insert invalid placeholder entries into
either pool. -/
def syncObjectF (fuel : Nat) (dpool spool : ObjectPool)
    (dstObj srcObj : Object) :
    Option (ObjectPool × ObjectPool × Option SyncError) :=
    if dstObj.isValid = false || srcObj.isValid = false then
      some (dpool, spool, none)
    else if dstObj.isVersionCompatibleTo srcObj = false then
      some (dpool, spool, some (SyncError.versionIncompatible
        dstObj.version dstObj.minVersion srcObj.version srcObj.minVersion))
    else if dstObj.type ≠ srcObj.type then
      some (dpool, spool, some (SyncError.incompatibleType dstObj.type srcObj.type))
    else
      match fuel with
      | 0 => none
      | fuel + 1 =>
        let dpool1 := poolErase dpool (dstObj.uid 0)
        if dstObj.type.isPrimitive && !dstObj.type.isPointer then
          some (dpool1, spool, none)
        else if dstObj.type.isPointer then
          let fd := poolGetInsert dpool1 (dstObj.uid 1)
          let fs := poolGetInsert spool (srcObj.uid 1)
          syncObjectF fuel fd.2 fs.2 fd.1 fs.1
        else
          syncMembersF fuel dpool1 spool dstObj srcObj srcObj.members
termination_by (fuel, 0, 0)

/-- The member loop of `syncObject` (class typed objects): for each
source member in order, match a destination member, throw if none,
fetch both member objects through `operator[]` and recurse. -/
def syncMembersF (fuel : Nat) (dpool spool : ObjectPool)
    (dstObj srcObj : Object) (ms : List Member) :
    Option (ObjectPool × ObjectPool × Option SyncError) :=
  match ms with
  | [] => some (dpool, spool, none)
  | srcMember :: rest =>
    let dstMember := dstMemberMatching dstObj srcObj srcMember
    if dstMember.isValid = false then
      some (dpool, spool, some SyncError.expectedMemberMissing)
    else
      let fd := poolGetInsert dpool dstMember.uid
      let fs := poolGetInsert spool srcMember.uid
      match syncObjectF fuel fd.2 fs.2 fd.1 fs.1 with
      | none => none
      | some (dp, sp, some e) => some (dp, sp, some e)
      | some (dp, sp, none) => syncMembersF fuel dp sp dstObj srcObj rest
termination_by (fuel, 1, ms.length)

end

/-- The `Archive::Syncer` constructor: fetch both root objects through
`operator[]` (possibly inserting invalid placeholders), throw if either
is invalid, then run `syncObject` on the pair, with the given fuel. -/
def syncerRun (fuel : Nat) (dst src : Archive) :
    Option (ObjectPool × ObjectPool × Option SyncError) :=
  let fs := poolGetInsert src.allObjects src.root
  let fd := poolGetInsert dst.allObjects dst.root
  if fs.1.isValid = false then
    some (fd.2, fs.2, some SyncError.noSourceRoot)
  else if fd.1.isValid = false then
    some (fd.2, fs.2, some SyncError.noDestinationRoot)
  else
    syncObjectF fuel fd.2 fs.2 fd.1 fs.1

/-- `std::vector::resize(n)`: keep the first `n` bytes, pad with zero
bytes up to length `n`. -/
def resizeData (d : List Nat) (n : Nat) : List Nat :=
  d.take n ++ List.replicate (n - d.length) 0

/-- Overwrite the start of a buffer with the given bytes, keeping the
tail (a typed store through a pointer to the buffer start). -/
def writeBytesAt0 (d bytes : List Nat) : List Nat :=
  bytes ++ d.drop bytes.length

/-- Little endian bytes of `n mod 2 ^ (8 w)`, `w` bytes wide (the x86
memory image of an unsigned integer store). -/
def natToLE : Nat → Nat → List Nat
  | 0, _ => []
  | w + 1, n => n % 256 :: natToLE w (n / 256)

/-- Read a little endian byte list as an unsigned value. -/
def leToNat : List Nat → Nat
  | [] => 0
  | b :: bs => b + 256 * leToNat bs

/-- Little endian memory image of the two complement store of an `Int`
into `w` bytes (a signed or unsigned integer store narrows the same
way). -/
def intToLE (w : Nat) (v : Int) : List Nat :=
  natToLE w (v % (2 ^ (8 * w) : Nat)).toNat

/-- Read the first `w` bytes of a buffer as an unsigned little endian
integer (the load `*(uintN_t*)ptr`). -/
def readUnsigned (w : Nat) (d : List Nat) : Nat := leToNat (d.take w)

/-- Read the first `w` bytes of a buffer as a signed two complement
little endian integer (the load `*(intN_t*)ptr`). -/
def readSigned (w : Nat) (d : List Nat) : Int :=
  let u := leToNat (d.take w)
  if u < 2 ^ (8 * w - 1) then (u : Int) else (u : Int) - (2 ^ (8 * w) : Nat)

/-- The width dispatch shared by the integer stores of `setIntValue`,
`setEnumValue` and the decoder: write the value into the buffer when
the width is 1, 2, 4 or 8 bytes; any other width fails the internal
`assert` (a release build writes nothing), leaving the buffer.  The
signed and the unsigned branch of the source store the same bytes. -/
def storeIntBytes (size : Int) (d : List Nat) (v : Int) : List Nat :=
  if size = 1 then writeBytesAt0 d (intToLE 1 v)
  else if size = 2 then writeBytesAt0 d (intToLE 2 v)
  else if size = 4 then writeBytesAt0 d (intToLE 4 v)
  else if size = 8 then writeBytesAt0 d (intToLE 8 v)
  else d

/-- The value store of `Archive::setIntValue` on the resolved target
object: resize `m_data` to the type width and store the narrowed
value. -/
def writeIntTo (o : Object) (v : Int) : Object :=
  { o with data := storeIntBytes o.type.size (resizeData o.data o.type.size.toNat) v }

/-- `Archive::setIntValue`: silent return on an invalid object, the
type mismatch throw, the pointer indirection through `objectByUID`
(silent return when the pointee entry is invalid), then the store and
the modified flag.  The result is the raised message if any, the
archive and the new value of the passed object reference. -/
def Archive.setIntValue (a : Archive) (obj : Object) (value : Int) :
    Option String × Archive × Object :=
  if obj.isValid = false then (none, a, obj)
  else if obj.type.isInteger = false then
    (some "Not an integer data type", a, obj)
  else if obj.type.isPointer then
    let f := a.objectByUID (obj.uid 1)
    if f.1.isValid = false then (none, f.2, obj)
    else
      (none,
       { f.2 with
           allObjects := poolSet f.2.allObjects (obj.uid 1) (writeIntTo f.1 value),
           isModified := true },
       obj)
  else (none, { a with isModified := true }, writeIntTo obj value)

/-- The value store of `Archive::setRealValue` on the resolved target:
resize to the type width; the stored IEEE bit pattern of the float is
not modelled (floating point), the width 4 or 8 store is represented by
zero bytes, other widths fail the internal `assert` and store
nothing.  The control flow, which claim C8 is about, is exact. -/
def writeRealTo (o : Object) : Object :=
  let d := resizeData o.data o.type.size.toNat
  { o with
      data :=
        if o.type.size = 4 then writeBytesAt0 d (List.replicate 4 0)
        else if o.type.size = 8 then writeBytesAt0 d (List.replicate 8 0)
        else d }

/-- `Archive::setRealValue` (the real value argument only feeds the
unmodelled bit pattern). -/
def Archive.setRealValue (a : Archive) (obj : Object) :
    Option String × Archive × Object :=
  if obj.isValid = false then (none, a, obj)
  else if obj.type.isReal = false then
    (some "Not a real data type", a, obj)
  else if obj.type.isPointer then
    let f := a.objectByUID (obj.uid 1)
    if f.1.isValid = false then (none, f.2, obj)
    else
      (none,
       { f.2 with
           allObjects := poolSet f.2.allObjects (obj.uid 1) (writeRealTo f.1),
           isModified := true },
       obj)
  else (none, { a with isModified := true }, writeRealTo obj)

/-- The value store of `Archive::setBoolValue`: resize to the type
width and store one byte through a `bool*`. -/
def writeBoolTo (o : Object) (v : Bool) : Object :=
  { o with
      data := writeBytesAt0 (resizeData o.data o.type.size.toNat)
        [if v then 1 else 0] }

/-- `Archive::setBoolValue`. -/
def Archive.setBoolValue (a : Archive) (obj : Object) (value : Bool) :
    Option String × Archive × Object :=
  if obj.isValid = false then (none, a, obj)
  else if obj.type.isBool = false then
    (some "Not a bool data type", a, obj)
  else if obj.type.isPointer then
    let f := a.objectByUID (obj.uid 1)
    if f.1.isValid = false then (none, f.2, obj)
    else
      (none,
       { f.2 with
           allObjects := poolSet f.2.allObjects (obj.uid 1) (writeBoolTo f.1 value),
           isModified := true },
       obj)
  else (none, { a with isModified := true }, writeBoolTo obj value)

/-- The value store of `Archive::setEnumValue`: first adjust the stored
type width to the native enum width 4 (`sizeof(enum operation_t)`) if
it differs, then resize and store the narrowed value. -/
def writeEnumTo (o : Object) (v : Nat) : Object :=
  let t := if o.type.size ≠ 4 then { o.type with size := 4 } else o.type
  { o with
      type := t,
      data := storeIntBytes t.size (resizeData o.data t.size.toNat) (v : Int) }

/-- `Archive::setEnumValue` (the value is a `uint64_t`). -/
def Archive.setEnumValue (a : Archive) (obj : Object) (value : Nat) :
    Option String × Archive × Object :=
  if obj.isValid = false then (none, a, obj)
  else if obj.type.isEnum = false then
    (some "Not an enum data type", a, obj)
  else if obj.type.isPointer then
    let f := a.objectByUID (obj.uid 1)
    if f.1.isValid = false then (none, f.2, obj)
    else
      (none,
       { f.2 with
           allObjects := poolSet f.2.allObjects (obj.uid 1) (writeEnumTo f.1 value),
           isModified := true },
       obj)
  else (none, { a with isModified := true }, writeEnumTo obj value)

/-- `Archive::setVersion`: silent return on an invalid object, else set
the version on the passed object and raise the modified flag; it never
throws. -/
def Archive.setVersionOf (a : Archive) (obj : Object) (v : Nat) :
    Option String × Archive × Object :=
  if obj.isValid = false then (none, a, obj)
  else (none, { a with isModified := true }, { obj with version := v })

/-- `Archive::setMinVersion`. -/
def Archive.setMinVersionOf (a : Archive) (obj : Object) (v : Nat) :
    Option String × Archive × Object :=
  if obj.isValid = false then (none, a, obj)
  else (none, { a with isModified := true }, { obj with minVersion := v })

/-- Accumulator form of the decimal rendering of a natural number,
most significant digit first (`ToString` on unsigned integers). -/
def natDecimalAux (n : Nat) (acc : List Nat) : List Nat :=
  let acc2 := (48 + n % 10) :: acc
  if n < 10 then acc2 else natDecimalAux (n / 10) acc2
termination_by n
decreasing_by exact Nat.div_lt_self (by omega) (by omega)

/-- Decimal ASCII rendering of a natural number. -/
def toStringNat (n : Nat) : List Nat := natDecimalAux n []

/-- Decimal ASCII rendering of an `Int`, with a leading minus byte (45)
for negative values (`ToString` on signed integers). -/
def toStringInt (i : Int) : List Nat :=
  if i < 0 then 45 :: toStringNat i.natAbs else toStringNat i.toNat

/-- `_encodeBlob`: the length of the data in decimal ASCII, one colon
byte (58), then the raw data. -/
def encodeBlob (d : List Nat) : List Nat := toStringNat d.length ++ 58 :: d

/-- `_encode(const UID&)`: a blob of the two integer blobs handle and
size. -/
def encodeUID (u : UID) : List Nat :=
  encodeBlob (encodeBlob (toStringNat u.id) ++ encodeBlob (toStringNat u.size))

/-- `_encode(const time_t&)`. -/
def encodeTime (t : Nat) : List Nat := encodeBlob (toStringNat t)

/-- `_encode(const DataType&)`: base type name, custom type name, size
and pointer flag, each as a blob, wrapped into one blob. -/
def encodeDataType (t : DataType) : List Nat :=
  encodeBlob (encodeBlob t.baseTypeName ++ encodeBlob t.customTypeName ++
    encodeBlob (toStringInt t.size) ++
    encodeBlob (toStringNat (if t.isPointer then 1 else 0)))

/-- Concatenation of the encodings of the elements of a list (the
member and identity chain loops of the encoder). -/
def encodeList (f : α → List Nat) : List α → List Nat
  | [] => []
  | x :: xs => f x ++ encodeList f xs

/-- `_encode(const UIDChain&)`. -/
def encodeUIDChain (c : UIDChain) : List Nat :=
  encodeBlob (encodeList encodeUID c)

/-- `_encode(const Member&)`: identity, offset, name, type. -/
def encodeMember (m : Member) : List Nat :=
  encodeBlob (encodeUID m.uid ++ encodeBlob (toStringNat m.offset) ++
    encodeBlob m.name ++ encodeDataType m.type)

/-- `_encode(const std::vector<Member>&)`. -/
def encodeMembers (ms : List Member) : List Nat :=
  encodeBlob (encodeList encodeMember ms)

/-- Decimal digit count of a natural number (fuelled structural
recursion; the fuel far exceeds the digit count of every value a
finite IEEE-754 double can scale to). -/
def numDigitsF : Nat → Nat → Nat
  | 0, _ => 1
  | f + 1, n => if n < 10 then 1 else numDigitsF f (n / 10) + 1

/-- Decimal digit count. -/
def numDigits (n : Nat) : Nat := numDigitsF 2000 n

/-- ASCII decimal digits, least significant first (fuelled). -/
def digitsRevF : Nat → Nat → List Nat
  | 0, _ => []
  | f + 1, n =>
    if n < 10 then [48 + n] else (48 + n % 10) :: digitsRevF f (n / 10)

/-- ASCII decimal digits of a natural number, most significant first. -/
def digitsOf (n : Nat) : List Nat := (digitsRevF 2000 n).reverse

/-- Division rounded to nearest with ties to even: the binary to
decimal rounding performed by the printf family under the default
FE_TONEAREST rounding mode. -/
def roundDivHE (a b : Nat) : Nat :=
  let q := a / b
  let r := a % b
  if b < 2 * r then q + 1
  else if 2 * r = b then (if q % 2 = 1 then q + 1 else q)
  else q

/-- Whether `10 ^ X ≤ Num / Den`, decided with exact integers. -/
def le10X (Num Den : Nat) (X : Int) : Bool :=
  if 0 ≤ X then decide (10 ^ X.toNat * Den ≤ Num)
  else decide (Den ≤ Num * 10 ^ (-X).toNat)

/-- Downward scan (fuelled) for the decimal exponent
`floor(log10 (Num / Den))` of a positive rational: the first `X` below
the digit count of `Num` with `10 ^ X ≤ Num / Den`. -/
def findXF : Nat → Int → Nat → Nat → Int
  | 0, X, _, _ => X
  | f + 1, X, Num, Den =>
    if le10X Num Den X then X else findXF f (X - 1) Num Den

/-- Decimal exponent `floor(log10 (Num / Den))` for `0 < Num`. -/
def findX (Num Den : Nat) : Int := findXF 2500 (numDigits Num) Num Den

/-- The `%g` conversion without `#` removes trailing zero digits of
the fractional part. -/
def stripTrailingZeros (ds : List Nat) : List Nat :=
  ((ds.reverse).dropWhile (fun c => c == 48)).reverse

/-- The scientific notation exponent field of `%g`: `e`, a mandatory
sign, and at least two exponent digits. -/
def expPart (X : Int) : List Nat :=
  let a := X.natAbs
  let digs := if a < 10 then [48, 48 + a] else digitsOf a
  (if X < 0 then [101, 45] else [101, 43]) ++ digs

/-- The `%g` conversion at precision 6 (the ostream default) of the
finite value `(-1)^sign * n * 2^e`, computed exactly with integer
arithmetic: find the decimal exponent `X`, round the value to six
significant digits (ties to even) re-adjusting `X` on a carry across a
decade, pick fixed notation for `-4 ≤ X < 6` and scientific notation
otherwise, and strip trailing fractional zeros (and a then empty
decimal point).  A zero value renders as `0` (negative zero as `-0`). -/
def renderG6 (sign : Bool) (n : Nat) (e : Int) : List Nat :=
  if n = 0 then (if sign then [45, 48] else [48])
  else
    let Num := n * 2 ^ e.toNat
    let Den := 2 ^ (-e).toNat
    let X0 := findX Num Den
    let s := 5 - X0
    let D0 := if 0 ≤ s then roundDivHE (Num * 10 ^ s.toNat) Den
              else roundDivHE Num (Den * 10 ^ (-s).toNat)
    let D := if D0 = 1000000 then 100000 else D0
    let X := if D0 = 1000000 then X0 + 1 else X0
    let d6 := digitsOf D
    let body :=
      if X < -4 ∨ 6 ≤ X then
        let frac := stripTrailingZeros d6.tail
        d6.take 1 ++ (if frac.isEmpty then [] else 46 :: frac) ++ expPart X
      else if 0 ≤ X then
        let ip := d6.take (X.toNat + 1)
        let frac := stripTrailingZeros (d6.drop (X.toNat + 1))
        ip ++ (if frac.isEmpty then [] else 46 :: frac)
      else
        48 :: 46 :: (List.replicate ((-X).toNat - 1) 48 ++
          stripTrailingZeros d6)
    if sign then 45 :: body else body

/-- `ToString` lives in the missing header `helper.h` and streams its
argument into an `ostringstream`; for a `float` (promoted exactly to
`double`) or `double` argument the C++ standard prescribes the stream
defaults: `%g` style at precision 6.  This renders an IEEE-754 bit
pattern (`mbits` mantissa bits, `ebits` exponent bits, the given bias)
through that conversion: subnormals and normals go through `renderG6`
on their exact dyadic value, infinities and NaNs render as the
platform prints them (`inf`, `nan`, with sign). -/
def renderFloatBits (mbits ebits bias bits : Nat) : List Nat :=
  let M := bits % 2 ^ mbits
  let E := bits / 2 ^ mbits % 2 ^ ebits
  let sgn := decide (bits / 2 ^ (mbits + ebits) % 2 = 1)
  if E = 2 ^ ebits - 1 then
    if M = 0 then (if sgn then [45, 105, 110, 102] else [105, 110, 102])
    else (if sgn then [45, 110, 97, 110] else [110, 97, 110])
  else if E = 0 then renderG6 sgn M (-((bias : Int) + mbits - 1))
  else renderG6 sgn (2 ^ mbits + M) ((E : Int) - bias - mbits)

/-- `_primitiveObjectValueToString` reading the raw value bytes of the
object (`m_data`; for live side encoding the source reads the bytes at
the handle address instead, which a pure model cannot dereference -
the claims about the codec concern pools holding their bytes).  Signed
integer values and one byte values are widened before rendering, which
the decimal rendering models directly; a boolean renders as 0 or 1; an
unknown width fails an internal `assert` and renders, in a release
build, the empty string.  A real value renders through `ToString` of
the missing `helper.h`, the default precision 6 ostream conversion of
the stored `float` or `double` (`renderFloatBits`); six significant
digits cannot separate all values, which is what refutes the
round-trip claim on real typed primitives. -/
def primitiveObjectValueToString (o : Object) : List Nat :=
  let t := o.type
  if t.isPrimitive && !t.isPointer then
    if t.isInteger || t.isEnum then
      if t.isSigned then
        if t.size = 1 then toStringInt (readSigned 1 o.data)
        else if t.size = 2 then toStringInt (readSigned 2 o.data)
        else if t.size = 4 then toStringInt (readSigned 4 o.data)
        else if t.size = 8 then toStringInt (readSigned 8 o.data)
        else []
      else
        if t.size = 1 then toStringNat (readUnsigned 1 o.data)
        else if t.size = 2 then toStringNat (readUnsigned 2 o.data)
        else if t.size = 4 then toStringNat (readUnsigned 4 o.data)
        else if t.size = 8 then toStringNat (readUnsigned 8 o.data)
        else []
    else if t.isReal then
      if t.size = 4 then renderFloatBits 23 8 127 (readUnsigned 4 o.data)
      else if t.size = 8 then renderFloatBits 52 11 1023 (readUnsigned 8 o.data)
      else []
    else if t.isBool then
      toStringNat (if o.data.headD 0 ≠ 0 then 1 else 0)
    else []
  else []

/-- `_encodePrimitiveValue`. -/
def encodePrimitiveValue (o : Object) : List Nat :=
  encodeBlob (primitiveObjectValueToString o)

/-- `_encode(const Object&)`: type, version, min version, identity
chain, members, primitive value. -/
def encodeObject (o : Object) : List Nat :=
  encodeBlob (encodeDataType o.type ++ encodeBlob (toStringNat o.version) ++
    encodeBlob (toStringNat o.minVersion) ++ encodeUIDChain o.uidChain ++
    encodeMembers o.members ++ encodePrimitiveValue o)

/-- `_encode(const Archive::ObjectPool&)`: the objects in pool
iteration order, wrapped into one blob. -/
def encodePool (p : ObjectPool) : List Nat :=
  encodeBlob (encodeList (fun e => encodeObject e.2) p)

/-- `Archive::_encodeRootBlob`: format minor version 0, root identity,
object pool, name, comment, created and modified time stamps. -/
def encodeRootBlob (a : Archive) : List Nat :=
  encodeBlob (encodeBlob (toStringNat 0) ++ encodeUID a.root ++
    encodePool a.allObjects ++ encodeBlob a.name ++ encodeBlob a.comment ++
    encodeTime a.timeCreated ++ encodeTime a.timeModified)

/-- `Archive::encode`: stamp the modified time with the current time
`now` (and the created time too when still at the epoch), emit the
magic followed by the root blob, store it with the terminating zero
byte into `m_rawData` and clear the modified flag. -/
def Archive.encodeAt (a : Archive) (now : Nat) : Archive :=
  let a2 := { a with
                timeModified := now,
                timeCreated := if a.timeCreated = 0 then now else a.timeCreated }
  { a2 with
      rawData := strMagic ++ encodeRootBlob a2 ++ [0],
      isModified := false }

/-!  Parsers thread the remaining region from the read pointer to the
enclosing end as a byte list; results carry the value and the remaining
region after the read pointer advanced. -/

/-- The size scanning loop of `_decodeBlob`: decimal digits accumulated
until a colon byte; a missing byte or a non digit throws. -/
def parseBlobSize : List Nat → Nat → Except String (Nat × List Nat)
  | [], _ => Except.error "Decode Error: Missing blob"
  | c :: cs, sz =>
    if c = 58 then Except.ok (sz, cs)
    else if 48 ≤ c ∧ c ≤ 57 then parseBlobSize cs (sz * 10 + (c - 48))
    else Except.error "Decode Error: Missing blob size"

/-- `_decodeBlob` with `bThrow = true`: parse the size, check it fits
the region, and split the region into the blob content and the bytes
after it. -/
def decodeBlobT (r : List Nat) : Except String (List Nat × List Nat) := do
  let (sz, rest) ← parseBlobSize r 0
  if sz ≤ rest.length then pure (rest.take sz, rest.drop sz)
  else Except.error "Decode Error: Premature end of blob"

/-- `_decodeBlob` with `bThrow = false`: at the region end return the
empty blob with the read pointer unmoved, otherwise behave like the
throwing variant. -/
def decodeBlobF (r : List Nat) : Except String (List Nat × List Nat) :=
  if r.isEmpty then Except.ok ([], []) else decodeBlobT r

/-- The digit loop of `_popIntBlob`: all remaining bytes of the int
blob must be decimal digits. -/
def parseAllDigits : List Nat → Nat → Except String Nat
  | [], acc => Except.ok acc
  | c :: cs, acc =>
    if 48 ≤ c ∧ c ≤ 57 then parseAllDigits cs (acc * 10 + (c - 48))
    else Except.error "Decode Error: Invalid int blob format"

/-- `_popIntBlob` before the conversion into the requested integer
type: the sign flag and the exact digit magnitude. -/
def popIntRaw (r : List Nat) : Except String ((Bool × Nat) × List Nat) := do
  let (inner, after) ← decodeBlobT r
  match inner with
  | [] => Except.error "Decode Error: premature end of int blob"
  | c :: ds =>
    if c = 45 then do
      let n ← parseAllDigits ds 0
      pure ((true, n), after)
    else do
      let n ← parseAllDigits (c :: ds) 0
      pure ((false, n), after)

/-- Conversion of a parsed sign and magnitude into a `bits` wide
unsigned machine integer (the unsigned wrap around semantics of the
C++ accumulation and negation). -/
def wrapUnsigned (bits : Nat) (neg : Bool) (n : Nat) : Nat :=
  if neg then (2 ^ bits - n % 2 ^ bits) % 2 ^ bits else n % 2 ^ bits

/-- Conversion into a `bits` wide signed machine integer, wrapping into
the two complement range. -/
def wrapSigned (bits : Nat) (neg : Bool) (n : Nat) : Int :=
  let u := wrapUnsigned bits neg n
  if u < 2 ^ (bits - 1) then (u : Int) else (u : Int) - (2 ^ bits : Nat)

/-- `_popIntBlob<T>` for an unsigned `bits` wide integer type. -/
def popNatBlob (bits : Nat) (r : List Nat) : Except String (Nat × List Nat) := do
  let (sn, after) ← popIntRaw r
  pure (wrapUnsigned bits sn.1 sn.2, after)

/-- `_popIntBlob<T>` for a signed `bits` wide integer type. -/
def popSignedBlob (bits : Nat) (r : List Nat) : Except String (Int × List Nat) := do
  let (sn, after) ← popIntRaw r
  pure (wrapSigned bits sn.1 sn.2, after)

/-- `_popIntBlob<bool>`: the C++ `bool` accumulation yields true
exactly when some digit is non zero, the sign never clears it. -/
def popBoolBlob (r : List Nat) : Except String (Bool × List Nat) := do
  let (sn, after) ← popIntRaw r
  pure (decide (sn.2 ≠ 0), after)

/-- `_popStringBlob`: the whole blob content is the string. -/
def popStringBlob (r : List Nat) : Except String (Str × List Nat) := decodeBlobT r

/-- `_popTimeBlob`: a `uint64_t` integer blob. -/
def popTimeBlob (r : List Nat) : Except String (Nat × List Nat) := popNatBlob 64 r

/-- `_popDataTypeBlob`: base type name, custom type name, size (`int`),
pointer flag (`bool`), read from inside the type blob; the read
pointer resumes after the consumed fields, then past the blob. -/
def popDataTypeBlob (r : List Nat) : Except String (DataType × List Nat) := do
  let (inner, after) ← decodeBlobT r
  let (base, i1) ← popStringBlob inner
  let (custom, i2) ← popStringBlob i1
  let (sz, i3) ← popSignedBlob 32 i2
  let (ptr, i4) ← popBoolBlob i3
  pure ({ baseTypeName := base, customTypeName := custom, size := sz,
          isPointer := ptr }, i4 ++ after)

/-- `_popUIDBlob`: the handle and the size, both `size_t` integer
blobs, inside the identity blob, which must be non empty. -/
def popUIDBlob (r : List Nat) : Except String (UID × List Nat) := do
  let (inner, after) ← decodeBlobT r
  if inner.isEmpty then Except.error "Decode Error: premature end of UID blob"
  else do
    let (idv, i1) ← popNatBlob 64 inner
    let (szv, i2) ← popNatBlob 64 i1
    pure (({ id := idv, size := szv } : UID), i2 ++ after)

/-!  Progress facts about the parsers: a successful read advances the
read pointer, which bounds the decoder loops.  -/

theorem parseBlobSize_length : ∀ (r : List Nat) (a sz : Nat) (rest : List Nat),
    parseBlobSize r a = Except.ok (sz, rest) → rest.length < r.length := by
  intro r
  induction r with
  | nil => intro a sz rest h; simp [parseBlobSize] at h
  | cons c cs ih =>
    intro a sz rest h
    by_cases h1 : c = 58
    · simp [parseBlobSize, h1] at h
      simp [← h.2]
    · by_cases h2 : 48 ≤ c ∧ c ≤ 57
      · simp [parseBlobSize, h1, h2] at h
        exact Nat.lt_trans (ih _ _ _ h) (by simp)
      · simp [parseBlobSize, h1, h2] at h

theorem decodeBlobT_length (r inner after : List Nat)
    (h : decodeBlobT r = Except.ok (inner, after)) :
    inner.length + after.length < r.length := by
  unfold decodeBlobT at h
  cases hp : parseBlobSize r 0 with
  | error e => rw [hp] at h; simp [Bind.bind, Except.bind] at h
  | ok v =>
    obtain ⟨sz, rest⟩ := v
    rw [hp] at h
    simp only [Bind.bind, Except.bind] at h
    by_cases hsz : sz ≤ rest.length
    · simp [hsz, pure, Except.pure] at h
      have := parseBlobSize_length r 0 sz rest hp
      rw [← h.1, ← h.2]
      simp
      omega
    · simp [hsz] at h

theorem decodeBlobT_after_length (r inner after : List Nat)
    (h : decodeBlobT r = Except.ok (inner, after)) :
    after.length < r.length := by
  have := decodeBlobT_length r inner after h
  omega

theorem popIntRaw_length (r : List Nat) (v : Bool × Nat) (rest : List Nat)
    (h : popIntRaw r = Except.ok (v, rest)) : rest.length < r.length := by
  unfold popIntRaw at h
  cases hp : decodeBlobT r with
  | error e => rw [hp] at h; simp [Bind.bind, Except.bind] at h
  | ok w =>
    obtain ⟨inner, after⟩ := w
    rw [hp] at h
    simp only [Bind.bind, Except.bind] at h
    have hlen := decodeBlobT_length r inner after hp
    split at h
    · simp at h
    · split at h
      · cases hd : parseAllDigits _ 0 with
        | error e => rw [hd] at h; simp [Functor.map, Except.map] at h
        | ok n =>
          rw [hd] at h
          simp [Functor.map, Except.map, pure, Except.pure] at h
          rw [← h.2]
          omega
      · cases hd : parseAllDigits _ 0 with
        | error e => rw [hd] at h; simp [Functor.map, Except.map] at h
        | ok n =>
          rw [hd] at h
          simp [Functor.map, Except.map, pure, Except.pure] at h
          rw [← h.2]
          omega

theorem popNatBlob_length (bits : Nat) (r : List Nat) (v : Nat)
    (rest : List Nat) (h : popNatBlob bits r = Except.ok (v, rest)) :
    rest.length < r.length := by
  unfold popNatBlob at h
  cases hp : popIntRaw r with
  | error e => rw [hp] at h; simp [Bind.bind, Except.bind] at h
  | ok w =>
    obtain ⟨sn, after⟩ := w
    rw [hp] at h
    simp [Bind.bind, Except.bind, pure, Except.pure] at h
    rw [← h.2]
    exact popIntRaw_length r sn after hp

theorem popSignedBlob_length (bits : Nat) (r : List Nat) (v : Int)
    (rest : List Nat) (h : popSignedBlob bits r = Except.ok (v, rest)) :
    rest.length < r.length := by
  unfold popSignedBlob at h
  cases hp : popIntRaw r with
  | error e => rw [hp] at h; simp [Bind.bind, Except.bind] at h
  | ok w =>
    obtain ⟨sn, after⟩ := w
    rw [hp] at h
    simp [Bind.bind, Except.bind, pure, Except.pure] at h
    rw [← h.2]
    exact popIntRaw_length r sn after hp

theorem popBoolBlob_length (r : List Nat) (v : Bool) (rest : List Nat)
    (h : popBoolBlob r = Except.ok (v, rest)) : rest.length < r.length := by
  unfold popBoolBlob at h
  cases hp : popIntRaw r with
  | error e => rw [hp] at h; simp [Bind.bind, Except.bind] at h
  | ok w =>
    obtain ⟨sn, after⟩ := w
    rw [hp] at h
    simp [Bind.bind, Except.bind, pure, Except.pure] at h
    rw [← h.2]
    exact popIntRaw_length r sn after hp

theorem popStringBlob_length (r : List Nat) (v : Str) (rest : List Nat)
    (h : popStringBlob r = Except.ok (v, rest)) : rest.length < r.length := by
  unfold popStringBlob at h
  have := decodeBlobT_length r v rest h
  omega

theorem popDataTypeBlob_length (r : List Nat) (v : DataType) (rest : List Nat)
    (h : popDataTypeBlob r = Except.ok (v, rest)) : rest.length < r.length := by
  unfold popDataTypeBlob at h
  cases hp : decodeBlobT r with
  | error e => rw [hp] at h; simp [Bind.bind, Except.bind] at h
  | ok w =>
    obtain ⟨inner, after⟩ := w
    rw [hp] at h
    have hr := decodeBlobT_length r inner after hp
    simp only [Bind.bind, Except.bind] at h
    cases h1 : popStringBlob inner with
    | error e => rw [h1] at h; simp at h
    | ok w1 =>
      obtain ⟨base, i1⟩ := w1
      rw [h1] at h
      have l1 := popStringBlob_length inner base i1 h1
      simp only at h
      cases h2 : popStringBlob i1 with
      | error e => rw [h2] at h; simp at h
      | ok w2 =>
        obtain ⟨custom, i2⟩ := w2
        rw [h2] at h
        have l2 := popStringBlob_length i1 custom i2 h2
        simp only at h
        cases h3 : popSignedBlob 32 i2 with
        | error e => rw [h3] at h; simp at h
        | ok w3 =>
          obtain ⟨sz, i3⟩ := w3
          rw [h3] at h
          have l3 := popSignedBlob_length 32 i2 sz i3 h3
          simp only at h
          cases h4 : popBoolBlob i3 with
          | error e => rw [h4] at h; simp at h
          | ok w4 =>
            obtain ⟨ptr, i4⟩ := w4
            rw [h4] at h
            have l4 := popBoolBlob_length i3 ptr i4 h4
            simp [pure, Except.pure] at h
            rw [← h.2]
            simp
            omega

theorem popUIDBlob_length (r : List Nat) (v : UID) (rest : List Nat)
    (h : popUIDBlob r = Except.ok (v, rest)) : rest.length < r.length := by
  unfold popUIDBlob at h
  cases hp : decodeBlobT r with
  | error e => rw [hp] at h; simp [Bind.bind, Except.bind] at h
  | ok w =>
    obtain ⟨inner, after⟩ := w
    rw [hp] at h
    have hr := decodeBlobT_length r inner after hp
    simp only [Bind.bind, Except.bind] at h
    by_cases he : inner.isEmpty
    · simp [he] at h
    · simp only [he, if_false, Bool.false_eq_true] at h
      cases h1 : popNatBlob 64 inner with
      | error e => rw [h1] at h; simp at h
      | ok w1 =>
        obtain ⟨idv, i1⟩ := w1
        rw [h1] at h
        have l1 := popNatBlob_length 64 inner idv i1 h1
        simp only at h
        cases h2 : popNatBlob 64 i1 with
        | error e => rw [h2] at h; simp at h
        | ok w2 =>
          obtain ⟨szv, i2⟩ := w2
          rw [h2] at h
          have l2 := popNatBlob_length 64 i1 szv i2 h2
          simp [pure, Except.pure] at h
          rw [← h.2]
          simp
          omega

/-- The loop of `_popUIDChainBlob`: identities until the chain blob is
exhausted. -/
def popUIDChainLoop (cur : List Nat) : Except String (List UID) :=
  if hc : cur.isEmpty then Except.ok []
  else
    match hu : popUIDBlob cur with
    | Except.error e => Except.error e
    | Except.ok (u, rest) =>
      match popUIDChainLoop rest with
      | Except.error e => Except.error e
      | Except.ok us => Except.ok (u :: us)
termination_by cur.length
decreasing_by exact popUIDBlob_length cur u rest hu

/-- `_popUIDChainBlob`. -/
def popUIDChainBlob (r : List Nat) : Except String (UIDChain × List Nat) := do
  let (inner, after) ← decodeBlobT r
  let chain ← popUIDChainLoop inner
  pure (chain, after)

/-- `_popMemberBlob`: an empty blob (or the region end) yields the
invalid default member, otherwise identity, offset, name and type are
read (the internal asserts of the source are release no-ops). -/
def popMemberBlob (r : List Nat) : Except String (Member × List Nat) := do
  let (inner, after) ← decodeBlobF r
  if inner.isEmpty then pure (defaultMember, after)
  else do
    let (uidv, i1) ← popUIDBlob inner
    let (off, i2) ← popNatBlob 64 i1
    let (namev, i3) ← popStringBlob i2
    let (ty, i4) ← popDataTypeBlob i3
    pure (({ name := namev, uid := uidv, offset := off, type := ty } : Member),
      i4 ++ after)

theorem popMemberBlob_length (r : List Nat) (m : Member) (rest : List Nat)
    (hr : r ≠ []) (h : popMemberBlob r = Except.ok (m, rest)) :
    rest.length < r.length := by
  unfold popMemberBlob decodeBlobF at h
  rw [if_neg (by simpa using hr)] at h
  cases hp : decodeBlobT r with
  | error e => rw [hp] at h; simp [Bind.bind, Except.bind] at h
  | ok w =>
    obtain ⟨inner, after⟩ := w
    rw [hp] at h
    have hlen := decodeBlobT_length r inner after hp
    simp only [Bind.bind, Except.bind] at h
    by_cases he : inner.isEmpty
    · simp [he, pure, Except.pure] at h
      rw [← h.2]
      omega
    · simp only [he, if_false, Bool.false_eq_true] at h
      cases h1 : popUIDBlob inner with
      | error e => rw [h1] at h; simp at h
      | ok w1 =>
        obtain ⟨uidv, i1⟩ := w1
        rw [h1] at h
        have l1 := popUIDBlob_length inner uidv i1 h1
        simp only at h
        cases h2 : popNatBlob 64 i1 with
        | error e => rw [h2] at h; simp at h
        | ok w2 =>
          obtain ⟨off, i2⟩ := w2
          rw [h2] at h
          have l2 := popNatBlob_length 64 i1 off i2 h2
          simp only at h
          cases h3 : popStringBlob i2 with
          | error e => rw [h3] at h; simp at h
          | ok w3 =>
            obtain ⟨namev, i3⟩ := w3
            rw [h3] at h
            have l3 := popStringBlob_length i2 namev i3 h3
            simp only at h
            cases h4 : popDataTypeBlob i3 with
            | error e => rw [h4] at h; simp at h
            | ok w4 =>
              obtain ⟨ty, i4⟩ := w4
              rw [h4] at h
              have l4 := popDataTypeBlob_length i3 ty i4 h4
              simp [pure, Except.pure] at h
              rw [← h.2]
              simp
              omega

/-- The loop of `_popMembersBlob`: members until the members blob is
exhausted, stopping early (with the read pointer inside the blob) at
an invalid member. -/
def popMembersLoop (cur : List Nat) : Except String (List Member × List Nat) :=
  if hc : cur.isEmpty then Except.ok ([], [])
  else
    match hm : popMemberBlob cur with
    | Except.error e => Except.error e
    | Except.ok (m, rest) =>
      if m.isValid then
        match popMembersLoop rest with
        | Except.error e => Except.error e
        | Except.ok (ms, l) => Except.ok (m :: ms, l)
      else Except.ok ([], rest)
termination_by cur.length
decreasing_by exact popMemberBlob_length cur m rest (by simpa using hc) hm

/-- `_popMembersBlob`. -/
def popMembersBlob (r : List Nat) : Except String (List Member × List Nat) := do
  let (inner, after) ← decodeBlobF r
  let (ms, l) ← popMembersLoop inner
  pure (ms, l ++ after)

/-- `_popRealBlob` for a `w` byte float: the blob must be non empty and
is consumed entirely; the parsed IEEE bit pattern (`atof`) is platform
floating point behaviour and is not modelled - the stored bytes are
represented as zero (the reference theorems exclude real values, and
the lossiness refuting the round trip on reals is established on the
encode side alone, where it is independent of the `atof` result). -/
def popRealBlob (w : Nat) (r : List Nat) :
    Except String (List Nat × List Nat) := do
  let (inner, after) ← decodeBlobT r
  if inner.isEmpty then
    Except.error "Decode Error: premature end of real blob"
  else pure (List.replicate w 0, after)

/-- `_popPrimitiveValue`: for a primitive non pointer object resize
`m_data` to the type width and parse the value blob into it, with the
width dispatch of the source (an unknown width fails an internal
`assert`); for any other object consume one optional blob and leave
the read pointer at its content (which is empty for well formed
streams). -/
def popPrimitiveValue (r : List Nat) (o : Object) :
    Except String (Object × List Nat) :=
  let t := o.type
  if t.isPrimitive && !t.isPointer then
    let o1 := { o with data := resizeData o.data t.size.toNat }
    if t.isInteger || t.isEnum then
      if t.isSigned then
        if t.size = 1 then do
          let (v, rest) ← popSignedBlob 8 r
          pure ({ o1 with data := writeBytesAt0 o1.data (intToLE 1 v) }, rest)
        else if t.size = 2 then do
          let (v, rest) ← popSignedBlob 16 r
          pure ({ o1 with data := writeBytesAt0 o1.data (intToLE 2 v) }, rest)
        else if t.size = 4 then do
          let (v, rest) ← popSignedBlob 32 r
          pure ({ o1 with data := writeBytesAt0 o1.data (intToLE 4 v) }, rest)
        else if t.size = 8 then do
          let (v, rest) ← popSignedBlob 64 r
          pure ({ o1 with data := writeBytesAt0 o1.data (intToLE 8 v) }, rest)
        else Except.error "Assertion failed: unknown signed int type size"
      else
        if t.size = 1 then do
          let (v, rest) ← popNatBlob 8 r
          pure ({ o1 with data := writeBytesAt0 o1.data (natToLE 1 v) }, rest)
        else if t.size = 2 then do
          let (v, rest) ← popNatBlob 16 r
          pure ({ o1 with data := writeBytesAt0 o1.data (natToLE 2 v) }, rest)
        else if t.size = 4 then do
          let (v, rest) ← popNatBlob 32 r
          pure ({ o1 with data := writeBytesAt0 o1.data (natToLE 4 v) }, rest)
        else if t.size = 8 then do
          let (v, rest) ← popNatBlob 64 r
          pure ({ o1 with data := writeBytesAt0 o1.data (natToLE 8 v) }, rest)
        else Except.error "Assertion failed: unknown unsigned int type size"
    else if t.isReal then
      if t.size = 4 then do
        let (bs, rest) ← popRealBlob 4 r
        pure ({ o1 with data := writeBytesAt0 o1.data bs }, rest)
      else if t.size = 8 then do
        let (bs, rest) ← popRealBlob 8 r
        pure ({ o1 with data := writeBytesAt0 o1.data bs }, rest)
      else Except.error "Assertion failed: unknown floating point type"
    else if t.isBool then do
      let (v, rest) ← popNatBlob 8 r
      pure ({ o1 with data := writeBytesAt0 o1.data (natToLE 1 v) }, rest)
    else Except.error "Assertion failed: unknown primitive type"
  else do
    let (inner, after) ← decodeBlobF r
    pure (o, inner ++ after)

/-- `_popObjectBlob`: an empty blob (or the region end) yields the
invalid default object, otherwise type, versions, identity chain,
members and primitive value are read. -/
def popObjectBlob (r : List Nat) : Except String (Object × List Nat) := do
  let (inner, after) ← decodeBlobF r
  if inner.isEmpty then pure (defaultObject, after)
  else do
    let (ty, i1) ← popDataTypeBlob inner
    let (ver, i2) ← popNatBlob 32 i1
    let (minv, i3) ← popNatBlob 32 i2
    let (chain, i4) ← popUIDChainBlob i3
    let (ms, i5) ← popMembersBlob i4
    let (o, i6) ← popPrimitiveValue i5
      { type := ty,
        version := ver,
        minVersion := minv,
        uidChain := chain,
        members := ms,
        data := [] }
    pure (o, i6 ++ after)

theorem bind_pure_snd {α β : Type} (P : Except String (α × List Nat))
    (g : α × List Nat → β) (res : β × List Nat)
    (h : (do
      let d ← P
      pure (g d, d.2)) = Except.ok res) :
    ∃ v, P = Except.ok (v, res.2) := by
  cases hp : P with
  | error e => rw [hp] at h; simp [Bind.bind, Except.bind] at h
  | ok w =>
    obtain ⟨v, rest⟩ := w
    rw [hp] at h
    simp only [Bind.bind, Except.bind, pure, Except.pure] at h
    injection h with h2
    subst h2
    exact ⟨v, by simp [hp]⟩

theorem popRealBlob_length (w : Nat) (r : List Nat) (v rest : List Nat)
    (h : popRealBlob w r = Except.ok (v, rest)) : rest.length < r.length := by
  unfold popRealBlob at h
  cases hp : decodeBlobT r with
  | error e => rw [hp] at h; simp [Bind.bind, Except.bind] at h
  | ok wv =>
    obtain ⟨inner, after⟩ := wv
    rw [hp] at h
    have hlen := decodeBlobT_length r inner after hp
    simp only [Bind.bind, Except.bind] at h
    by_cases he : inner.isEmpty
    · simp [he] at h
    · simp [he, pure, Except.pure] at h
      rw [← h.2]
      omega

theorem popPrimitiveValue_le (r : List Nat) (o o2 : Object) (rest : List Nat)
    (h : popPrimitiveValue r o = Except.ok (o2, rest)) :
    rest.length ≤ r.length := by
  unfold popPrimitiveValue at h
  dsimp only at h
  split at h
  · split at h
    · split at h
      · split at h
        · obtain ⟨v, hP⟩ := bind_pure_snd _ _ _ h
          exact le_of_lt (popSignedBlob_length 8 r v rest hP)
        · split at h
          · obtain ⟨v, hP⟩ := bind_pure_snd _ _ _ h
            exact le_of_lt (popSignedBlob_length 16 r v rest hP)
          · split at h
            · obtain ⟨v, hP⟩ := bind_pure_snd _ _ _ h
              exact le_of_lt (popSignedBlob_length 32 r v rest hP)
            · split at h
              · obtain ⟨v, hP⟩ := bind_pure_snd _ _ _ h
                exact le_of_lt (popSignedBlob_length 64 r v rest hP)
              · simp at h
      · split at h
        · obtain ⟨v, hP⟩ := bind_pure_snd _ _ _ h
          exact le_of_lt (popNatBlob_length 8 r v rest hP)
        · split at h
          · obtain ⟨v, hP⟩ := bind_pure_snd _ _ _ h
            exact le_of_lt (popNatBlob_length 16 r v rest hP)
          · split at h
            · obtain ⟨v, hP⟩ := bind_pure_snd _ _ _ h
              exact le_of_lt (popNatBlob_length 32 r v rest hP)
            · split at h
              · obtain ⟨v, hP⟩ := bind_pure_snd _ _ _ h
                exact le_of_lt (popNatBlob_length 64 r v rest hP)
              · simp at h
    · split at h
      · split at h
        · obtain ⟨v, hP⟩ := bind_pure_snd _ _ _ h
          exact le_of_lt (popRealBlob_length 4 r v rest hP)
        · split at h
          · obtain ⟨v, hP⟩ := bind_pure_snd _ _ _ h
            exact le_of_lt (popRealBlob_length 8 r v rest hP)
          · simp at h
      · split at h
        · obtain ⟨v, hP⟩ := bind_pure_snd _ _ _ h
          exact le_of_lt (popNatBlob_length 8 r v rest hP)
        · simp at h
  · cases hp : decodeBlobF r with
    | error e => rw [hp] at h; simp [Bind.bind, Except.bind] at h
    | ok wv =>
      obtain ⟨inner, after⟩ := wv
      rw [hp] at h
      simp [Bind.bind, Except.bind, pure, Except.pure] at h
      rw [← h.2]
      unfold decodeBlobF at hp
      by_cases he : r.isEmpty
      · rw [if_pos he] at hp
        simp at hp
        simp [hp.1, hp.2]
      · rw [if_neg he] at hp
        have := decodeBlobT_length r inner after hp
        simp
        omega

theorem popUIDChainBlob_length (r : List Nat) (v : UIDChain) (rest : List Nat)
    (h : popUIDChainBlob r = Except.ok (v, rest)) : rest.length < r.length := by
  unfold popUIDChainBlob at h
  cases hp : decodeBlobT r with
  | error e => rw [hp] at h; simp [Bind.bind, Except.bind] at h
  | ok wv =>
    obtain ⟨inner, after⟩ := wv
    rw [hp] at h
    have hlen := decodeBlobT_length r inner after hp
    simp only [Bind.bind, Except.bind] at h
    cases hc : popUIDChainLoop inner with
    | error e => rw [hc] at h; simp at h
    | ok us =>
      rw [hc] at h
      simp [pure, Except.pure] at h
      rw [← h.2]
      omega

theorem popMembersLoop_le : ∀ (n : Nat) (cur : List Nat), cur.length ≤ n →
    ∀ ms l, popMembersLoop cur = Except.ok (ms, l) → l.length ≤ cur.length := by
  intro n
  induction n with
  | zero =>
    intro cur hlen ms l h
    have hc : cur = [] := List.length_eq_zero.mp (by omega)
    subst hc
    rw [popMembersLoop] at h
    simp at h
    simp [h.2]
  | succ k ih =>
    intro cur hlen ms l h
    by_cases hc : cur.isEmpty
    · rw [popMembersLoop] at h
      rw [dif_pos hc] at h
      simp at h
      simp [h.2]
    · rw [popMembersLoop] at h
      rw [dif_neg hc] at h
      cases hm : popMemberBlob cur with
      | error e => rw [hm] at h; simp at h
      | ok w =>
        obtain ⟨m, rest⟩ := w
        rw [hm] at h
        have hml := popMemberBlob_length cur m rest (by simpa using hc) hm
        simp only at h
        by_cases hv : m.isValid
        · rw [if_pos hv] at h
          cases hrec : popMembersLoop rest with
          | error e => rw [hrec] at h; simp at h
          | ok w2 =>
            obtain ⟨ms2, l2⟩ := w2
            rw [hrec] at h
            simp at h
            have := ih rest (by omega) ms2 l2 hrec
            rw [← h.2]
            omega
        · rw [if_neg hv] at h
          simp at h
          rw [← h.2]
          omega

theorem popMembersBlob_le (r : List Nat) (ms : List Member) (rest : List Nat)
    (h : popMembersBlob r = Except.ok (ms, rest)) : rest.length ≤ r.length := by
  unfold popMembersBlob at h
  cases hp : decodeBlobF r with
  | error e => rw [hp] at h; simp [Bind.bind, Except.bind] at h
  | ok wv =>
    obtain ⟨inner, after⟩ := wv
    rw [hp] at h
    simp only [Bind.bind, Except.bind] at h
    cases hl : popMembersLoop inner with
    | error e => rw [hl] at h; simp at h
    | ok w2 =>
      obtain ⟨ms2, l⟩ := w2
      rw [hl] at h
      simp [pure, Except.pure] at h
      have hle := popMembersLoop_le inner.length inner (le_refl _) ms2 l hl
      unfold decodeBlobF at hp
      by_cases he : r.isEmpty
      · rw [if_pos he] at hp
        simp at hp
        rw [hp.1] at hle
        have hl0 : l = [] := by simpa using hle
        rw [← h.2, hp.2, hl0]
        simp
      · rw [if_neg he] at hp
        have := decodeBlobT_length r inner after hp
        rw [← h.2]
        simp
        omega

theorem popObjectBlob_nil : popObjectBlob [] = Except.ok (defaultObject, []) := rfl

theorem popObjectBlob_length (r : List Nat) (o : Object) (rest : List Nat)
    (hr : r ≠ []) (h : popObjectBlob r = Except.ok (o, rest)) :
    rest.length < r.length := by
  unfold popObjectBlob decodeBlobF at h
  rw [if_neg (by simpa using hr)] at h
  cases hp : decodeBlobT r with
  | error e => rw [hp] at h; simp [Bind.bind, Except.bind] at h
  | ok w =>
    obtain ⟨inner, after⟩ := w
    rw [hp] at h
    have hlen := decodeBlobT_length r inner after hp
    simp only [Bind.bind, Except.bind] at h
    by_cases he : inner.isEmpty
    · simp [he, pure, Except.pure] at h
      rw [← h.2]
      omega
    · simp only [he, if_false, Bool.false_eq_true] at h
      cases h1 : popDataTypeBlob inner with
      | error e => rw [h1] at h; simp at h
      | ok w1 =>
        obtain ⟨ty, i1⟩ := w1
        rw [h1] at h
        have l1 := popDataTypeBlob_length inner ty i1 h1
        simp only at h
        cases h2 : popNatBlob 32 i1 with
        | error e => rw [h2] at h; simp at h
        | ok w2 =>
          obtain ⟨ver, i2⟩ := w2
          rw [h2] at h
          have l2 := popNatBlob_length 32 i1 ver i2 h2
          simp only at h
          cases h3 : popNatBlob 32 i2 with
          | error e => rw [h3] at h; simp at h
          | ok w3 =>
            obtain ⟨minv, i3⟩ := w3
            rw [h3] at h
            have l3 := popNatBlob_length 32 i2 minv i3 h3
            simp only at h
            cases h4 : popUIDChainBlob i3 with
            | error e => rw [h4] at h; simp at h
            | ok w4 =>
              obtain ⟨chain, i4⟩ := w4
              rw [h4] at h
              have l4 := popUIDChainBlob_length i3 chain i4 h4
              simp only at h
              cases h5 : popMembersBlob i4 with
              | error e => rw [h5] at h; simp at h
              | ok w5 =>
                obtain ⟨ms, i5⟩ := w5
                rw [h5] at h
                have l5 := popMembersBlob_le i4 ms i5 h5
                simp only at h
                cases h6 : popPrimitiveValue i5
                    { type := ty,
                      version := ver,
                      minVersion := minv,
                      uidChain := chain,
                      members := ms,
                      data := [] } with
                | error e => rw [h6] at h; simp at h
                | ok w6 =>
                  obtain ⟨o6, i6⟩ := w6
                  rw [h6] at h
                  have l6 := popPrimitiveValue_le i5 _ o6 i6 h6
                  simp [pure, Except.pure] at h
                  rw [← h.2]
                  simp
                  omega

/-- The loop of `Archive::_popObjectsBlob`: objects inserted into the
pool under the head of their identity chain, until an invalid object
(in particular the end of the blob) stops the loop. -/
def popObjectsLoop (pool : ObjectPool) (cur : List Nat) :
    Except String (ObjectPool × List Nat) :=
  match hp : popObjectBlob cur with
  | Except.error e => Except.error e
  | Except.ok (o, rest) =>
    if hv : o.isValid then popObjectsLoop (poolSet pool (o.uid 0) o) rest
    else Except.ok (pool, rest)
termination_by cur.length
decreasing_by
  refine popObjectBlob_length cur o rest ?_ hp
  intro hnil
  rw [hnil, popObjectBlob_nil] at hp
  have ho : o = defaultObject := by
    have := hp
    simp at this
    exact this.1.symm
  rw [ho] at hv
  simp [defaultObject, Object.isValid, defaultDataType, DataType.isValid] at hv

/-- `Archive::_popObjectsBlob`: the loop inside the objects blob, which
must not be empty. -/
def popObjectsBlob (pool : ObjectPool) (r : List Nat) :
    Except String (ObjectPool × List Nat) := do
  let (inner, after) ← decodeBlobF r
  if inner.isEmpty then
    Except.error "Decode Error: Premature end of objects blob"
  else do
    let (pool2, l) ← popObjectsLoop pool inner
    pure (pool2, l ++ after)

/-- `Archive::_popRootBlob`: format minor version (parsed, unused),
root identity (must be valid), objects blob, root presence check (a
`std::map::operator[]` access that may insert an invalid placeholder),
then name, comment and the two time stamps. -/
def popRootBlob (r : List Nat) (a : Archive) : Except String Archive := do
  let (inner, _after) ← decodeBlobF r
  if inner.isEmpty then
    Except.error "Decode Error: Premature end of root blob"
  else do
    let (_fmtMinor, i1) ← popSignedBlob 32 inner
    let (rootv, i2) ← popUIDBlob i1
    if rootv.isValid = false then
      Except.error "Decode Error: No root object"
    else do
      let (pool2, i3) ← popObjectsBlob a.allObjects i2
      let fr := poolGetInsert pool2 rootv
      if fr.1.isValid = false then
        Except.error "Decode Error: Missing declared root object"
      else do
        let (namev, i4) ← popStringBlob i3
        let (commentv, i5) ← popStringBlob i4
        let (tc, i6) ← popTimeBlob i5
        let (tm, _i7) ← popTimeBlob i6
        pure { a with
                 root := rootv,
                 allObjects := fr.2,
                 name := namev,
                 comment := commentv,
                 timeCreated := tc,
                 timeModified := tm }

/-- Whether the first `min(5, length)` bytes differ from the
corresponding prefix of the magic: the exact `memcmp` check of
`Archive::decode`, which compares only the bytes present when the
input is shorter than the magic. -/
def magicMismatch (d : List Nat) : Bool :=
  d.take (min 5 d.length) != strMagic.take (min 5 d.length)

/-- `Archive::decode(const RawData&)`: store the raw data, clear the
pool, the modified flag and the time stamps, check the magic, skip its
five bytes and parse the root blob. -/
def Archive.decode (a : Archive) (data : List Nat) : Except String Archive :=
  let a1 := { a with
                rawData := data,
                allObjects := [],
                isModified := false,
                timeCreated := 0,
                timeModified := 0 }
  if magicMismatch data then Except.error "Decode Error: Magic start missing!"
  else popRootBlob (data.drop 5) a1

/-!  Machine representability bounds under which the codec is exact.
They express that every field of the archive fits the machine integer
type the wire format stores it in, that value carrying objects hold
their bytes in `m_data` (as decoded pools do; the encoder reads live
memory otherwise, which a pure model cannot dereference), and that
primitive values are integer, enum or bool typed: a real value is
rendered with six significant digits, which merges distinct values, so
no bound can make the codec exact on real typed primitives.  -/

/-- Bounds of the C++ `int` size field of a type descriptor. -/
def DataTypeWF (t : DataType) : Prop :=
  -(2 ^ 31 : Int) ≤ t.size ∧ t.size < 2 ^ 31

/-- Bounds of the two `size_t` fields of an identity. -/
def UIDWF (u : UID) : Prop := u.id < 2 ^ 64 ∧ u.size < 2 ^ 64

/-- A representable, valid member. -/
def MemberWF (m : Member) : Prop :=
  m.isValid = true ∧ UIDWF m.uid ∧ m.offset < 2 ^ 64 ∧ DataTypeWF m.type

/-- Exactly representable value bytes of an object: primitive non
pointer objects are integer, enum or bool typed with a supported width
and hold exactly their value bytes; all other objects hold no bytes. -/
def ObjectDataWF (o : Object) : Prop :=
  if (o.type.isPrimitive && !o.type.isPointer) = true then
    (o.type.isInteger || o.type.isEnum || o.type.isBool) = true ∧
    (∀ bb ∈ o.data, bb < 256) ∧
    o.data.length = o.type.size.toNat ∧
    ((o.type.isInteger || o.type.isEnum) = true →
      (o.type.size = 1 ∨ o.type.size = 2 ∨ o.type.size = 4 ∨ o.type.size = 8)) ∧
    (o.type.isBool = true →
      o.type.size = 1 ∧ (o.data = [0] ∨ o.data = [1]))
  else o.data = []

/-- A representable, valid object. -/
def ObjectWF (o : Object) : Prop :=
  o.isValid = true ∧ o.version < 2 ^ 32 ∧ o.minVersion < 2 ^ 32 ∧
  (∀ u ∈ o.uidChain, UIDWF u) ∧ (∀ m ∈ o.members, MemberWF m) ∧
  DataTypeWF o.type ∧ ObjectDataWF o

/-- A pool sorted strictly by the map key order (the invariant of the
`std::map` representation). -/
def PoolSorted (p : ObjectPool) : Prop :=
  List.Pairwise (fun a b => UID.lt a.1 b.1 = true) p

/-- A representable archive: valid bounded root stored (validly) in a
sorted pool of representable objects each keyed by the head of its
identity chain, and a bounded creation time stamp. -/
def ArchiveWF (a : Archive) : Prop :=
  a.root.isValid = true ∧ UIDWF a.root ∧ PoolSorted a.allObjects ∧
  (∀ e ∈ a.allObjects, ObjectWF e.2 ∧ e.1 = e.2.uid 0) ∧
  lookupIsValid a.allObjects a.root = true ∧ a.timeCreated < 2 ^ 64

instance (t : DataType) : Decidable (DataTypeWF t) := by
  unfold DataTypeWF; infer_instance

instance (u : UID) : Decidable (UIDWF u) := by
  unfold UIDWF; infer_instance

instance (m : Member) : Decidable (MemberWF m) := by
  unfold MemberWF; infer_instance

instance (o : Object) : Decidable (ObjectDataWF o) := by
  unfold ObjectDataWF; infer_instance

instance (o : Object) : Decidable (ObjectWF o) := by
  unfold ObjectWF; infer_instance

instance (p : ObjectPool) : Decidable (PoolSorted p) := by
  unfold PoolSorted; infer_instance

instance (a : Archive) : Decidable (ArchiveWF a) := by
  unfold ArchiveWF; infer_instance

/-!  Concrete fixtures used by counterexamples and witnesses.  -/

/-- The native type descriptor of a plain `uint8_t` value. -/
def dtUint8 : DataType :=
  { baseTypeName := strUint ++ [56], customTypeName := [], size := 1,
    isPointer := false }

/-- The native type descriptor of a plain `float` value. -/
def dtReal32 : DataType :=
  { baseTypeName := strReal ++ [51, 50], customTypeName := [], size := 4,
    isPointer := false }

/-- The native type descriptor of a plain `int32_t` value. -/
def dtInt32 : DataType :=
  { baseTypeName := strInt ++ [51, 50], customTypeName := [], size := 4,
    isPointer := false }

/-- A sample identity. -/
def uidW : UID := { id := 1000, size := 4 }

/-- A sample reflected `int32_t` object holding the value -42. -/
def objW : Object :=
  { type := dtInt32,
    version := 1,
    minVersion := 0,
    uidChain := [uidW],
    members := [],
    data := [214, 255, 255, 255] }

/-- A sample archive whose pool holds the single root object `objW`. -/
def archW : Archive :=
  { allObjects := [(uidW, objW)],
    operation := Operation.opNone,
    root := uidW,
    rawData := [],
    name := [78],
    comment := [67, 67],
    timeCreated := 0,
    timeModified := 0,
    isModified := true }

/-- The scalar type descriptor of a C++ `double` (`real64`). -/
def dtReal64 : DataType :=
  { baseTypeName := [114, 101, 97, 108, 54, 52], customTypeName := [],
    size := 8, isPointer := false }

/-- An identity for the real valued sample objects. -/
def uidR : UID := { id := 2000, size := 8 }

/-- A root object of type `real64` holding the little endian IEEE-754
image of the value 1000001.0 (bit pattern 0x412E848200000000). -/
def objR1 : Object :=
  { type := dtReal64,
    version := 1,
    minVersion := 0,
    uidChain := [uidR],
    members := [],
    data := [0, 0, 0, 0, 130, 132, 46, 65] }

/-- The same object holding 1000000.0 (0x412E848000000000) instead. -/
def objR2 : Object := { objR1 with data := [0, 0, 0, 0, 128, 132, 46, 65] }

/-- An archive whose pool holds the single real valued root `objR1`. -/
def archR1 : Archive :=
  { allObjects := [(uidR, objR1)],
    operation := Operation.opNone,
    root := uidR,
    rawData := [],
    name := [],
    comment := [],
    timeCreated := 0,
    timeModified := 0,
    isModified := true }

/-- The same archive holding `objR2` instead. -/
def archR2 : Archive := { archR1 with allObjects := [(uidR, objR2)] }

/-- A destination member named "y" of type `int32_t` at offset 0. -/
def memY : Member :=
  { name := [121], uid := { id := 2000, size := 4 }, offset := 0, type := dtInt32 }

/-- A source member named "x" of type `int32_t` at offset 0. -/
def memX : Member :=
  { name := [120], uid := { id := 3000, size := 4 }, offset := 0, type := dtInt32 }

/-- A source member named "b" of type `uint8_t`, which no fixture
destination member can match. -/
def memB : Member :=
  { name := [98], uid := { id := 4000, size := 1 }, offset := 4, type := dtUint8 }

/-- A destination class object owning the single member `memY`. -/
def dstW : Object :=
  { type := { baseTypeName := strClass, customTypeName := [83], size := 4,
              isPointer := false },
    version := 0,
    minVersion := 0,
    uidChain := [{ id := 5000, size := 4 }],
    members := [memY],
    data := [] }

/-- A source class object owning the members `memX` and `memB`. -/
def srcObjW : Object :=
  { type := { baseTypeName := strClass, customTypeName := [83], size := 4,
              isPointer := false },
    version := 0,
    minVersion := 0,
    uidChain := [{ id := 6000, size := 4 }],
    members := [memX, memB],
    data := [] }

/-- A pointer-to-class type descriptor (a `Node*` field). -/
def dtNodePtr : DataType :=
  { baseTypeName := strClass, customTypeName := [78], size := 8,
    isPointer := true }

/-- Destination cycle node 1: a pointer object whose pointee is node 2. -/
def nodeD1 : Object :=
  { type := dtNodePtr,
    version := 0,
    minVersion := 0,
    uidChain := [{ id := 11, size := 8 }, { id := 12, size := 8 }],
    members := [],
    data := [] }

/-- Destination cycle node 2: a pointer object whose pointee is node 1,
closing the cycle. -/
def nodeD2 : Object :=
  { type := dtNodePtr,
    version := 0,
    minVersion := 0,
    uidChain := [{ id := 12, size := 8 }, { id := 11, size := 8 }],
    members := [],
    data := [] }

/-- Source cycle node 1. -/
def nodeS1 : Object :=
  { type := dtNodePtr,
    version := 0,
    minVersion := 0,
    uidChain := [{ id := 21, size := 8 }, { id := 22, size := 8 }],
    members := [],
    data := [] }

/-- Source cycle node 2. -/
def nodeS2 : Object :=
  { type := dtNodePtr,
    version := 0,
    minVersion := 0,
    uidChain := [{ id := 22, size := 8 }, { id := 21, size := 8 }],
    members := [],
    data := [] }

/-- A destination archive holding a two node pointer cycle. -/
def dstC : Archive :=
  { allObjects := [({ id := 11, size := 8 }, nodeD1),
                   ({ id := 12, size := 8 }, nodeD2)],
    operation := Operation.opNone,
    root := { id := 11, size := 8 },
    rawData := [],
    name := [],
    comment := [],
    timeCreated := 0,
    timeModified := 0,
    isModified := false }

/-- A source archive holding the mirror two node pointer cycle. -/
def srcC : Archive :=
  { allObjects := [({ id := 21, size := 8 }, nodeS1),
                   ({ id := 22, size := 8 }, nodeS2)],
    operation := Operation.opNone,
    root := { id := 21, size := 8 },
    rawData := [],
    name := [],
    comment := [],
    timeCreated := 0,
    timeModified := 0,
    isModified := false }

/-- An `int32` object at version 2 (minimum version 0). -/
def objV2 : Object :=
  { type := dtInt32,
    version := 2,
    minVersion := 0,
    uidChain := [uidW],
    members := [],
    data := [214, 255, 255, 255] }

/-- An `int32` object at version 5 with minimum version 3, hence
incompatible with version 2. -/
def objV5 : Object :=
  { type := dtInt32,
    version := 5,
    minVersion := 3,
    uidChain := [{ id := 7000, size := 4 }],
    members := [],
    data := [1, 0, 0, 0] }

/-- A destination pool storing `objV2` under its identity. -/
def vpool : ObjectPool := [(uidW, objV2)]

/-!  Claim theorems and their supporting lemmas.  -/

theorem memberNamedLoop_eq (l : List Member) (n : Str) :
    memberNamedLoop l n = (l.find? (fun m => m.name == n)).getD defaultMember := by
  induction l with
  | nil => rfl
  | cons m ms ih =>
    by_cases hm : m.name = n
    · simp [memberNamedLoop, List.find?, hm]
    · have hb : (m.name == n) = false := by simp [hm]
      simp [memberNamedLoop, List.find?, hm, hb, ih]

theorem membersOfTypeLoop_eq (l : List Member) (t : DataType) :
    membersOfTypeLoop l t = l.filter (fun m => m.type == t) := by
  induction l with
  | nil => rfl
  | cons m ms ih =>
    by_cases hm : m.type = t
    · simp [membersOfTypeLoop, List.filter, hm, ih]
    · have hb : (m.type == t) = false := by simp [hm]
      simp [membersOfTypeLoop, List.filter, hm, hb, ih]

theorem findOffsetLoop_eq (l : List Member) (off : Nat) :
    findOffsetLoop l off = l.find? (fun m => m.offset == off) := by
  induction l with
  | nil => rfl
  | cons m ms ih =>
    by_cases hm : m.offset = off
    · simp [findOffsetLoop, List.find?, hm]
    · have hb : (m.offset == off) = false := by simp [hm]
      simp [findOffsetLoop, List.find?, hm, hb, ih]

theorem seqIndexLoop_eq (l : List Member) (m : Member) :
    ∀ i : Nat, seqIndexLoop l m i =
      (match specIdxLoop l m with
       | none => -1
       | some j => (i : Int) + j) := by
  induction l with
  | nil => intro i; rfl
  | cons x xs ih =>
    intro i
    by_cases hx : x = m
    · simp [seqIndexLoop, specIdxLoop, hx]
    · simp only [seqIndexLoop, specIdxLoop, hx, if_false, if_neg]
      rw [ih (i + 1)]
      cases hs : specIdxLoop xs m with
      | none => simp
      | some j =>
        simp
        ring

theorem specIdxLoop_isSome_of_mem (l : List Member) (m : Member) (h : m ∈ l) :
    ∃ j, specIdxLoop l m = some j := by
  induction l with
  | nil => simp at h
  | cons x xs ih =>
    by_cases hx : x = m
    · exact ⟨0, by simp [specIdxLoop, hx]⟩
    · have hm : m ∈ xs := by
        rcases List.mem_cons.mp h with h1 | h1
        · exact absurd h1.symm hx
        · exact h1
      obtain ⟨j, hj⟩ := ih hm
      exact ⟨j + 1, by simp [specIdxLoop, hx, hj]⟩

theorem sequenceIndexOf_eq (o : Object) (m : Member) :
    o.sequenceIndexOf m =
      (match specIdxLoop o.members m with
       | none => -1
       | some j => (j : Int)) := by
  unfold Object.sequenceIndexOf
  rw [seqIndexLoop_eq]
  cases specIdxLoop o.members m <;> simp

theorem findSeqLoop_eq (dstObj : Object) (si : Nat) :
    ∀ members : List Member, (∀ m ∈ members, m ∈ dstObj.members) →
    findSeqLoop dstObj members (si : Int) =
      members.find? (fun m => specIdxLoop dstObj.members m == some si) := by
  intro members
  induction members with
  | nil => intro _; rfl
  | cons m ms ih =>
    intro hsub
    have hm : m ∈ dstObj.members := hsub m (by simp)
    obtain ⟨j, hj⟩ := specIdxLoop_isSome_of_mem _ _ hm
    have hseq : dstObj.sequenceIndexOf m = (j : Int) := by
      rw [sequenceIndexOf_eq, hj]
    by_cases hji : j = si
    · subst hji
      simp [findSeqLoop, hseq, List.find?, hj]
    · have hne : dstObj.sequenceIndexOf m ≠ (si : Int) := by
        rw [hseq]
        exact_mod_cast hji
      simp only [findSeqLoop, if_neg hne, List.find?, hj]
      have : (some j == some si) = false := by simp [hji]
      rw [this]
      exact ih (fun x hx => hsub x (by simp [hx]))

theorem findSeqLoop_neg_one (dstObj : Object) :
    ∀ members : List Member, (∀ m ∈ members, m ∈ dstObj.members) →
    findSeqLoop dstObj members (-1) = none := by
  intro members
  induction members with
  | nil => intro _; rfl
  | cons m ms ih =>
    intro hsub
    have hm : m ∈ dstObj.members := hsub m (by simp)
    obtain ⟨j, hj⟩ := specIdxLoop_isSome_of_mem _ _ hm
    have hseq : dstObj.sequenceIndexOf m = (j : Int) := by
      rw [sequenceIndexOf_eq, hj]
    have hne : dstObj.sequenceIndexOf m ≠ (-1 : Int) := by
      rw [hseq]
      omega
    simp only [findSeqLoop, if_neg hne]
    exact ih (fun x hx => hsub x (by simp [hx]))

/-- C1 (confirmed): for class object synchronization the member
matching routine implements exactly the ladder M1 to M5 of the
specification (given well formed, valid destination members): a name
matched destination member is used iff its type also matches and a
type mismatch under an equal name fails immediately with no fallback;
otherwise a unique destination member of the source type is used;
otherwise the first same typed member with equal offset; otherwise the
first same typed member with equal sequence index; otherwise no match
is produced, in which case the member loop of `syncObject` raises the
expected member missing error. -/
theorem C1_member_matching_ladder :
    (∀ (dstObj srcObj : Object) (srcMember : Member),
      (∀ m ∈ dstObj.members, m.isValid = true) →
      dstMemberMatching dstObj srcObj srcMember =
        (match specMemberMatching dstObj srcObj srcMember with
         | some m => m
         | none => defaultMember)) ∧
    (∀ (fuel : Nat) (dpool spool : ObjectPool) (dstObj srcObj : Object)
        (srcMember : Member) (rest : List Member),
      (dstMemberMatching dstObj srcObj srcMember).isValid = false →
      syncMembersF fuel dpool spool dstObj srcObj (srcMember :: rest) =
        some (dpool, spool, some SyncError.expectedMemberMissing)) := by
  constructor
  · intro dstObj srcObj srcMember hval
    unfold dstMemberMatching specMemberMatching Object.memberNamed
      Object.membersOfType
    rw [memberNamedLoop_eq, membersOfTypeLoop_eq]
    dsimp only
    rw [findOffsetLoop_eq]
    cases hf : List.find? (fun m => m.name == srcMember.name) dstObj.members with
    | some d =>
      have hdv : d.isValid = true := hval d (List.mem_of_find?_eq_some hf)
      simp only [Option.getD_some, hdv, if_true]
      by_cases ht : d.type = srcMember.type <;> simp [ht]
    | none =>
      simp only [Option.getD_none]
      have hinv : defaultMember.isValid = false := rfl
      simp only [hinv, Bool.false_eq_true, if_false]
      have hsubT : ∀ m ∈ List.filter (fun m => m.type == srcMember.type)
          dstObj.members, m ∈ dstObj.members :=
        fun m hm => List.mem_of_mem_filter hm
      by_cases hlen0 :
          (List.filter (fun m => m.type == srcMember.type) dstObj.members).length = 0
      · have hT : List.filter (fun m => m.type == srcMember.type) dstObj.members
            = [] := List.length_eq_zero.mp hlen0
        simp [hlen0, hT]
        cases hsi : specIdxLoop srcObj.members srcMember <;> simp
      · by_cases hlen1 :
            (List.filter (fun m => m.type == srcMember.type) dstObj.members).length = 1
        · simp [hlen0, hlen1]
        · simp only [hlen0, hlen1, if_false]
          cases ho : List.find? (fun m => m.offset == srcMember.offset)
              (List.filter (fun m => m.type == srcMember.type) dstObj.members) with
          | some m => simp [ho]
          | none =>
            simp only [ho]
            cases hsi : specIdxLoop srcObj.members srcMember with
            | none =>
              have hsrc : srcObj.sequenceIndexOf srcMember = -1 := by
                rw [sequenceIndexOf_eq, hsi]
              rw [hsrc, findSeqLoop_neg_one dstObj _ hsubT]
            | some si =>
              have hsrc : srcObj.sequenceIndexOf srcMember = (si : Int) := by
                rw [sequenceIndexOf_eq, hsi]
              rw [hsrc, findSeqLoop_eq dstObj si _ hsubT]
  · intro fuel dpool spool dstObj srcObj srcMember rest hinv
    unfold syncMembersF
    simp [hinv]

/-- Witness for C1 at concrete objects: the renamed member `x` binds
to the uniquely typed destination member `y` (rule M2), and a source
member with no possible destination match makes the sync member loop
raise the expected member missing error. -/
theorem C1_member_matching_witness :
    dstMemberMatching dstW srcObjW memX =
      (match specMemberMatching dstW srcObjW memX with
       | some m => m
       | none => defaultMember) ∧
    dstMemberMatching dstW srcObjW memX = memY ∧
    syncMembersF 1 [] [] dstW srcObjW [memB] =
      some ([], [], some SyncError.expectedMemberMissing) := by
  refine ⟨C1_member_matching_ladder.1 dstW srcObjW memX (by decide), by decide, ?_⟩
  exact C1_member_matching_ladder.2 1 [] [] dstW srcObjW memB [] (by decide)

/-- C7 (code bug): the source `DataType::operator<` is not the
lexicographic order on `(base_kind, custom_tag, width, is_pointer)`
that the specification states.  At the realistic descriptor pair
`uint8` versus `real32` (equal empty custom tags, widths 1 and 4) the
source comparison returns true in both directions, because its third
disjunct compares the widths whenever the custom tags are equal without
requiring equal base names, while the lexicographic order returns
false for `uint8 < real32`.  The double truth also violates the strict
weak ordering contract a C++ comparison operator must satisfy, so the
code, not the specification, is wrong. -/
theorem C7_dataType_lt_not_lexicographic :
    DataType.lt dtUint8 dtReal32 = true ∧
    DataType.lt dtReal32 dtUint8 = true ∧
    DataType.lexLt dtUint8 dtReal32 = false := by decide

/-- C9 (confirmed): `Archive::clear` empties the object pool, resets
the root identity to `NO_UID`, empties the raw byte buffer, resets the
modified flag and both time stamps to the epoch (and the operation
flag), while leaving the archive name and comment unchanged. -/
theorem C9_clear_resets_all_but_name_comment (a : Archive) :
    a.clear.allObjects = [] ∧
    a.clear.root = NO_UID ∧
    a.clear.rawData = [] ∧
    a.clear.isModified = false ∧
    a.clear.timeCreated = 0 ∧
    a.clear.timeModified = 0 ∧
    a.clear.operation = Operation.opNone ∧
    a.clear.name = a.name ∧
    a.clear.comment = a.comment :=
  ⟨rfl, rfl, rfl, rfl, rfl, rfl, rfl, rfl, rfl⟩

theorem poolFind?_some_mem : ∀ (p : ObjectPool) (u : UID) (o : Object),
    poolFind? p u = some o → (u, o) ∈ p := by
  intro p
  induction p with
  | nil => intro u o h; simp [poolFind?] at h
  | cons e rest ih =>
    intro u o h
    obtain ⟨k, w⟩ := e
    by_cases hk : k = u
    · subst hk
      simp [poolFind?] at h
      simp [h]
    · simp [poolFind?, hk] at h
      exact List.mem_cons_of_mem _ (ih u o h)

theorem poolFind?_none_not_mem : ∀ (p : ObjectPool) (u : UID),
    poolFind? p u = none → ∀ e ∈ p, e.1 ≠ u := by
  intro p
  induction p with
  | nil => intro u _ e he; simp at he
  | cons x rest ih =>
    intro u h e he
    obtain ⟨k, w⟩ := x
    by_cases hk : k = u
    · simp [poolFind?, hk] at h
    · simp [poolFind?, hk] at h
      rcases List.mem_cons.mp he with h1 | h1
      · simp [h1, hk]
      · exact ih u h e h1

theorem lookupIsValid_count_pos : ∀ (p : ObjectPool) (u : UID),
    lookupIsValid p u = true → 1 ≤ poolValidCount p := by
  intro p
  induction p with
  | nil => intro u h; simp [lookupIsValid, poolFind?] at h
  | cons e rest ih =>
    intro u h
    obtain ⟨k, w⟩ := e
    unfold lookupIsValid at h
    by_cases hk : k = u
    · simp only [poolFind?, if_pos hk] at h
      simp [poolValidCount, List.filter, h]
    · simp only [poolFind?, if_neg hk] at h
      have := ih u (by unfold lookupIsValid; exact h)
      unfold poolValidCount at *
      simp only [List.filter]
      cases w.isValid <;> simp <;> omega

theorem poolErase_validCount_le : ∀ (p : ObjectPool) (u : UID),
    poolValidCount (poolErase p u) ≤ poolValidCount p := by
  intro p
  induction p with
  | nil => intro u; simp [poolErase]
  | cons e rest ih =>
    intro u
    obtain ⟨k, w⟩ := e
    unfold poolErase poolValidCount
    by_cases hk : k = u
    · simp only [if_pos hk]
      unfold poolValidCount at *
      simp only [List.filter]
      cases w.isValid <;> simp <;> omega
    · simp only [if_neg hk]
      have := ih u
      unfold poolValidCount at *
      simp only [List.filter]
      cases w.isValid <;> simp <;> omega

theorem poolErase_validCount_lt : ∀ (p : ObjectPool) (u : UID),
    lookupIsValid p u = true →
    poolValidCount (poolErase p u) < poolValidCount p := by
  intro p
  induction p with
  | nil => intro u h; simp [lookupIsValid, poolFind?] at h
  | cons e rest ih =>
    intro u h
    obtain ⟨k, w⟩ := e
    unfold lookupIsValid at h
    by_cases hk : k = u
    · simp only [poolFind?, if_pos hk] at h
      unfold poolErase
      simp only [if_pos hk]
      unfold poolValidCount
      simp only [List.filter, h]
      simp
    · simp only [poolFind?, if_neg hk] at h
      have := ih u (by unfold lookupIsValid; exact h)
      unfold poolErase
      simp only [if_neg hk]
      unfold poolValidCount at *
      simp only [List.filter]
      cases w.isValid <;> simp <;> omega

theorem poolInsertAt_validCount_default : ∀ (p : ObjectPool) (u : UID),
    poolValidCount (poolInsertAt p u defaultObject) = poolValidCount p := by
  have hd : defaultObject.isValid = false := rfl
  intro p
  induction p with
  | nil =>
    intro u
    simp [poolInsertAt, poolValidCount, List.filter, hd]
  | cons e rest ih =>
    intro u
    obtain ⟨k, w⟩ := e
    unfold poolInsertAt
    by_cases hlt : UID.lt u k = true
    · rw [if_pos hlt]
      simp [poolValidCount, List.filter, hd]
    · rw [if_neg hlt]
      have := ih u
      unfold poolValidCount at *
      simp only [List.filter]
      cases w.isValid <;> simp <;> omega

theorem poolGetInsert_validCount (p : ObjectPool) (u : UID) :
    poolValidCount (poolGetInsert p u).2 = poolValidCount p := by
  unfold poolGetInsert
  cases hf : poolFind? p u with
  | some o => rfl
  | none => exact poolInsertAt_validCount_default p u

theorem poolErase_sublist : ∀ (p : ObjectPool) (u : UID),
    (poolErase p u).Sublist p := by
  intro p
  induction p with
  | nil => intro u; simp [poolErase]
  | cons e rest ih =>
    intro u
    obtain ⟨k, w⟩ := e
    unfold poolErase
    by_cases hk : k = u
    · simp only [if_pos hk]
      exact List.sublist_cons_self _ _
    · simp only [if_neg hk]
      exact List.Sublist.cons₂ _ (ih u)

theorem poolInsertAt_mem : ∀ (p : ObjectPool) (u : UID) (o : Object)
    (e : UID × Object), e ∈ poolInsertAt p u o → e = (u, o) ∨ e ∈ p := by
  intro p
  induction p with
  | nil => intro u o e he; simp [poolInsertAt] at he; simp [he]
  | cons x rest ih =>
    intro u o e he
    obtain ⟨k, w⟩ := x
    unfold poolInsertAt at he
    by_cases hlt : UID.lt u k = true
    · rw [if_pos hlt] at he
      rcases List.mem_cons.mp he with h1 | h1
      · exact Or.inl h1
      · exact Or.inr h1
    · rw [if_neg hlt] at he
      rcases List.mem_cons.mp he with h1 | h1
      · exact Or.inr (by simp [h1])
      · rcases ih u o e h1 with h2 | h2
        · exact Or.inl h2
        · exact Or.inr (List.mem_cons_of_mem _ h2)

theorem poolInsertAt_keys_nodup : ∀ (p : ObjectPool) (u : UID) (o : Object),
    (p.map Prod.fst).Nodup → (∀ e ∈ p, e.1 ≠ u) →
    ((poolInsertAt p u o).map Prod.fst).Nodup := by
  intro p
  induction p with
  | nil => intro u o _ _; simp [poolInsertAt]
  | cons x rest ih =>
    intro u o hnd hne
    obtain ⟨k, w⟩ := x
    unfold poolInsertAt
    by_cases hlt : UID.lt u k = true
    · rw [if_pos hlt]
      simp only [List.map_cons, List.nodup_cons] at hnd ⊢
      refine ⟨?_, hnd⟩
      intro hc
      rcases List.mem_cons.mp hc with h1 | h1
      · exact hne (k, w) (by simp) h1.symm
      · obtain ⟨e, he, hee⟩ := List.mem_map.mp h1
        exact hne e (by simp [he]) hee
    · rw [if_neg hlt]
      simp only [List.map_cons, List.nodup_cons] at hnd ⊢
      refine ⟨?_, ih u o hnd.2 (fun e he => hne e (by simp [he]))⟩
      intro hc
      obtain ⟨e, he, hee⟩ := List.mem_map.mp hc
      rcases poolInsertAt_mem rest u o e he with h1 | h1
      · rw [h1] at hee
        exact hne (k, w) (by simp) hee.symm
      · exact hnd.1 (List.mem_map.mpr ⟨e, h1, hee⟩)

theorem PoolWF_poolErase (p : ObjectPool) (u : UID) (h : PoolWF p) :
    PoolWF (poolErase p u) := by
  obtain ⟨hnd, hkey⟩ := h
  refine ⟨?_, ?_⟩
  · exact hnd.sublist ((poolErase_sublist p u).map Prod.fst)
  · intro e he hv
    exact hkey e ((poolErase_sublist p u).mem he) hv

theorem PoolWF_poolGetInsert (p : ObjectPool) (u : UID) (h : PoolWF p) :
    PoolWF (poolGetInsert p u).2 := by
  obtain ⟨hnd, hkey⟩ := h
  unfold poolGetInsert
  cases hf : poolFind? p u with
  | some o => exact ⟨hnd, hkey⟩
  | none =>
    refine ⟨poolInsertAt_keys_nodup p u defaultObject hnd
      (poolFind?_none_not_mem p u hf), ?_⟩
    intro e he hv
    rcases poolInsertAt_mem p u defaultObject e he with h1 | h1
    · rw [h1] at hv
      simp [defaultObject, Object.isValid, defaultDataType, DataType.isValid] at hv
    · exact hkey e h1 hv

theorem poolFind?_not_mem_none : ∀ (p : ObjectPool) (u : UID),
    (∀ e ∈ p, e.1 ≠ u) → poolFind? p u = none := by
  intro p
  induction p with
  | nil => intro u _; rfl
  | cons x rest ih =>
    intro u h
    obtain ⟨k, w⟩ := x
    unfold poolFind?
    rw [if_neg (h (k, w) (by simp))]
    exact ih u (fun e he => h e (by simp [he]))

theorem lookupIsValid_poolErase_self (p : ObjectPool) (u : UID)
    (hnd : (p.map Prod.fst).Nodup) :
    lookupIsValid (poolErase p u) u = false := by
  induction p with
  | nil => simp [poolErase, lookupIsValid, poolFind?]
  | cons x rest ih =>
    obtain ⟨k, w⟩ := x
    simp only [List.map, List.nodup_cons] at hnd
    unfold poolErase
    by_cases hk : k = u
    · rw [if_pos hk]
      subst hk
      have : poolFind? rest k = none := by
        refine poolFind?_not_mem_none rest k ?_
        intro e he hc
        exact hnd.1 (List.mem_map.mpr ⟨e, he, hc⟩)
      unfold lookupIsValid
      rw [this]
    · rw [if_neg hk]
      unfold lookupIsValid
      simp only [poolFind?, if_neg hk]
      exact ih hnd.2

theorem lookupIsValid_poolInsertAt_false : ∀ (p : ObjectPool) (u k : UID),
    lookupIsValid p k = false →
    lookupIsValid (poolInsertAt p u defaultObject) k = false := by
  intro p
  induction p with
  | nil =>
    intro u k h
    unfold poolInsertAt lookupIsValid poolFind?
    by_cases hk : u = k
    · rw [if_pos hk]; rfl
    · rw [if_neg hk]; rfl
  | cons x rest ih =>
    intro u k h
    obtain ⟨k0, w⟩ := x
    unfold poolInsertAt
    by_cases hlt : UID.lt u k0 = true
    · rw [if_pos hlt]
      unfold lookupIsValid poolFind?
      by_cases hk : u = k
      · rw [if_pos hk]; rfl
      · rw [if_neg hk]
        exact h
    · rw [if_neg hlt]
      unfold lookupIsValid poolFind?
      by_cases hk : k0 = k
      · rw [if_pos hk]
        unfold lookupIsValid at h
        simp only [poolFind?, if_pos hk] at h
        exact h
      · rw [if_neg hk]
        refine ih u k ?_
        unfold lookupIsValid at h
        simp only [poolFind?, if_neg hk] at h
        exact h

theorem lookupIsValid_poolGetInsert_false (p : ObjectPool) (u k : UID)
    (h : lookupIsValid p k = false) :
    lookupIsValid (poolGetInsert p u).2 k = false := by
  unfold poolGetInsert
  cases hf : poolFind? p u with
  | some o => exact h
  | none => exact lookupIsValid_poolInsertAt_false p u k h

theorem poolGetInsert_valid_lookup (p : ObjectPool) (u : UID)
    (hwf : PoolWF p) (hv : (poolGetInsert p u).1.isValid = true) :
    lookupIsValid (poolGetInsert p u).2 ((poolGetInsert p u).1.uid 0) = true := by
  unfold poolGetInsert at *
  cases hf : poolFind? p u with
  | some o =>
    rw [hf] at hv
    simp only [hf]
    have hmem := poolFind?_some_mem p u o hf
    have hkey := hwf.2 (u, o) hmem (by exact hv)
    simp only at hkey
    unfold lookupIsValid
    rw [← hkey, hf]
    exact hv
  | none =>
    rw [hf] at hv
    simp [defaultObject, Object.isValid, defaultDataType, DataType.isValid] at hv

theorem lookupIsValid_poolErase_false : ∀ (p : ObjectPool) (u k : UID),
    (p.map Prod.fst).Nodup → lookupIsValid p k = false →
    lookupIsValid (poolErase p u) k = false := by
  intro p
  induction p with
  | nil => intro u k _ _; simp [poolErase, lookupIsValid, poolFind?]
  | cons x rest ih =>
    intro u k hnd h
    obtain ⟨k0, w⟩ := x
    simp only [List.map_cons, List.nodup_cons] at hnd
    unfold poolErase
    by_cases hk0 : k0 = u
    · rw [if_pos hk0]
      by_cases hkk : k0 = k
      · have : poolFind? rest k = none := by
          refine poolFind?_not_mem_none rest k ?_
          intro e he hc
          exact hnd.1 (List.mem_map.mpr ⟨e, he, by rw [hc, ← hkk]⟩)
        unfold lookupIsValid
        rw [this]
      · unfold lookupIsValid at h ⊢
        simp only [poolFind?, if_neg hkk] at h
        exact h
    · rw [if_neg hk0]
      unfold lookupIsValid at h ⊢
      by_cases hkk : k0 = k
      · simp only [poolFind?, if_pos hkk] at h ⊢
        exact h
      · simp only [poolFind?, if_neg hkk] at h ⊢
        exact ih u k hnd.2 h

theorem sync_preserves : ∀ fuel : Nat,
    (∀ dp sp o1 o2 r, syncObjectF fuel dp sp o1 o2 = some r → PoolWF dp →
      PoolWF r.1 ∧
        ∀ k, lookupIsValid dp k = false → lookupIsValid r.1 k = false) ∧
    (∀ ms dp sp d s r, syncMembersF fuel dp sp d s ms = some r → PoolWF dp →
      PoolWF r.1 ∧
        ∀ k, lookupIsValid dp k = false → lookupIsValid r.1 k = false) := by
  intro fuel
  induction fuel with
  | zero =>
    have hP : ∀ dp sp o1 o2 r, syncObjectF 0 dp sp o1 o2 = some r →
        PoolWF dp → PoolWF r.1 ∧
        ∀ k, lookupIsValid dp k = false → lookupIsValid r.1 k = false := by
      intro dp sp o1 o2 r h hwf
      unfold syncObjectF at h
      split at h
      · injection h with h2
        rw [← h2]
        exact ⟨hwf, fun k hk => hk⟩
      · split at h
        · injection h with h2
          rw [← h2]
          exact ⟨hwf, fun k hk => hk⟩
        · split at h
          · injection h with h2
            rw [← h2]
            exact ⟨hwf, fun k hk => hk⟩
          · simp at h
    refine ⟨hP, ?_⟩
    intro ms
    induction ms with
    | nil =>
      intro dp sp d s r h hwf
      unfold syncMembersF at h
      injection h with h2
      rw [← h2]
      exact ⟨hwf, fun k hk => hk⟩
    | cons m rest ih2 =>
      intro dp sp d s r h hwf
      unfold syncMembersF at h
      dsimp only at h
      split at h
      · injection h with h2
        rw [← h2]
        exact ⟨hwf, fun k hk => hk⟩
      · have hwf1 : PoolWF (poolGetInsert dp (dstMemberMatching d s m).uid).2 :=
          PoolWF_poolGetInsert _ _ hwf
        cases hso : syncObjectF 0 (poolGetInsert dp (dstMemberMatching d s m).uid).2
            (poolGetInsert sp m.uid).2
            (poolGetInsert dp (dstMemberMatching d s m).uid).1
            (poolGetInsert sp m.uid).1 with
        | none => rw [hso] at h; simp at h
        | some w =>
          obtain ⟨dpx, spx, ex⟩ := w
          have hstep := hP _ _ _ _ _ hso hwf1
          rw [hso] at h
          cases ex with
          | some e =>
            simp at h
            rw [← h]
            refine ⟨hstep.1, fun k hk => ?_⟩
            exact hstep.2 k (lookupIsValid_poolGetInsert_false dp _ k hk)
          | none =>
            simp only at h
            have hwfx : PoolWF dpx := hstep.1
            have hrec := ih2 _ _ _ _ _ h hwfx
            refine ⟨hrec.1, fun k hk => ?_⟩
            exact hrec.2 k
              (hstep.2 k (lookupIsValid_poolGetInsert_false dp _ k hk))
  | succ f ihf =>
    have hP : ∀ dp sp o1 o2 r, syncObjectF (f + 1) dp sp o1 o2 = some r →
        PoolWF dp → PoolWF r.1 ∧
        ∀ k, lookupIsValid dp k = false → lookupIsValid r.1 k = false := by
      intro dp sp o1 o2 r h hwf
      unfold syncObjectF at h
      split at h
      · injection h with h2
        rw [← h2]
        exact ⟨hwf, fun k hk => hk⟩
      · split at h
        · injection h with h2
          rw [← h2]
          exact ⟨hwf, fun k hk => hk⟩
        · split at h
          · injection h with h2
            rw [← h2]
            exact ⟨hwf, fun k hk => hk⟩
          · simp only at h
            have hwf1 : PoolWF (poolErase dp (o1.uid 0)) :=
              PoolWF_poolErase dp _ hwf
            have hmono1 : ∀ k, lookupIsValid dp k = false →
                lookupIsValid (poolErase dp (o1.uid 0)) k = false :=
              fun k hk => lookupIsValid_poolErase_false dp _ k hwf.1 hk
            split at h
            · injection h with h2
              rw [← h2]
              exact ⟨hwf1, hmono1⟩
            · split at h
              · have hwf2 : PoolWF (poolGetInsert (poolErase dp (o1.uid 0))
                    (o1.uid 1)).2 := PoolWF_poolGetInsert _ _ hwf1
                have hstep := ihf.1 _ _ _ _ _ h hwf2
                refine ⟨hstep.1, fun k hk => ?_⟩
                exact hstep.2 k
                  (lookupIsValid_poolGetInsert_false _ _ k (hmono1 k hk))
              · have hstep := ihf.2 _ _ _ _ _ _ h hwf1
                exact ⟨hstep.1, fun k hk => hstep.2 k (hmono1 k hk)⟩
    refine ⟨hP, ?_⟩
    intro ms
    induction ms with
    | nil =>
      intro dp sp d s r h hwf
      unfold syncMembersF at h
      injection h with h2
      rw [← h2]
      exact ⟨hwf, fun k hk => hk⟩
    | cons m rest ih2 =>
      intro dp sp d s r h hwf
      unfold syncMembersF at h
      dsimp only at h
      split at h
      · injection h with h2
        rw [← h2]
        exact ⟨hwf, fun k hk => hk⟩
      · have hwf1 : PoolWF (poolGetInsert dp (dstMemberMatching d s m).uid).2 :=
          PoolWF_poolGetInsert _ _ hwf
        cases hso : syncObjectF (f + 1)
            (poolGetInsert dp (dstMemberMatching d s m).uid).2
            (poolGetInsert sp m.uid).2
            (poolGetInsert dp (dstMemberMatching d s m).uid).1
            (poolGetInsert sp m.uid).1 with
        | none => rw [hso] at h; simp at h
        | some w =>
          obtain ⟨dpx, spx, ex⟩ := w
          have hstep := hP _ _ _ _ _ hso hwf1
          rw [hso] at h
          cases ex with
          | some e =>
            simp at h
            rw [← h]
            refine ⟨hstep.1, fun k hk => ?_⟩
            exact hstep.2 k (lookupIsValid_poolGetInsert_false dp _ k hk)
          | none =>
            simp only at h
            have hwfx : PoolWF dpx := hstep.1
            have hrec := ih2 _ _ _ _ _ h hwfx
            refine ⟨hrec.1, fun k hk => ?_⟩
            exact hrec.2 k
              (hstep.2 k (lookupIsValid_poolGetInsert_false dp _ k hk))

theorem sync_validCount_mono : ∀ fuel : Nat,
    (∀ dp sp o1 o2 r, syncObjectF fuel dp sp o1 o2 = some r →
      poolValidCount r.1 ≤ poolValidCount dp) ∧
    (∀ ms dp sp d s r, syncMembersF fuel dp sp d s ms = some r →
      poolValidCount r.1 ≤ poolValidCount dp) := by
  intro fuel
  induction fuel with
  | zero =>
    have hP : ∀ dp sp o1 o2 r, syncObjectF 0 dp sp o1 o2 = some r →
        poolValidCount r.1 ≤ poolValidCount dp := by
      intro dp sp o1 o2 r h
      unfold syncObjectF at h
      split at h
      · injection h with h2
        rw [← h2]
      · split at h
        · injection h with h2
          rw [← h2]
        · split at h
          · injection h with h2
            rw [← h2]
          · simp at h
    refine ⟨hP, ?_⟩
    intro ms
    induction ms with
    | nil =>
      intro dp sp d s r h
      unfold syncMembersF at h
      injection h with h2
      rw [← h2]
    | cons m rest ih2 =>
      intro dp sp d s r h
      unfold syncMembersF at h
      dsimp only at h
      split at h
      · injection h with h2
        rw [← h2]
      · cases hso : syncObjectF 0 (poolGetInsert dp (dstMemberMatching d s m).uid).2
            (poolGetInsert sp m.uid).2
            (poolGetInsert dp (dstMemberMatching d s m).uid).1
            (poolGetInsert sp m.uid).1 with
        | none => rw [hso] at h; simp at h
        | some w =>
          obtain ⟨dpx, spx, ex⟩ := w
          have hle := hP _ _ _ _ _ hso
          rw [poolGetInsert_validCount] at hle
          rw [hso] at h
          cases ex with
          | some e =>
            simp at h
            rw [← h]
            exact hle
          | none =>
            simp only at h
            have hle2 : poolValidCount dpx ≤ poolValidCount dp := hle
            have := ih2 _ _ _ _ _ h
            omega
  | succ f ihf =>
    have hP : ∀ dp sp o1 o2 r, syncObjectF (f + 1) dp sp o1 o2 = some r →
        poolValidCount r.1 ≤ poolValidCount dp := by
      intro dp sp o1 o2 r h
      unfold syncObjectF at h
      split at h
      · injection h with h2
        rw [← h2]
      · split at h
        · injection h with h2
          rw [← h2]
        · split at h
          · injection h with h2
            rw [← h2]
          · simp only at h
            have herase := poolErase_validCount_le dp (o1.uid 0)
            split at h
            · injection h with h2
              rw [← h2]
              exact herase
            · split at h
              · have := ihf.1 _ _ _ _ _ h
                rw [poolGetInsert_validCount] at this
                omega
              · have := ihf.2 _ _ _ _ _ _ h
                omega
    refine ⟨hP, ?_⟩
    intro ms
    induction ms with
    | nil =>
      intro dp sp d s r h
      unfold syncMembersF at h
      injection h with h2
      rw [← h2]
    | cons m rest ih2 =>
      intro dp sp d s r h
      unfold syncMembersF at h
      dsimp only at h
      split at h
      · injection h with h2
        rw [← h2]
      · cases hso : syncObjectF (f + 1)
            (poolGetInsert dp (dstMemberMatching d s m).uid).2
            (poolGetInsert sp m.uid).2
            (poolGetInsert dp (dstMemberMatching d s m).uid).1
            (poolGetInsert sp m.uid).1 with
        | none => rw [hso] at h; simp at h
        | some w =>
          obtain ⟨dpx, spx, ex⟩ := w
          have hle := hP _ _ _ _ _ hso
          rw [poolGetInsert_validCount] at hle
          rw [hso] at h
          cases ex with
          | some e =>
            simp at h
            rw [← h]
            exact hle
          | none =>
            simp only at h
            have hle2 : poolValidCount dpx ≤ poolValidCount dp := hle
            have := ih2 _ _ _ _ _ h
            omega

theorem sync_fuel_sufficient : ∀ fuel : Nat,
    (∀ dp sp o1 o2, PoolWF dp →
      (o1.isValid = true → lookupIsValid dp (o1.uid 0) = true) →
      poolValidCount dp ≤ fuel → syncObjectF fuel dp sp o1 o2 ≠ none) ∧
    (∀ ms dp sp d s, PoolWF dp → poolValidCount dp ≤ fuel →
      syncMembersF fuel dp sp d s ms ≠ none) := by
  intro fuel
  induction fuel with
  | zero =>
    have hP : ∀ dp sp o1 o2, PoolWF dp →
        (o1.isValid = true → lookupIsValid dp (o1.uid 0) = true) →
        poolValidCount dp ≤ 0 → syncObjectF 0 dp sp o1 o2 ≠ none := by
      intro dp sp o1 o2 hwf hval hcnt
      unfold syncObjectF
      split
      · simp
      · split
        · simp
        · split
          · simp
          · rename_i hc1 hc2 hc3
            exfalso
            have ho1 : o1.isValid = true := by
              by_contra hx
              simp at hc1
              simp [Bool.not_eq_true] at hx
              exact absurd hc1.1 (by simp [hx])
            have := lookupIsValid_count_pos dp (o1.uid 0) (hval ho1)
            omega
    refine ⟨hP, ?_⟩
    intro ms
    induction ms with
    | nil =>
      intro dp sp d s hwf hcnt
      unfold syncMembersF
      simp
    | cons m rest ih2 =>
      intro dp sp d s hwf hcnt
      unfold syncMembersF
      dsimp only
      split
      · simp
      · have hwf1 : PoolWF (poolGetInsert dp (dstMemberMatching d s m).uid).2 :=
          PoolWF_poolGetInsert _ _ hwf
        have hcnt1 : poolValidCount
            (poolGetInsert dp (dstMemberMatching d s m).uid).2 ≤ 0 := by
          rw [poolGetInsert_validCount]
          exact hcnt
        have hval1 : (poolGetInsert dp (dstMemberMatching d s m).uid).1.isValid
            = true → lookupIsValid
              (poolGetInsert dp (dstMemberMatching d s m).uid).2
              ((poolGetInsert dp (dstMemberMatching d s m).uid).1.uid 0)
            = true :=
          fun hv => poolGetInsert_valid_lookup _ _ hwf hv
        cases hso : syncObjectF 0 (poolGetInsert dp (dstMemberMatching d s m).uid).2
            (poolGetInsert sp m.uid).2
            (poolGetInsert dp (dstMemberMatching d s m).uid).1
            (poolGetInsert sp m.uid).1 with
        | none => exact absurd hso (hP _ _ _ _ hwf1 hval1 hcnt1)
        | some w =>
          obtain ⟨dpx, spx, ex⟩ := w
          cases ex with
          | some e => simp
          | none =>
            simp only
            have hwfx : PoolWF dpx := ((sync_preserves 0).1 _ _ _ _ _ hso hwf1).1
            have hcx : poolValidCount dpx ≤ 0 := by
              have := (sync_validCount_mono 0).1 _ _ _ _ _ hso
              simp only at this
              rw [poolGetInsert_validCount] at this
              omega
            exact ih2 dpx spx d s hwfx hcx
  | succ f ihf =>
    have hP : ∀ dp sp o1 o2, PoolWF dp →
        (o1.isValid = true → lookupIsValid dp (o1.uid 0) = true) →
        poolValidCount dp ≤ f + 1 → syncObjectF (f + 1) dp sp o1 o2 ≠ none := by
      intro dp sp o1 o2 hwf hval hcnt
      unfold syncObjectF
      split
      · simp
      · split
        · simp
        · split
          · simp
          · rename_i hc1 hc2 hc3
            simp only
            have ho1 : o1.isValid = true := by
              by_contra hx
              simp at hc1
              simp [Bool.not_eq_true] at hx
              exact absurd hc1.1 (by simp [hx])
            have hlook := hval ho1
            have hlt := poolErase_validCount_lt dp (o1.uid 0) hlook
            have hwf1 : PoolWF (poolErase dp (o1.uid 0)) :=
              PoolWF_poolErase dp _ hwf
            split
            · simp
            · split
              · have hwf2 : PoolWF (poolGetInsert (poolErase dp (o1.uid 0))
                    (o1.uid 1)).2 := PoolWF_poolGetInsert _ _ hwf1
                have hcnt2 : poolValidCount (poolGetInsert
                    (poolErase dp (o1.uid 0)) (o1.uid 1)).2 ≤ f := by
                  rw [poolGetInsert_validCount]
                  omega
                exact ihf.1 _ _ _ _ hwf2
                  (fun hv => poolGetInsert_valid_lookup _ _ hwf1 hv) hcnt2
              · exact ihf.2 _ _ _ _ _ hwf1 (by omega)
    refine ⟨hP, ?_⟩
    intro ms
    induction ms with
    | nil =>
      intro dp sp d s hwf hcnt
      unfold syncMembersF
      simp
    | cons m rest ih2 =>
      intro dp sp d s hwf hcnt
      unfold syncMembersF
      dsimp only
      split
      · simp
      · have hwf1 : PoolWF (poolGetInsert dp (dstMemberMatching d s m).uid).2 :=
          PoolWF_poolGetInsert _ _ hwf
        have hcnt1 : poolValidCount
            (poolGetInsert dp (dstMemberMatching d s m).uid).2 ≤ f + 1 := by
          rw [poolGetInsert_validCount]
          exact hcnt
        have hval1 : (poolGetInsert dp (dstMemberMatching d s m).uid).1.isValid
            = true → lookupIsValid
              (poolGetInsert dp (dstMemberMatching d s m).uid).2
              ((poolGetInsert dp (dstMemberMatching d s m).uid).1.uid 0)
            = true :=
          fun hv => poolGetInsert_valid_lookup _ _ hwf hv
        cases hso : syncObjectF (f + 1)
            (poolGetInsert dp (dstMemberMatching d s m).uid).2
            (poolGetInsert sp m.uid).2
            (poolGetInsert dp (dstMemberMatching d s m).uid).1
            (poolGetInsert sp m.uid).1 with
        | none => exact absurd hso (hP _ _ _ _ hwf1 hval1 hcnt1)
        | some w =>
          obtain ⟨dpx, spx, ex⟩ := w
          cases ex with
          | some e => simp
          | none =>
            simp only
            have hwfx : PoolWF dpx :=
              ((sync_preserves (f + 1)).1 _ _ _ _ _ hso hwf1).1
            have hcx : poolValidCount dpx ≤ f + 1 := by
              have := (sync_validCount_mono (f + 1)).1 _ _ _ _ _ hso
              simp only at this
              rw [poolGetInsert_validCount] at this
              omega
            exact ih2 dpx spx d s hwfx hcx

theorem sync_fuel_stable : ∀ fuel : Nat,
    (∀ dp sp o1 o2 r, syncObjectF fuel dp sp o1 o2 = some r →
      syncObjectF (fuel + 1) dp sp o1 o2 = some r) ∧
    (∀ ms dp sp d s r, syncMembersF fuel dp sp d s ms = some r →
      syncMembersF (fuel + 1) dp sp d s ms = some r) := by
  intro fuel
  induction fuel with
  | zero =>
    have hP : ∀ dp sp o1 o2 r, syncObjectF 0 dp sp o1 o2 = some r →
        syncObjectF 1 dp sp o1 o2 = some r := by
      intro dp sp o1 o2 r h
      unfold syncObjectF at h ⊢
      split at h
      · rename_i hc1
        rw [if_pos hc1]
        exact h
      · rename_i hc1
        rw [if_neg hc1]
        split at h
        · rename_i hc2
          rw [if_pos hc2]
          exact h
        · rename_i hc2
          rw [if_neg hc2]
          split at h
          · rename_i hc3
            rw [if_pos hc3]
            exact h
          · simp at h
    refine ⟨hP, ?_⟩
    intro ms
    induction ms with
    | nil =>
      intro dp sp d s r h
      unfold syncMembersF at h ⊢
      exact h
    | cons m rest ih2 =>
      intro dp sp d s r h
      unfold syncMembersF at h ⊢
      dsimp only at h ⊢
      split at h
      · rename_i hc
        rw [if_pos hc]
        exact h
      · rename_i hc
        rw [if_neg hc]
        cases hso : syncObjectF 0 (poolGetInsert dp (dstMemberMatching d s m).uid).2
            (poolGetInsert sp m.uid).2
            (poolGetInsert dp (dstMemberMatching d s m).uid).1
            (poolGetInsert sp m.uid).1 with
        | none => rw [hso] at h; simp at h
        | some w =>
          obtain ⟨dpx, spx, ex⟩ := w
          rw [hso] at h
          rw [hP _ _ _ _ _ hso]
          cases ex with
          | some e => exact h
          | none =>
            simp only at h ⊢
            exact ih2 _ _ _ _ _ h
  | succ f ihf =>
    have hP : ∀ dp sp o1 o2 r, syncObjectF (f + 1) dp sp o1 o2 = some r →
        syncObjectF (f + 2) dp sp o1 o2 = some r := by
      intro dp sp o1 o2 r h
      unfold syncObjectF at h ⊢
      split at h
      · rename_i hc1
        rw [if_pos hc1]
        exact h
      · rename_i hc1
        rw [if_neg hc1]
        split at h
        · rename_i hc2
          rw [if_pos hc2]
          exact h
        · rename_i hc2
          rw [if_neg hc2]
          split at h
          · rename_i hc3
            rw [if_pos hc3]
            exact h
          · rename_i hc3
            rw [if_neg hc3]
            simp only at h ⊢
            split at h
            · rename_i hc4
              rw [if_pos hc4]
              exact h
            · rename_i hc4
              rw [if_neg hc4]
              split at h
              · rename_i hc5
                rw [if_pos hc5]
                exact ihf.1 _ _ _ _ _ h
              · rename_i hc5
                rw [if_neg hc5]
                exact ihf.2 _ _ _ _ _ _ h
    refine ⟨hP, ?_⟩
    intro ms
    induction ms with
    | nil =>
      intro dp sp d s r h
      unfold syncMembersF at h ⊢
      exact h
    | cons m rest ih2 =>
      intro dp sp d s r h
      unfold syncMembersF at h ⊢
      dsimp only at h ⊢
      split at h
      · rename_i hc
        rw [if_pos hc]
        exact h
      · rename_i hc
        rw [if_neg hc]
        cases hso : syncObjectF (f + 1)
            (poolGetInsert dp (dstMemberMatching d s m).uid).2
            (poolGetInsert sp m.uid).2
            (poolGetInsert dp (dstMemberMatching d s m).uid).1
            (poolGetInsert sp m.uid).1 with
        | none => rw [hso] at h; simp at h
        | some w =>
          obtain ⟨dpx, spx, ex⟩ := w
          rw [hso] at h
          rw [hP _ _ _ _ _ hso]
          cases ex with
          | some e => exact h
          | none =>
            simp only at h ⊢
            exact ih2 _ _ _ _ _ h

theorem syncObjectF_fuel_add (n : Nat) : ∀ (k : Nat) (dp sp : ObjectPool)
    (o1 o2 : Object) (r : ObjectPool × ObjectPool × Option SyncError),
    syncObjectF n dp sp o1 o2 = some r →
    syncObjectF (n + k) dp sp o1 o2 = some r := by
  intro k
  induction k with
  | zero => intro dp sp o1 o2 r h; simpa using h
  | succ j ih =>
    intro dp sp o1 o2 r h
    have := ih dp sp o1 o2 r h
    exact (sync_fuel_stable (n + j)).1 _ _ _ _ _ this

/-- C3 (confirmed): the cycle guard of `syncObject`.  First, whenever a
`syncObject` call passes its validity, version and type checks, the
identity of the destination object is erased from the destination pool
before recursion, and no later step restores it: in the returned pool
the erased identity no longer holds a valid object, so any later reach
of the same identity fetches an invalid placeholder and stops.
Second, for every pair of archives whose destination pool is well
keyed - including pools describing cyclic pointer graphs - the
synchronizer terminates: one fuel unit per valid destination pool
entry plus one suffices, and any larger fuel computes the same result
(each valid entry is consumed at most once). -/
theorem C3_cycle_guard_and_termination :
    (∀ (fuel : Nat) (dp sp : ObjectPool) (o1 o2 : Object)
        (r : ObjectPool × ObjectPool × Option SyncError),
      PoolWF dp → o1.isValid = true → o2.isValid = true →
      o1.isVersionCompatibleTo o2 = true → o1.type = o2.type →
      syncObjectF fuel dp sp o1 o2 = some r →
      lookupIsValid r.1 (o1.uid 0) = false) ∧
    (∀ dst src : Archive, PoolWF dst.allObjects →
      syncerRun (poolValidCount dst.allObjects + 1) dst src ≠ none) ∧
    (∀ dst src : Archive, PoolWF dst.allObjects → ∀ k,
      syncerRun (poolValidCount dst.allObjects + 1 + k) dst src =
        syncerRun (poolValidCount dst.allObjects + 1) dst src) := by
  refine ⟨?_, ?_, ?_⟩
  · intro fuel dp sp o1 o2 r hwf h1 h2 hcompat htype h
    unfold syncObjectF at h
    rw [if_neg (by simp [h1, h2])] at h
    rw [if_neg (by simp [hcompat])] at h
    rw [if_neg (by simp [htype])] at h
    cases fuel with
    | zero => simp at h
    | succ f =>
      simp only at h
      have hself : lookupIsValid (poolErase dp (o1.uid 0)) (o1.uid 0) = false :=
        lookupIsValid_poolErase_self dp _ hwf.1
      have hwf1 : PoolWF (poolErase dp (o1.uid 0)) := PoolWF_poolErase dp _ hwf
      split at h
      · injection h with h2x
        rw [← h2x]
        exact hself
      · split at h
        · have hwf2 : PoolWF (poolGetInsert (poolErase dp (o1.uid 0))
              (o1.uid 1)).2 := PoolWF_poolGetInsert _ _ hwf1
          have hstep := ((sync_preserves f).1 _ _ _ _ _ h hwf2).2
          exact hstep _ (lookupIsValid_poolGetInsert_false _ _ _ hself)
        · have hstep := ((sync_preserves f).2 _ _ _ _ _ _ h hwf1).2
          exact hstep _ hself
  · intro dst src hwf
    unfold syncerRun
    dsimp only
    split
    · simp
    · split
      · simp
      · have hwfd : PoolWF (poolGetInsert dst.allObjects dst.root).2 :=
          PoolWF_poolGetInsert _ _ hwf
        have hcnt : poolValidCount (poolGetInsert dst.allObjects dst.root).2 ≤
            poolValidCount dst.allObjects + 1 := by
          rw [poolGetInsert_validCount]
          omega
        exact (sync_fuel_sufficient (poolValidCount dst.allObjects + 1)).1
          _ _ _ _ hwfd (fun hv => poolGetInsert_valid_lookup _ _ hwf hv) hcnt
  · intro dst src hwf k
    unfold syncerRun
    dsimp only
    split
    · rfl
    · split
      · rfl
      · have hwfd : PoolWF (poolGetInsert dst.allObjects dst.root).2 :=
          PoolWF_poolGetInsert _ _ hwf
        have hcnt : poolValidCount (poolGetInsert dst.allObjects dst.root).2 ≤
            poolValidCount dst.allObjects + 1 := by
          rw [poolGetInsert_validCount]
          omega
        have hnn := (sync_fuel_sufficient (poolValidCount dst.allObjects + 1)).1
          (poolGetInsert dst.allObjects dst.root).2
          (poolGetInsert src.allObjects src.root).2
          (poolGetInsert dst.allObjects dst.root).1
          (poolGetInsert src.allObjects src.root).1
          hwfd (fun hv => poolGetInsert_valid_lookup _ _ hwf hv) hcnt
        cases hso : syncObjectF (poolValidCount dst.allObjects + 1)
            (poolGetInsert dst.allObjects dst.root).2
            (poolGetInsert src.allObjects src.root).2
            (poolGetInsert dst.allObjects dst.root).1
            (poolGetInsert src.allObjects src.root).1 with
        | none => exact absurd hso hnn
        | some r =>
          exact syncObjectF_fuel_add _ k _ _ _ _ _ hso

/-- Witness for C3 at a concrete pair of archives holding a two node
cyclic pointer graph: the synchronizer does not run out of fuel at one
unit per valid destination entry plus one, and larger fuels agree. -/
theorem C3_cycle_termination_witness :
    syncerRun (poolValidCount dstC.allObjects + 1) dstC srcC ≠ none ∧
    syncerRun (poolValidCount dstC.allObjects + 1 + 5) dstC srcC =
      syncerRun (poolValidCount dstC.allObjects + 1) dstC srcC :=
  ⟨C3_cycle_guard_and_termination.2.1 dstC srcC (by decide),
   C3_cycle_guard_and_termination.2.2 dstC srcC (by decide) 5⟩

/-- C4 (confirmed): `isVersionCompatibleTo` is true exactly when the
versions are equal or the object with the greater version has a
minimum version at most the version of the other; the predicate is
symmetric; and a `syncObject` step on a valid destination/source pair
(the destination stored under its identity in a well keyed pool)
returns the version incompatible error, with both pools exactly as
passed in - hence before mutating anything - if and only if the
predicate is false on the pair. -/
theorem C4_version_compatibility_gate :
    (∀ a b : Object, a.isVersionCompatibleTo b = true ↔
      (a.version = b.version ∨
       (a.version > b.version ∧ a.minVersion ≤ b.version) ∨
       (b.version > a.version ∧ b.minVersion ≤ a.version))) ∧
    (∀ a b : Object, a.isVersionCompatibleTo b = b.isVersionCompatibleTo a) ∧
    (∀ (fuel : Nat) (dp sp : ObjectPool) (o1 o2 : Object),
      PoolWF dp → o1.isValid = true → o2.isValid = true →
      lookupIsValid dp (o1.uid 0) = true →
      (syncObjectF fuel dp sp o1 o2 =
        some (dp, sp, some (SyncError.versionIncompatible o1.version
          o1.minVersion o2.version o2.minVersion)) ↔
       o1.isVersionCompatibleTo o2 = false)) := by
  refine ⟨?_, ?_, ?_⟩
  · intro a b
    unfold Object.isVersionCompatibleTo
    rcases Nat.lt_trichotomy a.version b.version with h | h | h <;>
      simp [h, Nat.ne_of_lt, Nat.ne_of_gt, Nat.lt_asymm] <;> omega
  · intro a b
    unfold Object.isVersionCompatibleTo
    rcases Nat.lt_trichotomy a.version b.version with h | h | h <;>
      simp [h, Nat.ne_of_lt, Nat.ne_of_gt, Nat.lt_asymm]
  · intro fuel dp sp o1 o2 hwf h1 h2 hlook
    constructor
    · intro h
      by_contra hx
      have hcompat : o1.isVersionCompatibleTo o2 = true := by
        cases hcv : o1.isVersionCompatibleTo o2
        · exact absurd hcv hx
        · rfl
      unfold syncObjectF at h
      rw [if_neg (by simp [h1, h2])] at h
      rw [if_neg (by simp [hcompat])] at h
      by_cases htype : o1.type = o2.type
      · rw [if_neg (by simp [htype])] at h
        cases fuel with
        | zero => simp at h
        | succ f =>
          simp only at h
          have hself : lookupIsValid (poolErase dp (o1.uid 0)) (o1.uid 0)
              = false := lookupIsValid_poolErase_self dp _ hwf.1
          have hwf1 : PoolWF (poolErase dp (o1.uid 0)) :=
            PoolWF_poolErase dp _ hwf
          split at h
          · injection h with h2x
            have : lookupIsValid dp (o1.uid 0) = false := by
              have hfst : (poolErase dp (o1.uid 0), sp,
                  (none : Option SyncError)).1 = dp := by rw [h2x]
              simp only at hfst
              rw [← hfst]
              exact hself
            rw [this] at hlook
            exact absurd hlook (by simp)
          · split at h
            · have hwf2 : PoolWF (poolGetInsert (poolErase dp (o1.uid 0))
                  (o1.uid 1)).2 := PoolWF_poolGetInsert _ _ hwf1
              have hstep := ((sync_preserves f).1 _ _ _ _ _ h hwf2).2
              have hres := hstep _
                (lookupIsValid_poolGetInsert_false _ _ _ hself)
              simp only at hres
              rw [hres] at hlook
              exact absurd hlook (by simp)
            · have hstep := ((sync_preserves f).2 _ _ _ _ _ _ h hwf1).2
              have hres := hstep _ hself
              simp only at hres
              rw [hres] at hlook
              exact absurd hlook (by simp)
      · rw [if_pos (by simp [htype])] at h
        simp at h
    · intro hin
      unfold syncObjectF
      rw [if_neg (by simp [h1, h2])]
      rw [if_pos (by simp [hin])]

/-- Witness for C4 at a concrete incompatible pair: destination
version 2 against source version 5 with minimum version 3 raises the
version incompatible error carrying both version pairs, with the pools
unchanged. -/
theorem C4_version_gate_witness :
    syncObjectF 3 vpool [] objV2 objV5 =
      some (vpool, [], some (SyncError.versionIncompatible objV2.version
        objV2.minVersion objV5.version objV5.minVersion)) :=
  (C4_version_compatibility_gate.2.2 3 vpool [] objV2 objV5 (by decide)
    (by decide) (by decide) (by decide)).mpr (by decide)

/-- C8 (confirmed): each value or version mutator invoked on an
invalid object is a silent no-op - no error, and the archive (pool and
modified flag included) and the passed object are returned unchanged;
and for a valid object the "Not an X data type" type mismatch error is
raised exactly when the corresponding kind check on the type fails
(the version mutators never raise). -/
theorem C8_mutators_invalid_noop_and_type_errors :
    (∀ (a : Archive) (o : Object) (v : Int), o.isValid = false →
      a.setIntValue o v = (none, a, o)) ∧
    (∀ (a : Archive) (o : Object), o.isValid = false →
      a.setRealValue o = (none, a, o)) ∧
    (∀ (a : Archive) (o : Object) (v : Bool), o.isValid = false →
      a.setBoolValue o v = (none, a, o)) ∧
    (∀ (a : Archive) (o : Object) (v : Nat), o.isValid = false →
      a.setEnumValue o v = (none, a, o)) ∧
    (∀ (a : Archive) (o : Object) (v : Nat), o.isValid = false →
      a.setVersionOf o v = (none, a, o) ∧ a.setMinVersionOf o v = (none, a, o)) ∧
    (∀ (a : Archive) (o : Object) (v : Int), o.isValid = true →
      (a.setIntValue o v).1 =
        (if o.type.isInteger = false then some "Not an integer data type"
         else none)) ∧
    (∀ (a : Archive) (o : Object), o.isValid = true →
      (a.setRealValue o).1 =
        (if o.type.isReal = false then some "Not a real data type" else none)) ∧
    (∀ (a : Archive) (o : Object) (v : Bool), o.isValid = true →
      (a.setBoolValue o v).1 =
        (if o.type.isBool = false then some "Not a bool data type" else none)) ∧
    (∀ (a : Archive) (o : Object) (v : Nat), o.isValid = true →
      (a.setEnumValue o v).1 =
        (if o.type.isEnum = false then some "Not an enum data type" else none)) ∧
    (∀ (a : Archive) (o : Object) (v : Nat),
      (a.setVersionOf o v).1 = none ∧ (a.setMinVersionOf o v).1 = none) := by
  refine ⟨?_, ?_, ?_, ?_, ?_, ?_, ?_, ?_, ?_, ?_⟩
  · intro a o v h
    unfold Archive.setIntValue
    simp [h]
  · intro a o h
    unfold Archive.setRealValue
    simp [h]
  · intro a o v h
    unfold Archive.setBoolValue
    simp [h]
  · intro a o v h
    unfold Archive.setEnumValue
    simp [h]
  · intro a o v h
    unfold Archive.setVersionOf Archive.setMinVersionOf
    simp [h]
  · intro a o v h
    unfold Archive.setIntValue
    simp only [h, Bool.true_eq_false, if_false]
    by_cases hk : o.type.isInteger = false
    · simp [hk]
    · simp only [hk, if_false]
      by_cases hp : o.type.isPointer = true
      · simp only [hp, if_true]
        by_cases hv : (a.objectByUID (o.uid 1)).1.isValid = false
        · simp [hv]
        · simp [hv]
      · simp [hp]
  · intro a o h
    unfold Archive.setRealValue
    simp only [h, Bool.true_eq_false, if_false]
    by_cases hk : o.type.isReal = false
    · simp [hk]
    · simp only [hk, if_false]
      by_cases hp : o.type.isPointer = true
      · simp only [hp, if_true]
        by_cases hv : (a.objectByUID (o.uid 1)).1.isValid = false
        · simp [hv]
        · simp [hv]
      · simp [hp]
  · intro a o v h
    unfold Archive.setBoolValue
    simp only [h, Bool.true_eq_false, if_false]
    by_cases hk : o.type.isBool = false
    · simp [hk]
    · simp only [hk, if_false]
      by_cases hp : o.type.isPointer = true
      · simp only [hp, if_true]
        by_cases hv : (a.objectByUID (o.uid 1)).1.isValid = false
        · simp [hv]
        · simp [hv]
      · simp [hp]
  · intro a o v h
    unfold Archive.setEnumValue
    simp only [h, Bool.true_eq_false, if_false]
    by_cases hk : o.type.isEnum = false
    · simp [hk]
    · simp only [hk, if_false]
      by_cases hp : o.type.isPointer = true
      · simp only [hp, if_true]
        by_cases hv : (a.objectByUID (o.uid 1)).1.isValid = false
        · simp [hv]
        · simp [hv]
      · simp [hp]
  · intro a o v
    unfold Archive.setVersionOf Archive.setMinVersionOf
    by_cases h : o.isValid = false
    · simp [h]
    · simp [h]

/-- Witness for C8 at concrete values: the invalid default object is a
silent no-op for the integer mutator, the valid `int32` object raises
no error there, and the bool mutator on the same object raises the
bool type mismatch error. -/
theorem C8_mutators_witness :
    archW.setIntValue defaultObject 5 = (none, archW, defaultObject) ∧
    (archW.setIntValue objW 5).1 =
      (if objW.type.isInteger = false then some "Not an integer data type"
       else none) ∧
    (archW.setBoolValue objW true).1 =
      (if objW.type.isBool = false then some "Not a bool data type"
       else none) :=
  ⟨C8_mutators_invalid_noop_and_type_errors.1 archW defaultObject 5 (by decide),
   C8_mutators_invalid_noop_and_type_errors.2.2.2.2.2.1 archW objW 5 (by decide),
   C8_mutators_invalid_noop_and_type_errors.2.2.2.2.2.2.2.1 archW objW true
     (by decide)⟩

/-- C5 (counterexample): looking up the invalid identity `NO_UID` in a
fresh archive does not leave the pool unchanged - the `std::map`
`operator[]` of `objectByUID` inserts a default constructed entry
keyed by the invalid identity, so the pool grows from empty to one
entry, refuting the claim that such a lookup never creates a pool
entry. -/
theorem C5_counterexample_lookup_inserts :
    (Archive.objectByUID archive0 NO_UID).2.allObjects
      = [(NO_UID, defaultObject)] ∧
    archive0.allObjects = [] ∧
    (Archive.objectByUID archive0 NO_UID).2.allObjects
      ≠ archive0.allObjects := by decide

/-- C5 (amended): looking up an identity - in particular an invalid
one - that has no pool entry returns the default constructed invalid
object, but inserts that default entry into the pool under the looked
up identity; the root lookup behaves identically when the root
identity is the looked up one. -/
theorem C5_invalid_lookup_returns_invalid_and_inserts
    (a : Archive) (u : UID) (hu : u.isValid = false)
    (habs : poolFind? a.allObjects u = none) :
    (a.objectByUID u).1 = defaultObject ∧
    (a.objectByUID u).1.isValid = false ∧
    (a.objectByUID u).2.allObjects = poolInsertAt a.allObjects u defaultObject ∧
    (a.root = u → a.rootObject = a.objectByUID u) := by
  have key : a.objectByUID u =
      (defaultObject,
        { a with allObjects := poolInsertAt a.allObjects u defaultObject }) := by
    unfold Archive.objectByUID poolGetInsert
    rw [habs]
  refine ⟨by rw [key], by rw [key]; rfl, by rw [key], ?_⟩
  intro hr
  unfold Archive.rootObject
  rw [hr]

/-- Witness for the amended C5 at a concrete archive and identity. -/
theorem C5_invalid_lookup_witness :
    (Archive.objectByUID archive0 NO_UID).1 = defaultObject ∧
    (Archive.objectByUID archive0 NO_UID).1.isValid = false ∧
    (Archive.objectByUID archive0 NO_UID).2.allObjects
      = poolInsertAt archive0.allObjects NO_UID defaultObject ∧
    (archive0.root = NO_UID →
      Archive.rootObject archive0 = Archive.objectByUID archive0 NO_UID) :=
  C5_invalid_lookup_returns_invalid_and_inserts archive0 NO_UID (by decide) rfl

/-!  Inversion of the codec: decoding an encoder output yields the
encoded data back, bottom up from decimal digits to whole archives.  -/

theorem natDecimalAux_acc (n : Nat) : ∀ acc : List Nat,
    natDecimalAux n acc = natDecimalAux n [] ++ acc := by
  induction n using Nat.strong_induction_on with
  | _ n ih =>
    intro acc
    have e1 : natDecimalAux n acc =
        if n < 10 then (48 + n % 10) :: acc
        else natDecimalAux (n / 10) ((48 + n % 10) :: acc) := by
      rw [natDecimalAux]
    have e2 : natDecimalAux n [] =
        if n < 10 then [48 + n % 10]
        else natDecimalAux (n / 10) [48 + n % 10] := by
      rw [natDecimalAux]
    rw [e1, e2]
    by_cases h : n < 10
    · simp [h]
    · simp only [h, if_false]
      rw [ih (n / 10) (Nat.div_lt_self (by omega) (by omega)) ((48 + n % 10) :: acc),
          ih (n / 10) (Nat.div_lt_self (by omega) (by omega)) [48 + n % 10]]
      simp

theorem toStringNat_eq (n : Nat) :
    toStringNat n =
      if n < 10 then [48 + n % 10]
      else toStringNat (n / 10) ++ [48 + n % 10] := by
  unfold toStringNat
  rw [natDecimalAux]
  by_cases h : n < 10
  · simp [h]
  · simp only [h, if_false]
    exact natDecimalAux_acc (n / 10) [48 + n % 10]

theorem toStringNat_digits (n : Nat) : ∀ c ∈ toStringNat n, 48 ≤ c ∧ c ≤ 57 := by
  induction n using Nat.strong_induction_on with
  | _ n ih =>
    intro c hc
    rw [toStringNat_eq] at hc
    by_cases h : n < 10
    · rw [if_pos h] at hc
      simp at hc
      omega
    · rw [if_neg h] at hc
      rcases List.mem_append.mp hc with h1 | h1
      · exact ih (n / 10) (Nat.div_lt_self (by omega) (by omega)) c h1
      · simp at h1
        omega

theorem toStringNat_ne_nil (n : Nat) : toStringNat n ≠ [] := by
  rw [toStringNat_eq]
  by_cases h : n < 10
  · simp [h]
  · simp [h]

/-- The accumulator semantics of the digit parsing loops. -/
def foldDigits (acc : Nat) (ds : List Nat) : Nat :=
  ds.foldl (fun a c => a * 10 + (c - 48)) acc

theorem foldDigits_toStringNat (n : Nat) : ∀ acc : Nat,
    foldDigits acc (toStringNat n) = acc * 10 ^ (toStringNat n).length + n := by
  induction n using Nat.strong_induction_on with
  | _ n ih =>
    intro acc
    rw [toStringNat_eq]
    by_cases h : n < 10
    · simp [h, foldDigits]
    · rw [if_neg h]
      unfold foldDigits
      rw [List.foldl_append]
      have hrec := ih (n / 10) (Nat.div_lt_self (by omega) (by omega)) acc
      unfold foldDigits at hrec
      rw [hrec]
      simp only [List.length_append, List.length_cons, List.length_nil,
        List.foldl]
      have h48 : 48 + n % 10 - 48 = n % 10 := by omega
      rw [h48, pow_succ]
      ring_nf
      omega

theorem parseBlobSize_digits : ∀ (ds : List Nat) (rest : List Nat) (acc : Nat),
    (∀ c ∈ ds, 48 ≤ c ∧ c ≤ 57) →
    parseBlobSize (ds ++ 58 :: rest) acc = Except.ok (foldDigits acc ds, rest) := by
  intro ds
  induction ds with
  | nil => intro rest acc _; simp [parseBlobSize, foldDigits]
  | cons c cs ih =>
    intro rest acc hd
    have hc := hd c (by simp)
    rw [List.cons_append]
    simp only [parseBlobSize]
    rw [if_neg (by omega), if_pos (by exact hc)]
    rw [ih rest (acc * 10 + (c - 48)) (fun x hx => hd x (by simp [hx]))]
    simp [foldDigits]

theorem parseAllDigits_digits : ∀ (ds : List Nat) (acc : Nat),
    (∀ c ∈ ds, 48 ≤ c ∧ c ≤ 57) →
    parseAllDigits ds acc = Except.ok (foldDigits acc ds) := by
  intro ds
  induction ds with
  | nil => intro acc _; simp [parseAllDigits, foldDigits]
  | cons c cs ih =>
    intro acc hd
    have hc := hd c (by simp)
    simp only [parseAllDigits]
    rw [if_pos (by exact hc)]
    rw [ih (acc * 10 + (c - 48)) (fun x hx => hd x (by simp [hx]))]
    simp [foldDigits]

theorem parseBlobSize_toStringNat (n : Nat) (rest : List Nat) :
    parseBlobSize (toStringNat n ++ 58 :: rest) 0 = Except.ok (n, rest) := by
  rw [parseBlobSize_digits (toStringNat n) rest 0 (toStringNat_digits n)]
  rw [foldDigits_toStringNat]
  simp

theorem parseAllDigits_toStringNat (n : Nat) :
    parseAllDigits (toStringNat n) 0 = Except.ok n := by
  rw [parseAllDigits_digits (toStringNat n) 0 (toStringNat_digits n)]
  rw [foldDigits_toStringNat]
  simp

theorem decodeBlobT_encodeBlob (d rest : List Nat) :
    decodeBlobT (encodeBlob d ++ rest) = Except.ok (d, rest) := by
  unfold decodeBlobT encodeBlob
  rw [List.append_assoc, List.cons_append, parseBlobSize_toStringNat]
  simp only [Bind.bind, Except.bind]
  rw [if_pos (by simp)]
  simp [pure, Except.pure, List.take_left, List.drop_left]

theorem encodeBlob_ne_nil (d : List Nat) : encodeBlob d ≠ [] := by
  unfold encodeBlob
  intro h
  rcases List.append_eq_nil.mp h with ⟨h1, _⟩
  exact toStringNat_ne_nil d.length h1

theorem decodeBlobF_encodeBlob (d rest : List Nat) :
    decodeBlobF (encodeBlob d ++ rest) = Except.ok (d, rest) := by
  unfold decodeBlobF
  rw [if_neg]
  · exact decodeBlobT_encodeBlob d rest
  · simp only [List.isEmpty_eq_true, List.append_eq_nil]
    intro hx
    exact encodeBlob_ne_nil d hx.1

theorem popIntRaw_encode_nonneg (n : Nat) (rest : List Nat) :
    popIntRaw (encodeBlob (toStringNat n) ++ rest) =
      Except.ok ((false, n), rest) := by
  unfold popIntRaw
  rw [decodeBlobT_encodeBlob]
  obtain ⟨c, cs, hc⟩ : ∃ c cs, toStringNat n = c :: cs := by
    cases hx : toStringNat n with
    | nil => exact absurd hx (toStringNat_ne_nil n)
    | cons c cs => exact ⟨c, cs, rfl⟩
  have hdig := toStringNat_digits n
  have hc45 : ¬c = 45 := by
    have := hdig c (by rw [hc]; simp)
    omega
  rw [hc]
  have hpd : parseAllDigits (c :: cs) 0 = Except.ok n := by
    rw [← hc]
    exact parseAllDigits_toStringNat n
  simp [Bind.bind, Except.bind, pure, Except.pure, hc45, hpd]

theorem popIntRaw_encode_neg (m : Nat) (rest : List Nat) :
    popIntRaw (encodeBlob (45 :: toStringNat m) ++ rest) =
      Except.ok ((true, m), rest) := by
  unfold popIntRaw
  rw [decodeBlobT_encodeBlob]
  simp [Bind.bind, Except.bind, pure, Except.pure, parseAllDigits_toStringNat m]

theorem popNatBlob_encode (bits n : Nat) (rest : List Nat) (h : n < 2 ^ bits) :
    popNatBlob bits (encodeBlob (toStringNat n) ++ rest) =
      Except.ok (n, rest) := by
  unfold popNatBlob
  rw [popIntRaw_encode_nonneg]
  simp [Bind.bind, Except.bind, pure, Except.pure, wrapUnsigned,
    Nat.mod_eq_of_lt h]

theorem popSignedBlob_encode_nonneg (bits n : Nat) (rest : List Nat)
    (h : n < 2 ^ (bits - 1)) :
    popSignedBlob bits (encodeBlob (toStringNat n) ++ rest) =
      Except.ok ((n : Int), rest) := by
  have hlt : n < 2 ^ bits := by
    have : (2 : Nat) ^ (bits - 1) ≤ 2 ^ bits :=
      Nat.pow_le_pow_right (by omega) (by omega)
    omega
  unfold popSignedBlob
  rw [popIntRaw_encode_nonneg]
  simp only [Bind.bind, Except.bind, pure, Except.pure]
  unfold wrapSigned wrapUnsigned
  simp only [Bool.false_eq_true, if_false]
  rw [Nat.mod_eq_of_lt hlt, if_pos h]

theorem popSignedBlob_encodeInt (bits : Nat) (i : Int) (rest : List Nat)
    (hb : 1 ≤ bits) (hlo : -(2 ^ (bits - 1) : Nat) ≤ i)
    (hhi : i < (2 ^ (bits - 1) : Nat)) :
    popSignedBlob bits (encodeBlob (toStringInt i) ++ rest) =
      Except.ok (i, rest) := by
  have hpow : (2 : Nat) ^ (bits - 1) * 2 = 2 ^ bits := by
    have h1 : bits - 1 + 1 = bits := by omega
    calc (2 : Nat) ^ (bits - 1) * 2 = 2 ^ (bits - 1 + 1) :=
          (pow_succ 2 (bits - 1)).symm
      _ = 2 ^ bits := by rw [h1]
  unfold toStringInt
  by_cases hneg : i < 0
  · rw [if_pos hneg]
    unfold popSignedBlob
    rw [popIntRaw_encode_neg]
    simp only [Bind.bind, Except.bind, pure, Except.pure]
    unfold wrapSigned wrapUnsigned
    have habs : i.natAbs ≤ 2 ^ (bits - 1) := by omega
    have habs1 : 1 ≤ i.natAbs := by omega
    have hlt2 : i.natAbs < 2 ^ bits := by omega
    simp only [eq_self_iff_true, if_true]
    rw [Nat.mod_eq_of_lt hlt2]
    rw [Nat.mod_eq_of_lt (show 2 ^ bits - i.natAbs < 2 ^ bits by omega)]
    rw [if_neg (show ¬(2 ^ bits - i.natAbs < 2 ^ (bits - 1)) by omega)]
    simp only [Except.ok.injEq, Prod.mk.injEq]
    refine ⟨?_, trivial⟩
    omega
  · rw [if_neg hneg]
    have hi : i = ((i.toNat : Nat) : Int) := by omega
    rw [hi]
    exact popSignedBlob_encode_nonneg bits i.toNat rest (by omega)

theorem popBoolBlob_encode (n : Nat) (rest : List Nat) :
    popBoolBlob (encodeBlob (toStringNat n) ++ rest) =
      Except.ok (decide (n ≠ 0), rest) := by
  unfold popBoolBlob
  rw [popIntRaw_encode_nonneg]
  simp [Bind.bind, Except.bind, pure, Except.pure]

theorem popStringBlob_encode (s rest : List Nat) :
    popStringBlob (encodeBlob s ++ rest) = Except.ok (s, rest) :=
  decodeBlobT_encodeBlob s rest

theorem popTimeBlob_encode (t : Nat) (rest : List Nat) (h : t < 2 ^ 64) :
    popTimeBlob (encodeTime t ++ rest) = Except.ok (t, rest) :=
  popNatBlob_encode 64 t rest h

theorem popUIDBlob_encode (u : UID) (rest : List Nat) (h : UIDWF u) :
    popUIDBlob (encodeUID u ++ rest) = Except.ok (u, rest) := by
  unfold popUIDBlob encodeUID
  rw [decodeBlobT_encodeBlob]
  simp only [Bind.bind, Except.bind]
  rw [if_neg (by
    simp only [List.isEmpty_eq_true, List.append_eq_nil]
    intro hx
    exact encodeBlob_ne_nil _ hx.1)]
  rw [popNatBlob_encode 64 u.id _ h.1]
  simp only [Bind.bind, Except.bind]
  have h2 : encodeBlob (toStringNat u.size) =
      encodeBlob (toStringNat u.size) ++ [] := by simp
  rw [h2, popNatBlob_encode 64 u.size [] h.2]
  simp [Bind.bind, Except.bind, pure, Except.pure]

theorem popDataTypeBlob_encode (t : DataType) (rest : List Nat)
    (h : DataTypeWF t) :
    popDataTypeBlob (encodeDataType t ++ rest) = Except.ok (t, rest) := by
  unfold popDataTypeBlob encodeDataType
  rw [decodeBlobT_encodeBlob]
  simp only [Bind.bind, Except.bind, List.append_assoc]
  unfold popStringBlob
  rw [decodeBlobT_encodeBlob]
  simp only [Bind.bind, Except.bind]
  rw [decodeBlobT_encodeBlob]
  simp only [Bind.bind, Except.bind]
  rw [popSignedBlob_encodeInt 32 t.size _ (by omega)
    (by have := h.1; simpa using this) (by have := h.2; simpa using this)]
  simp only [Bind.bind, Except.bind]
  have hb : encodeBlob (toStringNat (if t.isPointer then 1 else 0)) =
      encodeBlob (toStringNat (if t.isPointer then 1 else 0)) ++ [] := by simp
  rw [hb, popBoolBlob_encode]
  simp only [Bind.bind, Except.bind, pure, Except.pure]
  have hptr : (decide ((if t.isPointer then 1 else 0 : Nat) ≠ 0)) = t.isPointer := by
    cases t.isPointer <;> simp
  rw [hptr]
  simp

theorem encodeUID_ne_nil (u : UID) : encodeUID u ≠ [] := by
  unfold encodeUID
  exact encodeBlob_ne_nil _

theorem popUIDChainLoop_encode : ∀ c : UIDChain, (∀ u ∈ c, UIDWF u) →
    popUIDChainLoop (encodeList encodeUID c) = Except.ok c := by
  intro c
  induction c with
  | nil => intro _; rw [popUIDChainLoop]; simp [encodeList]
  | cons u us ih =>
    intro hwf
    rw [popUIDChainLoop]
    rw [dif_neg (by
      simp only [encodeList, List.isEmpty_eq_true, List.append_eq_nil]
      intro hx
      exact encodeUID_ne_nil u hx.1)]
    have hu := popUIDBlob_encode u (encodeList encodeUID us)
      (hwf u (by simp))
    simp only [encodeList]
    rw [hu]
    dsimp only
    rw [ih (fun x hx => hwf x (by simp [hx]))]

theorem popUIDChainBlob_encode (c : UIDChain) (rest : List Nat)
    (h : ∀ u ∈ c, UIDWF u) :
    popUIDChainBlob (encodeUIDChain c ++ rest) = Except.ok (c, rest) := by
  unfold popUIDChainBlob encodeUIDChain
  rw [decodeBlobT_encodeBlob]
  simp only [Bind.bind, Except.bind]
  rw [popUIDChainLoop_encode c h]
  simp [Bind.bind, Except.bind, pure, Except.pure]

theorem popMemberBlob_encode (m : Member) (rest : List Nat) (h : MemberWF m) :
    popMemberBlob (encodeMember m ++ rest) = Except.ok (m, rest) := by
  unfold popMemberBlob encodeMember
  rw [decodeBlobF_encodeBlob]
  simp only [Bind.bind, Except.bind, List.append_assoc]
  rw [if_neg (by
    simp only [List.isEmpty_eq_true, List.append_eq_nil]
    intro hx
    exact encodeUID_ne_nil m.uid hx.1)]
  rw [popUIDBlob_encode m.uid _ h.2.1]
  simp only [Bind.bind, Except.bind]
  rw [popNatBlob_encode 64 m.offset _ h.2.2.1]
  simp only [Bind.bind, Except.bind]
  unfold popStringBlob
  rw [decodeBlobT_encodeBlob]
  simp only [Bind.bind, Except.bind]
  have hdt : encodeDataType m.type = encodeDataType m.type ++ [] := by simp
  rw [hdt, popDataTypeBlob_encode m.type [] h.2.2.2]
  simp [Bind.bind, Except.bind, pure, Except.pure]

theorem encodeMember_ne_nil (m : Member) : encodeMember m ≠ [] := by
  unfold encodeMember
  exact encodeBlob_ne_nil _

theorem popMembersLoop_encode : ∀ ms : List Member, (∀ m ∈ ms, MemberWF m) →
    popMembersLoop (encodeList encodeMember ms) = Except.ok (ms, []) := by
  intro ms
  induction ms with
  | nil => intro _; rw [popMembersLoop]; simp [encodeList]
  | cons m rest ih =>
    intro hwf
    rw [popMembersLoop]
    rw [dif_neg (by
      simp only [encodeList, List.isEmpty_eq_true, List.append_eq_nil]
      intro hx
      exact encodeMember_ne_nil m hx.1)]
    have hm := popMemberBlob_encode m (encodeList encodeMember rest)
      (hwf m (by simp))
    simp only [encodeList]
    rw [hm]
    dsimp only
    rw [if_pos (hwf m (by simp)).1]
    rw [ih (fun x hx => hwf x (by simp [hx]))]

theorem popMembersBlob_encode (ms : List Member) (rest : List Nat)
    (h : ∀ m ∈ ms, MemberWF m) :
    popMembersBlob (encodeMembers ms ++ rest) = Except.ok (ms, rest) := by
  unfold popMembersBlob encodeMembers
  rw [decodeBlobF_encodeBlob]
  simp only [Bind.bind, Except.bind]
  rw [popMembersLoop_encode ms h]
  simp [Bind.bind, Except.bind, pure, Except.pure]

theorem leToNat_lt : ∀ d : List Nat, (∀ b ∈ d, b < 256) →
    leToNat d < 2 ^ (8 * d.length) := by
  intro d
  induction d with
  | nil => intro _; simp [leToNat]
  | cons b bs ih =>
    intro h
    have hb : b < 256 := h b (by simp)
    have hbs := ih (fun x hx => h x (by simp [hx]))
    simp only [leToNat, List.length_cons]
    have hpow : 2 ^ (8 * (bs.length + 1)) = 2 ^ (8 * bs.length) * 256 := by
      rw [Nat.mul_add, pow_add]
      norm_num
    rw [hpow]
    omega

theorem natToLE_leToNat : ∀ d : List Nat, (∀ b ∈ d, b < 256) →
    natToLE d.length (leToNat d) = d := by
  intro d
  induction d with
  | nil => intro _; simp [natToLE, leToNat]
  | cons b bs ih =>
    intro h
    have hb : b < 256 := h b (by simp)
    simp only [leToNat, List.length_cons, natToLE]
    have h1 : (b + 256 * leToNat bs) % 256 = b := by omega
    have h2 : (b + 256 * leToNat bs) / 256 = leToNat bs := by omega
    rw [h1, h2, ih (fun x hx => h x (by simp [hx]))]

theorem readUnsigned_self (d : List Nat) :
    readUnsigned d.length d = leToNat d := by
  unfold readUnsigned
  rw [List.take_length]

theorem readSigned_eq (d : List Nat) :
    readSigned d.length d =
      if leToNat d < 2 ^ (8 * d.length - 1) then (leToNat d : Int)
      else (leToNat d : Int) - ((2 ^ (8 * d.length) : Nat) : Int) := by
  unfold readSigned
  rw [List.take_length]

theorem readSigned_bounds (d : List Nat) (hb : ∀ b ∈ d, b < 256)
    (hw : 1 ≤ d.length) :
    -((2 ^ (8 * d.length - 1) : Nat) : Int) ≤ readSigned d.length d ∧
      readSigned d.length d < ((2 ^ (8 * d.length - 1) : Nat) : Int) := by
  have hu := leToNat_lt d hb
  have hpow : (2 : Nat) ^ (8 * d.length - 1) * 2 = 2 ^ (8 * d.length) := by
    have h1 : 8 * d.length - 1 + 1 = 8 * d.length := by omega
    calc (2 : Nat) ^ (8 * d.length - 1) * 2 = 2 ^ (8 * d.length - 1 + 1) :=
          (pow_succ 2 _).symm
      _ = 2 ^ (8 * d.length) := by rw [h1]
  rw [readSigned_eq]
  by_cases hc : leToNat d < 2 ^ (8 * d.length - 1)
  · rw [if_pos hc]
    constructor <;> omega
  · rw [if_neg hc]
    constructor <;> omega

theorem intToLE_readSigned (d : List Nat) (hb : ∀ b ∈ d, b < 256) :
    intToLE d.length (readSigned d.length d) = d := by
  have hu := leToNat_lt d hb
  have hmod : (readSigned d.length d %
      ((2 ^ (8 * d.length) : Nat) : Int)).toNat = leToNat d := by
    rw [readSigned_eq]
    by_cases hc : leToNat d < 2 ^ (8 * d.length - 1)
    · rw [if_pos hc]
      rw [Int.emod_eq_of_lt (by positivity) (by exact_mod_cast hu)]
      simp
    · rw [if_neg hc]
      have hsub : ∀ u m : Int, (u - m) % m = u % m := by
        intro u m
        rw [Int.sub_emod, Int.emod_self, sub_zero]
        exact Int.emod_emod_of_dvd u dvd_rfl
      rw [hsub]
      rw [Int.emod_eq_of_lt (by positivity) (by exact_mod_cast hu)]
      simp
  unfold intToLE
  rw [hmod]
  exact natToLE_leToNat d hb

theorem writeBytesAt0_resize_nil (d : List Nat) (w : Nat)
    (hlen : d.length = w) :
    writeBytesAt0 (resizeData [] w) d = d := by
  unfold writeBytesAt0 resizeData
  rw [hlen]
  simp [List.drop_replicate]

theorem store_signed_bytes (d : List Nat) (w : Nat)
    (hlen : d.length = w) (hb : ∀ b ∈ d, b < 256) :
    writeBytesAt0 (resizeData [] w) (intToLE w (readSigned w d)) = d := by
  subst hlen
  rw [intToLE_readSigned d hb]
  exact writeBytesAt0_resize_nil d _ rfl

theorem store_unsigned_bytes (d : List Nat) (w : Nat)
    (hlen : d.length = w) (hb : ∀ b ∈ d, b < 256) :
    writeBytesAt0 (resizeData [] w) (natToLE w (readUnsigned w d)) = d := by
  subst hlen
  rw [readUnsigned_self, natToLE_leToNat d hb]
  exact writeBytesAt0_resize_nil d _ rfl

theorem pop_signed_read (d : List Nat) (w : Nat) (hw : 1 ≤ w)
    (hlen : d.length = w) (hb : ∀ b ∈ d, b < 256) (rest : List Nat) :
    popSignedBlob (8 * w) (encodeBlob (toStringInt (readSigned w d)) ++ rest)
      = Except.ok (readSigned w d, rest) := by
  subst hlen
  have hbounds := readSigned_bounds d hb hw
  exact popSignedBlob_encodeInt (8 * d.length) _ rest (by omega)
    (by have := hbounds.1; simpa using this)
    (by have := hbounds.2; simpa using this)

theorem pop_unsigned_read (d : List Nat) (w : Nat)
    (hlen : d.length = w) (hb : ∀ b ∈ d, b < 256) (rest : List Nat) :
    popNatBlob (8 * w) (encodeBlob (toStringNat (readUnsigned w d)) ++ rest)
      = Except.ok (readUnsigned w d, rest) := by
  subst hlen
  rw [readUnsigned_self]
  exact popNatBlob_encode _ _ rest (leToNat_lt d hb)

theorem isBool_not_isReal (t : DataType) (hb : t.isBool = true) :
    t.isReal = false := by
  unfold DataType.isBool at hb
  unfold DataType.isReal
  have hbase : t.baseTypeName = strBool := by simpa using hb
  rw [hbase]
  decide

theorem popPrimitiveValue_encode (o : Object) (rest : List Nat)
    (hd : ObjectDataWF o) :
    popPrimitiveValue (encodePrimitiveValue o ++ rest) { o with data := [] } =
      Except.ok (o, rest) := by
  have hv : encodePrimitiveValue o =
      encodeBlob (primitiveObjectValueToString o) := rfl
  unfold popPrimitiveValue
  dsimp only
  by_cases hp : (o.type.isPrimitive && !o.type.isPointer) = true
  · rw [if_pos hp]
    have hdspec := hd
    unfold ObjectDataWF at hdspec
    rw [if_pos hp] at hdspec
    obtain ⟨hkind, hbytes, hlen, hwidth, hbool⟩ := hdspec
    by_cases hie : (o.type.isInteger || o.type.isEnum) = true
    · rw [if_pos hie]
      have hw := hwidth hie
      by_cases hs : o.type.isSigned = true
      · rw [if_pos hs]
        rcases hw with h1 | h2 | h4 | h8
        · rw [if_pos h1]
          have hrender : primitiveObjectValueToString o =
              toStringInt (readSigned 1 o.data) := by
            unfold primitiveObjectValueToString
            dsimp only
            rw [if_pos hp, if_pos hie, if_pos hs, if_pos h1]
          rw [hv, hrender]
          have hpop := pop_signed_read o.data 1 (by omega)
            (by rw [hlen, h1]; rfl) hbytes rest
          norm_num at hpop
          rw [hpop]
          simp only [Bind.bind, Except.bind, pure, Except.pure]
          rw [h1]
          simp only [Int.toNat_one]
          rw [store_signed_bytes o.data 1 (by rw [hlen, h1]; rfl) hbytes]
        · rw [if_neg (by rw [h2]; decide), if_pos h2]
          have hrender : primitiveObjectValueToString o =
              toStringInt (readSigned 2 o.data) := by
            unfold primitiveObjectValueToString
            dsimp only
            rw [if_pos hp, if_pos hie, if_pos hs]
            rw [if_neg (by rw [h2]; decide), if_pos h2]
          rw [hv, hrender]
          have hpop := pop_signed_read o.data 2 (by omega)
            (by rw [hlen, h2]; rfl) hbytes rest
          norm_num at hpop
          rw [hpop]
          simp only [Bind.bind, Except.bind, pure, Except.pure]
          rw [h2]
          rw [show ((2 : Int)).toNat = 2 from rfl]
          rw [store_signed_bytes o.data 2 (by rw [hlen, h2]; rfl) hbytes]
        · rw [if_neg (by rw [h4]; decide), if_neg (by rw [h4]; decide),
            if_pos h4]
          have hrender : primitiveObjectValueToString o =
              toStringInt (readSigned 4 o.data) := by
            unfold primitiveObjectValueToString
            dsimp only
            rw [if_pos hp, if_pos hie, if_pos hs]
            rw [if_neg (by rw [h4]; decide), if_neg (by rw [h4]; decide),
              if_pos h4]
          rw [hv, hrender]
          have hpop := pop_signed_read o.data 4 (by omega)
            (by rw [hlen, h4]; rfl) hbytes rest
          norm_num at hpop
          rw [hpop]
          simp only [Bind.bind, Except.bind, pure, Except.pure]
          rw [h4]
          rw [show ((4 : Int)).toNat = 4 from rfl]
          rw [store_signed_bytes o.data 4 (by rw [hlen, h4]; rfl) hbytes]
        · rw [if_neg (by rw [h8]; decide), if_neg (by rw [h8]; decide),
            if_neg (by rw [h8]; decide), if_pos h8]
          have hrender : primitiveObjectValueToString o =
              toStringInt (readSigned 8 o.data) := by
            unfold primitiveObjectValueToString
            dsimp only
            rw [if_pos hp, if_pos hie, if_pos hs]
            rw [if_neg (by rw [h8]; decide), if_neg (by rw [h8]; decide),
              if_neg (by rw [h8]; decide), if_pos h8]
          rw [hv, hrender]
          have hpop := pop_signed_read o.data 8 (by omega)
            (by rw [hlen, h8]; rfl) hbytes rest
          norm_num at hpop
          rw [hpop]
          simp only [Bind.bind, Except.bind, pure, Except.pure]
          rw [h8]
          rw [show ((8 : Int)).toNat = 8 from rfl]
          rw [store_signed_bytes o.data 8 (by rw [hlen, h8]; rfl) hbytes]
      · rw [if_neg hs]
        rcases hw with h1 | h2 | h4 | h8
        · rw [if_pos h1]
          have hrender : primitiveObjectValueToString o =
              toStringNat (readUnsigned 1 o.data) := by
            unfold primitiveObjectValueToString
            dsimp only
            rw [if_pos hp, if_pos hie, if_neg hs, if_pos h1]
          rw [hv, hrender]
          have hpop := pop_unsigned_read o.data 1
            (by rw [hlen, h1]; rfl) hbytes rest
          norm_num at hpop
          rw [hpop]
          simp only [Bind.bind, Except.bind, pure, Except.pure]
          rw [h1]
          simp only [Int.toNat_one]
          rw [store_unsigned_bytes o.data 1 (by rw [hlen, h1]; rfl) hbytes]
        · rw [if_neg (by rw [h2]; decide), if_pos h2]
          have hrender : primitiveObjectValueToString o =
              toStringNat (readUnsigned 2 o.data) := by
            unfold primitiveObjectValueToString
            dsimp only
            rw [if_pos hp, if_pos hie, if_neg hs]
            rw [if_neg (by rw [h2]; decide), if_pos h2]
          rw [hv, hrender]
          have hpop := pop_unsigned_read o.data 2
            (by rw [hlen, h2]; rfl) hbytes rest
          norm_num at hpop
          rw [hpop]
          simp only [Bind.bind, Except.bind, pure, Except.pure]
          rw [h2]
          rw [show ((2 : Int)).toNat = 2 from rfl]
          rw [store_unsigned_bytes o.data 2 (by rw [hlen, h2]; rfl) hbytes]
        · rw [if_neg (by rw [h4]; decide), if_neg (by rw [h4]; decide),
            if_pos h4]
          have hrender : primitiveObjectValueToString o =
              toStringNat (readUnsigned 4 o.data) := by
            unfold primitiveObjectValueToString
            dsimp only
            rw [if_pos hp, if_pos hie, if_neg hs]
            rw [if_neg (by rw [h4]; decide), if_neg (by rw [h4]; decide),
              if_pos h4]
          rw [hv, hrender]
          have hpop := pop_unsigned_read o.data 4
            (by rw [hlen, h4]; rfl) hbytes rest
          norm_num at hpop
          rw [hpop]
          simp only [Bind.bind, Except.bind, pure, Except.pure]
          rw [h4]
          rw [show ((4 : Int)).toNat = 4 from rfl]
          rw [store_unsigned_bytes o.data 4 (by rw [hlen, h4]; rfl) hbytes]
        · rw [if_neg (by rw [h8]; decide), if_neg (by rw [h8]; decide),
            if_neg (by rw [h8]; decide), if_pos h8]
          have hrender : primitiveObjectValueToString o =
              toStringNat (readUnsigned 8 o.data) := by
            unfold primitiveObjectValueToString
            dsimp only
            rw [if_pos hp, if_pos hie, if_neg hs]
            rw [if_neg (by rw [h8]; decide), if_neg (by rw [h8]; decide),
              if_neg (by rw [h8]; decide), if_pos h8]
          rw [hv, hrender]
          have hpop := pop_unsigned_read o.data 8
            (by rw [hlen, h8]; rfl) hbytes rest
          norm_num at hpop
          rw [hpop]
          simp only [Bind.bind, Except.bind, pure, Except.pure]
          rw [h8]
          rw [show ((8 : Int)).toNat = 8 from rfl]
          rw [store_unsigned_bytes o.data 8 (by rw [hlen, h8]; rfl) hbytes]
    · rw [if_neg hie]
      have hb2 : o.type.isBool = true := by
        revert hkind hie
        cases o.type.isInteger <;> cases o.type.isEnum <;>
          cases o.type.isBool <;> simp
      have hr := isBool_not_isReal o.type hb2
      rw [if_neg (by simp [hr]), if_pos hb2]
      obtain ⟨hsz1, hdata01⟩ := hbool hb2
      have hrender0 : o.data = [0] → primitiveObjectValueToString o =
          toStringNat 0 := by
        intro hd0
        unfold primitiveObjectValueToString
        dsimp only
        rw [if_pos hp, if_neg hie, if_neg (by simp [hr]), if_pos hb2, hd0]
        simp
      have hrender1 : o.data = [1] → primitiveObjectValueToString o =
          toStringNat 1 := by
        intro hd1
        unfold primitiveObjectValueToString
        dsimp only
        rw [if_pos hp, if_neg hie, if_neg (by simp [hr]), if_pos hb2, hd1]
        simp
      rcases hdata01 with hd0 | hd1
      · rw [hv, hrender0 hd0]
        rw [popNatBlob_encode 8 0 rest (by norm_num)]
        simp only [Bind.bind, Except.bind, pure, Except.pure]
        rw [hsz1]
        simp only [Int.toNat_one]
        have hst : writeBytesAt0 (resizeData [] 1) (natToLE 1 0)
            = [0] := rfl
        rw [hst, ← hd0]
      · rw [hv, hrender1 hd1]
        rw [popNatBlob_encode 8 1 rest (by norm_num)]
        simp only [Bind.bind, Except.bind, pure, Except.pure]
        rw [hsz1]
        simp only [Int.toNat_one]
        have hst : writeBytesAt0 (resizeData [] 1) (natToLE 1 1)
            = [1] := rfl
        rw [hst, ← hd1]
  · rw [if_neg hp]
    rw [hv]
    have hval : primitiveObjectValueToString o = [] := by
      unfold primitiveObjectValueToString
      dsimp only
      rw [if_neg hp]
    rw [hval]
    rw [decodeBlobF_encodeBlob]
    simp only [Bind.bind, Except.bind, pure, Except.pure]
    have hdat : o.data = [] := by
      unfold ObjectDataWF at hd
      rw [if_neg hp] at hd
      exact hd
    have ho : ({ o with data := [] } : Object) = o := by rw [← hdat]
    rw [ho]
    simp

theorem popObjectBlob_encode (o : Object) (rest : List Nat)
    (h : ObjectWF o) :
    popObjectBlob (encodeObject o ++ rest) = Except.ok (o, rest) := by
  obtain ⟨hval, hver, hminv, hchain, hmem, hdt, hdata⟩ := h
  unfold popObjectBlob encodeObject
  rw [decodeBlobF_encodeBlob]
  simp only [Bind.bind, Except.bind, List.append_assoc]
  rw [if_neg (by
    simp only [List.isEmpty_eq_true, List.append_eq_nil]
    intro hx
    exact encodeBlob_ne_nil _ hx.1)]
  rw [popDataTypeBlob_encode o.type _ hdt]
  simp only [Bind.bind, Except.bind]
  rw [popNatBlob_encode 32 o.version _ hver]
  simp only [Bind.bind, Except.bind]
  rw [popNatBlob_encode 32 o.minVersion _ hminv]
  simp only [Bind.bind, Except.bind]
  rw [popUIDChainBlob_encode o.uidChain _ hchain]
  simp only [Bind.bind, Except.bind]
  rw [popMembersBlob_encode o.members _ hmem]
  simp only [Bind.bind, Except.bind]
  have hap : encodePrimitiveValue o = encodePrimitiveValue o ++ [] := by simp
  rw [hap, popPrimitiveValue_encode o [] hdata]
  simp [Bind.bind, Except.bind, pure, Except.pure]

theorem UID.lt_asymm (a b : UID) (h : UID.lt a b = true) :
    UID.lt b a = false := by
  unfold UID.lt at *
  simp only [Bool.or_eq_true, Bool.and_eq_true, decide_eq_true_eq] at h
  simp only [Bool.or_eq_false_iff, Bool.and_eq_false_iff,
    decide_eq_false_iff_not, not_lt]
  omega

theorem UID.lt_ne (a b : UID) (h : UID.lt a b = true) : a ≠ b := by
  intro he
  subst he
  unfold UID.lt at h
  simp at h

theorem poolSet_append (p : ObjectPool) (u : UID) (o : Object)
    (h : ∀ e ∈ p, UID.lt e.1 u = true) :
    poolSet p u o = p ++ [(u, o)] := by
  induction p with
  | nil => rfl
  | cons kv rest ih =>
    obtain ⟨k, w⟩ := kv
    have hk : UID.lt k u = true := h (k, w) (by simp)
    rw [poolSet]
    rw [if_neg (by simp [UID.lt_asymm k u hk])]
    rw [if_neg (fun he => UID.lt_ne k u hk he)]
    rw [ih (fun e he => h e (by simp [he]))]
    rfl

theorem defaultObject_not_valid : defaultObject.isValid = false := by
  simp [defaultObject, Object.isValid, defaultDataType, DataType.isValid,
    NO_UID, UID.isValid]

theorem popObjectsLoop_encode : ∀ (ps : ObjectPool) (acc : ObjectPool),
    (∀ e ∈ ps, ObjectWF e.2 ∧ e.1 = e.2.uid 0) →
    List.Pairwise (fun a b => UID.lt a.1 b.1 = true) ps →
    (∀ a ∈ acc, ∀ b ∈ ps, UID.lt a.1 b.1 = true) →
    popObjectsLoop acc (encodeList (fun e => encodeObject e.2) ps) =
      Except.ok (acc ++ ps, []) := by
  intro ps
  induction ps with
  | nil =>
    intro acc _ _ _
    rw [popObjectsLoop]
    simp only [encodeList]
    rw [popObjectBlob_nil]
    dsimp only
    rw [dif_neg (by simp [defaultObject_not_valid])]
    simp
  | cons e ps ih =>
    intro acc hwf hsort hacc
    rw [popObjectsLoop]
    simp only [encodeList]
    have hwfe := hwf e (by simp)
    rw [popObjectBlob_encode e.2 _ hwfe.1]
    dsimp only
    rw [dif_pos hwfe.1.1]
    have hkey : e.2.uid 0 = e.1 := hwfe.2.symm
    rw [hkey]
    have hps : poolSet acc e.1 e.2 = acc ++ [e] := by
      rw [poolSet_append acc e.1 e.2
        (fun x hx => hacc x hx e (by simp))]
    rw [hps]
    rw [ih (acc ++ [e]) (fun x hx => hwf x (by simp [hx]))
      (List.Pairwise.sublist (by simp) hsort)
      (by
        intro x hx b hb
        rcases List.mem_append.mp hx with hxa | hxe
        · exact hacc x hxa b (by simp [hb])
        · have hxe2 : x = e := by simpa using hxe
          subst hxe2
          exact (List.pairwise_cons.mp hsort).1 b hb)]
    simp

theorem popObjectsBlob_encode (p : ObjectPool) (rest : List Nat)
    (hwf : ∀ e ∈ p, ObjectWF e.2 ∧ e.1 = e.2.uid 0)
    (hs : PoolSorted p) (hne : p ≠ []) :
    popObjectsBlob [] (encodePool p ++ rest) = Except.ok (p, rest) := by
  unfold popObjectsBlob encodePool
  rw [decodeBlobF_encodeBlob]
  simp only [Bind.bind, Except.bind]
  rw [if_neg (by
    cases p with
    | nil => exact absurd rfl hne
    | cons e ps =>
      simp only [encodeList, List.isEmpty_eq_true, List.append_eq_nil]
      intro hx
      exact encodeBlob_ne_nil _ hx.1)]
  rw [popObjectsLoop_encode p [] hwf hs (by simp)]
  simp [Bind.bind, Except.bind, pure, Except.pure]

theorem magicMismatch_magic (t : List Nat) :
    magicMismatch (strMagic ++ t) = false := by
  unfold magicMismatch
  have h5 : min 5 (strMagic ++ t).length = 5 := by
    simp only [List.length_append]
    have : strMagic.length = 5 := rfl
    omega
  rw [h5]
  have ht : (strMagic ++ t).take 5 = strMagic := by
    rw [show (5 : Nat) = strMagic.length from rfl]
    exact List.take_left _ _
  rw [ht]
  rfl

theorem lookupIsValid_ne_nil (p : ObjectPool) (u : UID)
    (h : lookupIsValid p u = true) : p ≠ [] := by
  intro he
  subst he
  simp [lookupIsValid, poolFind?] at h

theorem poolGetInsert_of_lookupValid (p : ObjectPool) (u : UID)
    (h : lookupIsValid p u = true) :
    (poolGetInsert p u).2 = p ∧ (poolGetInsert p u).1.isValid = true := by
  unfold lookupIsValid at h
  unfold poolGetInsert
  cases hf : poolFind? p u with
  | some o =>
    simp only [hf] at h
    exact ⟨rfl, h⟩
  | none =>
    simp only [hf] at h
    exact Bool.noConfusion h

theorem popRootBlob_encode (a : Archive) (b1 : Archive) (tail : List Nat)
    (hrootv : a.root.isValid = true) (hrootwf : UIDWF a.root)
    (hsort : PoolSorted a.allObjects)
    (hpoolwf : ∀ e ∈ a.allObjects, ObjectWF e.2 ∧ e.1 = e.2.uid 0)
    (hlook : lookupIsValid a.allObjects a.root = true)
    (htc : a.timeCreated < 2 ^ 64) (htm : a.timeModified < 2 ^ 64)
    (hb1 : b1.allObjects = []) :
    popRootBlob (encodeRootBlob a ++ tail) b1 =
      Except.ok { b1 with
          root := a.root,
          allObjects := a.allObjects,
          name := a.name,
          comment := a.comment,
          timeCreated := a.timeCreated,
          timeModified := a.timeModified } := by
  unfold popRootBlob encodeRootBlob
  rw [decodeBlobF_encodeBlob]
  simp only [Bind.bind, Except.bind, List.append_assoc]
  rw [if_neg (by
    simp only [List.isEmpty_eq_true, List.append_eq_nil]
    intro hx
    exact encodeBlob_ne_nil _ hx.1)]
  rw [popSignedBlob_encode_nonneg 32 0 _ (by norm_num)]
  simp only [Bind.bind, Except.bind]
  rw [popUIDBlob_encode a.root _ hrootwf]
  simp only [Bind.bind, Except.bind]
  rw [if_neg (by simp [hrootv])]
  rw [hb1]
  rw [popObjectsBlob_encode a.allObjects _ hpoolwf hsort
    (lookupIsValid_ne_nil _ _ hlook)]
  simp only [Bind.bind, Except.bind]
  have hgi := poolGetInsert_of_lookupValid a.allObjects a.root hlook
  rw [if_neg (by simp [hgi.2])]
  rw [hgi.1]
  rw [popStringBlob_encode a.name]
  simp only [Bind.bind, Except.bind]
  rw [popStringBlob_encode a.comment]
  simp only [Bind.bind, Except.bind]
  rw [popTimeBlob_encode a.timeCreated _ htc]
  simp only [Bind.bind, Except.bind]
  rw [show encodeTime a.timeModified =
    encodeTime a.timeModified ++ [] from (by simp)]
  rw [popTimeBlob_encode a.timeModified [] htm]
  simp [Bind.bind, Except.bind, pure, Except.pure]

/-- **C2.**  (Amended.)  Round trip of the codec on archives holding
no real typed values: decoding (into any archive) the byte stream
produced by encoding a representable archive reconstructs exactly the
encoded object pool under the same identities, the root identity, the
name, the comment and the two (stamped) time stamps, together with the
stored raw data and a cleared modified flag.  Representable
(`ArchiveWF`) bounds every field by the machine integer type the wire
format stores it in and requires value carrying objects to be integer,
enum or bool typed primitives holding exactly their value bytes.  Real
typed primitives are excluded because the frozen claim is false for
them: the encoder renders a real with six significant digits, which
merges distinct values, so they cannot round trip value wise. -/
theorem C2_roundtrip (a b : Archive) (now : Nat)
    (ha : ArchiveWF a) (hnow : now < 2 ^ 64) :
    Archive.decode b (Archive.encodeAt a now).rawData =
      Except.ok { b with
          rawData := (Archive.encodeAt a now).rawData,
          allObjects := a.allObjects,
          isModified := false,
          root := a.root,
          name := a.name,
          comment := a.comment,
          timeCreated := if a.timeCreated = 0 then now else a.timeCreated,
          timeModified := now } := by
  obtain ⟨hrootv, hrootwf, hsort, hpoolwf, hlook, htc⟩ := ha
  unfold Archive.decode
  dsimp only
  have hraw : (Archive.encodeAt a now).rawData =
      strMagic ++ (encodeRootBlob { a with
        timeModified := now,
        timeCreated := if a.timeCreated = 0 then now else a.timeCreated }
        ++ [0]) := by
    unfold Archive.encodeAt
    dsimp only
    rw [List.append_assoc]
  rw [hraw]
  rw [if_neg (by rw [magicMismatch_magic]; simp)]
  have hdrop : ∀ t : List Nat, (strMagic ++ t).drop 5 = t := by
    intro t
    rw [show (5 : Nat) = strMagic.length from rfl]
    exact List.drop_left _ _
  rw [hdrop]
  refine popRootBlob_encode _ _ _ ?_ ?_ ?_ ?_ ?_ ?_ ?_ ?_
  · exact hrootv
  · exact hrootwf
  · exact hsort
  · exact hpoolwf
  · exact hlook
  · dsimp only
    split
    · exact hnow
    · exact htc
  · exact hnow
  · rfl

theorem C2_roundtrip_witness :
    ArchiveWF archW ∧ (7 : Nat) < 2 ^ 64 ∧
    Archive.decode archive0 (Archive.encodeAt archW 7).rawData =
      Except.ok { archive0 with
          rawData := (Archive.encodeAt archW 7).rawData,
          allObjects := archW.allObjects,
          isModified := false,
          root := archW.root,
          name := archW.name,
          comment := archW.comment,
          timeCreated := if archW.timeCreated = 0 then 7
            else archW.timeCreated,
          timeModified := 7 } :=
  ⟨by decide, by decide, C2_roundtrip archW archive0 7 (by decide) (by decide)⟩

theorem bind_ne_error {α β : Type} (P : Except String α)
    (f : α → Except String β) (msg : String)
    (hP : P ≠ Except.error msg) (hf : ∀ v, f v ≠ Except.error msg) :
    (P >>= f) ≠ Except.error msg := by
  cases hp : P with
  | error e =>
    rw [hp] at hP
    simpa [Bind.bind, Except.bind] using hP
  | ok v =>
    have := hf v
    simpa [Bind.bind, Except.bind] using this

theorem parseBlobSize_ne_magic : ∀ (r : List Nat) (a : Nat),
    parseBlobSize r a ≠ Except.error "Decode Error: Magic start missing!" := by
  intro r
  induction r with
  | nil => intro a; simp [parseBlobSize]
  | cons c cs ih =>
    intro a
    rw [parseBlobSize]
    split
    · simp
    · split
      · exact ih _
      · simp

theorem decodeBlobT_ne_magic (r : List Nat) :
    decodeBlobT r ≠ Except.error "Decode Error: Magic start missing!" := by
  unfold decodeBlobT
  apply bind_ne_error _ _ _ (parseBlobSize_ne_magic r 0)
  intro v
  obtain ⟨sz, rest⟩ := v
  dsimp only
  split
  · simp [pure, Except.pure]
  · simp

theorem decodeBlobF_ne_magic (r : List Nat) :
    decodeBlobF r ≠ Except.error "Decode Error: Magic start missing!" := by
  unfold decodeBlobF
  split
  · simp
  · exact decodeBlobT_ne_magic r

theorem parseAllDigits_ne_magic : ∀ (r : List Nat) (a : Nat),
    parseAllDigits r a ≠ Except.error "Decode Error: Magic start missing!" := by
  intro r
  induction r with
  | nil => intro a; simp [parseAllDigits]
  | cons c cs ih =>
    intro a
    rw [parseAllDigits]
    split
    · exact ih _
    · simp

theorem popIntRaw_ne_magic (r : List Nat) :
    popIntRaw r ≠ Except.error "Decode Error: Magic start missing!" := by
  unfold popIntRaw
  apply bind_ne_error _ _ _ (decodeBlobT_ne_magic r)
  intro v
  obtain ⟨inner, after⟩ := v
  dsimp only
  cases inner with
  | nil => simp
  | cons c ds =>
    dsimp only
    split
    · apply bind_ne_error _ _ _ (parseAllDigits_ne_magic ds 0)
      intro n
      simp [pure, Except.pure]
    · apply bind_ne_error _ _ _ (parseAllDigits_ne_magic (c :: ds) 0)
      intro n
      simp [pure, Except.pure]

theorem popNatBlob_ne_magic (bits : Nat) (r : List Nat) :
    popNatBlob bits r ≠ Except.error "Decode Error: Magic start missing!" := by
  unfold popNatBlob
  apply bind_ne_error _ _ _ (popIntRaw_ne_magic r)
  intro v
  simp [pure, Except.pure]

theorem popSignedBlob_ne_magic (bits : Nat) (r : List Nat) :
    popSignedBlob bits r ≠
      Except.error "Decode Error: Magic start missing!" := by
  unfold popSignedBlob
  apply bind_ne_error _ _ _ (popIntRaw_ne_magic r)
  intro v
  simp [pure, Except.pure]

theorem popBoolBlob_ne_magic (r : List Nat) :
    popBoolBlob r ≠ Except.error "Decode Error: Magic start missing!" := by
  unfold popBoolBlob
  apply bind_ne_error _ _ _ (popIntRaw_ne_magic r)
  intro v
  simp [pure, Except.pure]

theorem popStringBlob_ne_magic (r : List Nat) :
    popStringBlob r ≠ Except.error "Decode Error: Magic start missing!" :=
  decodeBlobT_ne_magic r

theorem popTimeBlob_ne_magic (r : List Nat) :
    popTimeBlob r ≠ Except.error "Decode Error: Magic start missing!" :=
  popNatBlob_ne_magic 64 r

theorem popDataTypeBlob_ne_magic (r : List Nat) :
    popDataTypeBlob r ≠
      Except.error "Decode Error: Magic start missing!" := by
  unfold popDataTypeBlob
  apply bind_ne_error _ _ _ (decodeBlobT_ne_magic r)
  intro v
  obtain ⟨inner, after⟩ := v
  apply bind_ne_error _ _ _ (popStringBlob_ne_magic inner)
  intro v1
  obtain ⟨base, i1⟩ := v1
  apply bind_ne_error _ _ _ (popStringBlob_ne_magic i1)
  intro v2
  obtain ⟨custom, i2⟩ := v2
  apply bind_ne_error _ _ _ (popSignedBlob_ne_magic 32 i2)
  intro v3
  obtain ⟨sz, i3⟩ := v3
  apply bind_ne_error _ _ _ (popBoolBlob_ne_magic i3)
  intro v4
  simp [pure, Except.pure]

theorem popUIDBlob_ne_magic (r : List Nat) :
    popUIDBlob r ≠ Except.error "Decode Error: Magic start missing!" := by
  unfold popUIDBlob
  apply bind_ne_error _ _ _ (decodeBlobT_ne_magic r)
  intro v
  obtain ⟨inner, after⟩ := v
  dsimp only
  split
  · simp
  · apply bind_ne_error _ _ _ (popNatBlob_ne_magic 64 inner)
    intro v1
    obtain ⟨idv, i1⟩ := v1
    apply bind_ne_error _ _ _ (popNatBlob_ne_magic 64 i1)
    intro v2
    simp [pure, Except.pure]

theorem popRealBlob_ne_magic (w : Nat) (r : List Nat) :
    popRealBlob w r ≠ Except.error "Decode Error: Magic start missing!" := by
  unfold popRealBlob
  apply bind_ne_error _ _ _ (decodeBlobT_ne_magic r)
  intro v
  obtain ⟨inner, after⟩ := v
  dsimp only
  split
  · simp
  · simp [pure, Except.pure]

theorem popUIDChainLoop_ne_magic : ∀ (n : Nat) (cur : List Nat),
    cur.length ≤ n →
    popUIDChainLoop cur ≠
      Except.error "Decode Error: Magic start missing!" := by
  intro n
  induction n with
  | zero =>
    intro cur hlen
    have hc : cur = [] := List.length_eq_zero.mp (by omega)
    subst hc
    rw [popUIDChainLoop]
    simp
  | succ k ih =>
    intro cur hlen h
    by_cases hc : cur.isEmpty
    · rw [popUIDChainLoop] at h
      rw [dif_pos hc] at h
      simp at h
    · rw [popUIDChainLoop] at h
      rw [dif_neg hc] at h
      cases hu : popUIDBlob cur with
      | error e =>
        rw [hu] at h
        simp only [Except.error.injEq] at h
        exact popUIDBlob_ne_magic cur (by rw [hu, h])
      | ok w =>
        obtain ⟨u, rest⟩ := w
        rw [hu] at h
        simp only at h
        have hrl := popUIDBlob_length cur u rest hu
        cases hrec : popUIDChainLoop rest with
        | error e =>
          rw [hrec] at h
          simp only [Except.error.injEq] at h
          exact ih rest (by omega) (by rw [hrec, h])
        | ok us =>
          rw [hrec] at h
          simp at h

theorem popUIDChainBlob_ne_magic (r : List Nat) :
    popUIDChainBlob r ≠
      Except.error "Decode Error: Magic start missing!" := by
  unfold popUIDChainBlob
  apply bind_ne_error _ _ _ (decodeBlobT_ne_magic r)
  intro v
  obtain ⟨inner, after⟩ := v
  apply bind_ne_error _ _ _ (popUIDChainLoop_ne_magic inner.length inner
    (le_refl _))
  intro chain
  simp [pure, Except.pure]

theorem popMemberBlob_ne_magic (r : List Nat) :
    popMemberBlob r ≠
      Except.error "Decode Error: Magic start missing!" := by
  unfold popMemberBlob
  apply bind_ne_error _ _ _ (decodeBlobF_ne_magic r)
  intro v
  obtain ⟨inner, after⟩ := v
  dsimp only
  split
  · simp [pure, Except.pure]
  · apply bind_ne_error _ _ _ (popUIDBlob_ne_magic inner)
    intro v1
    obtain ⟨uidv, i1⟩ := v1
    apply bind_ne_error _ _ _ (popNatBlob_ne_magic 64 i1)
    intro v2
    obtain ⟨off, i2⟩ := v2
    apply bind_ne_error _ _ _ (popStringBlob_ne_magic i2)
    intro v3
    obtain ⟨namev, i3⟩ := v3
    apply bind_ne_error _ _ _ (popDataTypeBlob_ne_magic i3)
    intro v4
    simp [pure, Except.pure]

theorem popMembersLoop_ne_magic : ∀ (n : Nat) (cur : List Nat),
    cur.length ≤ n →
    popMembersLoop cur ≠
      Except.error "Decode Error: Magic start missing!" := by
  intro n
  induction n with
  | zero =>
    intro cur hlen
    have hc : cur = [] := List.length_eq_zero.mp (by omega)
    subst hc
    rw [popMembersLoop]
    simp
  | succ k ih =>
    intro cur hlen h
    by_cases hc : cur.isEmpty
    · rw [popMembersLoop] at h
      rw [dif_pos hc] at h
      simp at h
    · rw [popMembersLoop] at h
      rw [dif_neg hc] at h
      cases hm : popMemberBlob cur with
      | error e =>
        rw [hm] at h
        simp only [Except.error.injEq] at h
        exact popMemberBlob_ne_magic cur (by rw [hm, h])
      | ok w =>
        obtain ⟨m, rest⟩ := w
        rw [hm] at h
        simp only at h
        have hrl := popMemberBlob_length cur m rest (by simpa using hc) hm
        by_cases hv : m.isValid
        · rw [if_pos hv] at h
          cases hrec : popMembersLoop rest with
          | error e =>
            rw [hrec] at h
            simp only [Except.error.injEq] at h
            exact ih rest (by omega) (by rw [hrec, h])
          | ok w2 =>
            obtain ⟨ms, l⟩ := w2
            rw [hrec] at h
            simp at h
        · rw [if_neg hv] at h
          simp at h

theorem popMembersBlob_ne_magic (r : List Nat) :
    popMembersBlob r ≠
      Except.error "Decode Error: Magic start missing!" := by
  unfold popMembersBlob
  apply bind_ne_error _ _ _ (decodeBlobF_ne_magic r)
  intro v
  obtain ⟨inner, after⟩ := v
  apply bind_ne_error _ _ _ (popMembersLoop_ne_magic inner.length inner
    (le_refl _))
  intro v1
  obtain ⟨ms, l⟩ := v1
  simp [pure, Except.pure]

theorem popPrimitiveValue_ne_magic (r : List Nat) (o : Object) :
    popPrimitiveValue r o ≠
      Except.error "Decode Error: Magic start missing!" := by
  unfold popPrimitiveValue
  dsimp only
  split
  · split
    · split
      · split
        · apply bind_ne_error _ _ _ (popSignedBlob_ne_magic 8 r)
          intro v
          simp [pure, Except.pure]
        · split
          · apply bind_ne_error _ _ _ (popSignedBlob_ne_magic 16 r)
            intro v
            simp [pure, Except.pure]
          · split
            · apply bind_ne_error _ _ _ (popSignedBlob_ne_magic 32 r)
              intro v
              simp [pure, Except.pure]
            · split
              · apply bind_ne_error _ _ _ (popSignedBlob_ne_magic 64 r)
                intro v
                simp [pure, Except.pure]
              · simp
      · split
        · apply bind_ne_error _ _ _ (popNatBlob_ne_magic 8 r)
          intro v
          simp [pure, Except.pure]
        · split
          · apply bind_ne_error _ _ _ (popNatBlob_ne_magic 16 r)
            intro v
            simp [pure, Except.pure]
          · split
            · apply bind_ne_error _ _ _ (popNatBlob_ne_magic 32 r)
              intro v
              simp [pure, Except.pure]
            · split
              · apply bind_ne_error _ _ _ (popNatBlob_ne_magic 64 r)
                intro v
                simp [pure, Except.pure]
              · simp
    · split
      · split
        · apply bind_ne_error _ _ _ (popRealBlob_ne_magic 4 r)
          intro v
          simp [pure, Except.pure]
        · split
          · apply bind_ne_error _ _ _ (popRealBlob_ne_magic 8 r)
            intro v
            simp [pure, Except.pure]
          · simp
      · split
        · apply bind_ne_error _ _ _ (popNatBlob_ne_magic 8 r)
          intro v
          simp [pure, Except.pure]
        · simp
  · apply bind_ne_error _ _ _ (decodeBlobF_ne_magic r)
    intro v
    simp [pure, Except.pure]

theorem popObjectBlob_ne_magic (r : List Nat) :
    popObjectBlob r ≠
      Except.error "Decode Error: Magic start missing!" := by
  unfold popObjectBlob
  apply bind_ne_error _ _ _ (decodeBlobF_ne_magic r)
  intro v
  obtain ⟨inner, after⟩ := v
  dsimp only
  split
  · simp [pure, Except.pure]
  · apply bind_ne_error _ _ _ (popDataTypeBlob_ne_magic inner)
    intro v1
    obtain ⟨ty, i1⟩ := v1
    apply bind_ne_error _ _ _ (popNatBlob_ne_magic 32 i1)
    intro v2
    obtain ⟨ver, i2⟩ := v2
    apply bind_ne_error _ _ _ (popNatBlob_ne_magic 32 i2)
    intro v3
    obtain ⟨minv, i3⟩ := v3
    apply bind_ne_error _ _ _ (popUIDChainBlob_ne_magic i3)
    intro v4
    obtain ⟨chain, i4⟩ := v4
    apply bind_ne_error _ _ _ (popMembersBlob_ne_magic i4)
    intro v5
    obtain ⟨ms, i5⟩ := v5
    apply bind_ne_error _ _ _ (popPrimitiveValue_ne_magic i5 _)
    intro v6
    simp [pure, Except.pure]

theorem popObjectsLoop_ne_magic : ∀ (n : Nat) (pool : ObjectPool)
    (cur : List Nat), cur.length ≤ n →
    popObjectsLoop pool cur ≠
      Except.error "Decode Error: Magic start missing!" := by
  intro n
  induction n with
  | zero =>
    intro pool cur hlen
    have hc : cur = [] := List.length_eq_zero.mp (by omega)
    subst hc
    rw [popObjectsLoop]
    rw [popObjectBlob_nil]
    dsimp only
    rw [dif_neg (by simp [defaultObject_not_valid])]
    simp
  | succ k ih =>
    intro pool cur hlen h
    by_cases hc : cur = []
    · subst hc
      rw [popObjectsLoop] at h
      rw [popObjectBlob_nil] at h
      dsimp only at h
      rw [dif_neg (by simp [defaultObject_not_valid])] at h
      simp at h
    · rw [popObjectsLoop] at h
      cases hb : popObjectBlob cur with
      | error e =>
        rw [hb] at h
        simp only [Except.error.injEq] at h
        exact popObjectBlob_ne_magic cur (by rw [hb, h])
      | ok w =>
        obtain ⟨o, rest⟩ := w
        rw [hb] at h
        simp only at h
        have hrl := popObjectBlob_length cur o rest hc hb
        by_cases hv : o.isValid
        · rw [dif_pos hv] at h
          exact ih (poolSet pool (o.uid 0) o) rest (by omega) h
        · rw [dif_neg hv] at h
          simp at h

theorem popObjectsBlob_ne_magic (pool : ObjectPool) (r : List Nat) :
    popObjectsBlob pool r ≠
      Except.error "Decode Error: Magic start missing!" := by
  unfold popObjectsBlob
  apply bind_ne_error _ _ _ (decodeBlobF_ne_magic r)
  intro v
  obtain ⟨inner, after⟩ := v
  dsimp only
  split
  · simp
  · apply bind_ne_error _ _ _
      (popObjectsLoop_ne_magic inner.length pool inner (le_refl _))
    intro v1
    obtain ⟨pool2, l⟩ := v1
    simp [pure, Except.pure]

theorem popRootBlob_ne_magic (r : List Nat) (a : Archive) :
    popRootBlob r a ≠
      Except.error "Decode Error: Magic start missing!" := by
  unfold popRootBlob
  apply bind_ne_error _ _ _ (decodeBlobF_ne_magic r)
  intro v
  obtain ⟨inner, after⟩ := v
  dsimp only
  split
  · simp
  · apply bind_ne_error _ _ _ (popSignedBlob_ne_magic 32 inner)
    intro v1
    obtain ⟨fmt, i1⟩ := v1
    apply bind_ne_error _ _ _ (popUIDBlob_ne_magic i1)
    intro v2
    obtain ⟨rootv, i2⟩ := v2
    dsimp only
    split
    · simp
    · apply bind_ne_error _ _ _ (popObjectsBlob_ne_magic a.allObjects i2)
      intro v3
      obtain ⟨pool2, i3⟩ := v3
      dsimp only
      split
      · simp
      · apply bind_ne_error _ _ _ (popStringBlob_ne_magic i3)
        intro v4
        obtain ⟨namev, i4⟩ := v4
        apply bind_ne_error _ _ _ (popStringBlob_ne_magic i4)
        intro v5
        obtain ⟨commentv, i5⟩ := v5
        apply bind_ne_error _ _ _ (popTimeBlob_ne_magic i5)
        intro v6
        obtain ⟨tc, i6⟩ := v6
        apply bind_ne_error _ _ _ (popTimeBlob_ne_magic i6)
        intro v7
        simp [pure, Except.pure]

/-- **C6.**  (Corrected.)  The magic gate of `Archive::decode` raises
the magic-start decode error exactly when the first `min(5, length)`
bytes of the input differ from the corresponding prefix of the magic
"Srx1v": the `memcmp` compares only the bytes present, so an input
that is a proper prefix of the magic passes the gate (and fails later
with a different error), contrary to the claim that every input not
beginning with the five magic bytes raises the magic error.  Inputs
that do begin with the five magic bytes never raise it. -/
theorem C6_magic_gate_exact (b : Archive) (d : List Nat) :
    Archive.decode b d =
        Except.error "Decode Error: Magic start missing!" ↔
      d.take (min 5 d.length) ≠ strMagic.take (min 5 d.length) := by
  unfold Archive.decode
  dsimp only
  by_cases hm : magicMismatch d = true
  · rw [if_pos hm]
    unfold magicMismatch at hm
    simp only [bne_iff_ne, ne_eq] at hm
    simpa using hm
  · rw [if_neg hm]
    unfold magicMismatch at hm
    simp only [bne_iff_ne, ne_eq, not_not] at hm
    constructor
    · intro h
      exact absurd h (popRootBlob_ne_magic _ _)
    · intro hne
      exact absurd hm hne

/-- For claim C6: the three byte input "Srx" does not begin with the
five magic bytes (no input shorter than five bytes can), yet decoding
it does not raise the magic-start error: the `memcmp` of the source
compares only `min(5, size)` bytes, so the gate passes and the decoder
fails later with the premature-end error for the root blob. -/
theorem C6_counterexample_short_prefix :
    (∀ t : List Nat, ([83, 114, 120] : List Nat) ≠ strMagic ++ t) ∧
    Archive.decode archive0 [83, 114, 120] =
      Except.error "Decode Error: Premature end of root blob" := by
  constructor
  · intro t h
    simp [strMagic] at h
  · rfl

/-- For claim C2: the round trip fails for real typed primitives, on
every conforming platform.  The two archives below differ only in the
stored `real64` value - the IEEE-754 images of 1000001.0 and
1000000.0 - yet encode to the very same byte stream, because the
encoder renders reals with the standard ostream default of six
significant digits and both values render as "1e+06".  Decoding that
stream therefore cannot restore both pools, whatever the decoder does
with the text. -/
theorem C2_counterexample_real_lossy :
    archR1.allObjects ≠ archR2.allObjects ∧
    (Archive.encodeAt archR1 7).rawData =
      (Archive.encodeAt archR2 7).rawData ∧
    Archive.decode archive0 ((Archive.encodeAt archR1 7).rawData) =
      Archive.decode archive0 ((Archive.encodeAt archR2 7).rawData) := by
  have hrender : primitiveObjectValueToString objR1 =
      primitiveObjectValueToString objR2 := by decide
  have hpv : encodePrimitiveValue objR1 = encodePrimitiveValue objR2 := by
    unfold encodePrimitiveValue
    rw [hrender]
  have hobj : encodeObject objR1 = encodeObject objR2 := by
    unfold encodeObject
    rw [hpv, show objR2.type = objR1.type from rfl,
      show objR2.version = objR1.version from rfl,
      show objR2.minVersion = objR1.minVersion from rfl,
      show objR2.uidChain = objR1.uidChain from rfl,
      show objR2.members = objR1.members from rfl]
  have hpool : encodePool archR1.allObjects = encodePool archR2.allObjects := by
    rw [show archR1.allObjects = [(uidR, objR1)] from rfl,
      show archR2.allObjects = [(uidR, objR2)] from rfl]
    unfold encodePool
    simp only [encodeList]
    rw [hobj]
  have hraw : (Archive.encodeAt archR1 7).rawData =
      (Archive.encodeAt archR2 7).rawData := by
    unfold Archive.encodeAt
    dsimp only
    unfold encodeRootBlob
    dsimp only
    rw [show archR2.root = archR1.root from rfl,
      show archR2.name = archR1.name from rfl,
      show archR2.comment = archR1.comment from rfl,
      show archR2.timeCreated = archR1.timeCreated from rfl,
      hpool]
  exact ⟨by decide, hraw, by rw [hraw]⟩

end Serialization
